import Mathlib

/-!
A verification development for the reactive-property engine in src/Main.cpp
(classes ReactionBase, Reaction, PropertyBase, Property, and the static
scheduler state Reaction::current / Reaction::isDeferred / Reaction::deferred
together with Reaction::DeferredGuard).

The embedding is a fuel-indexed interpreter over an explicit engine state.
Properties and reactions are identified by natural numbers; the value type V
mirrors the template parameter T of Property.  Producer functions and
reaction actions (C++ closures) are modelled by the inductive type Comp: a
computation either returns a value, reads a property (getValue) and
continues with the result, or writes a property (setValue) and continues.
Every state change of the C++ code is mirrored by an explicit state update,
and an event log records the observable actions (dependency registrations,
unsubscriptions, reaction executions, producer invocations, read results,
invalidations, stale-reader insertions) so that temporal statements can be
made about runs.

Fuel conventions: every interpreter call consumes one unit of fuel, so the
fuel bounds the depth of the call tree; exhaustion yields the artificial
result Outcome.timeout, which never corresponds to a behaviour of the C++
code.  The C++ exception thrown by Reaction::DeferredGuard's destructor
(the RecursiveBindingError of the specification) is modelled by
Outcome.thrown carrying the engine state at the throw point; it propagates
and is never caught, matching the source, which has no handler.
-/

/-- Identifier of a Property (a PropertyBase node). -/
abbrev PId := Nat

/-- Identifier of a Reaction object. -/
abbrev RId := Nat

/-- A consumer node (a ReactionBase in C++): either a Property acting as a
consumer or a Reaction. -/
inductive NodeId : Type where
  | prop : Nat → NodeId
  | reac : Nat → NodeId
deriving DecidableEq, Repr

/-- Computations over value type V: the shallow embedding of the C++
closures used as producer functions of properties and as actions of
reactions.  A computation returns a V, may read properties via getValue and
write them via setValue. -/
inductive Comp (V : Type) : Type where
  | pure : V → Comp V
  | read : PId → (V → Comp V) → Comp V
  | set : PId → V → Comp V → Comp V

/-- Events recorded in the engine log, used to state temporal properties.
The Bool on invalidate records whether a batch was active at the call. -/
inductive Ev (V : Type) : Type where
  | regDep : NodeId → PId → Ev V
  | unsub : NodeId → Ev V
  | execR : RId → Ev V
  | invokeP : PId → Ev V
  | readRet : PId → V → Ev V
  | staleInsert : Option NodeId → Ev V
  | invalidate : NodeId → Bool → Ev V
  | nullDeref : Ev V
  | setV : PId → Ev V
deriving DecidableEq, Repr

/-- The per-property state: the fields of Property of Main.cpp together
with the triggeringProperties field it inherits from ReactionBase (its role
as a consumer).  reactionsWhoReceivedOldValue stores Option NodeId because
the C++ code inserts the raw pointer Reaction::current, which can be
null. -/
structure PropState (V : Type) : Type where
  value : V
  func : Option (Comp V)
  dirty : Bool
  executionInProgress : Bool
  reactionsWhoReceivedOldValue : List (Option NodeId)
  dependentReactions : List NodeId
  triggeringProperties : List PId

/-- The per-reaction state: the fields of Reaction plus the inherited
ReactionBase fields. -/
structure ReacState (V : Type) : Type where
  func : Comp V
  dirtImmune : Bool
  triggeringProperties : List PId

/-- The whole engine state: all nodes plus the static scheduler state of
Reaction (current, isDeferred, deferred) and the event log. -/
structure Engine (V : Type) : Type where
  props : PId → PropState V
  reacs : RId → ReacState V
  current : Option NodeId
  isDeferred : Bool
  deferred : List RId
  log : List (Ev V)

/-- The state of a Property object right after construction (Main.cpp lines
132-136): value-initialized value, empty producer function, not dirty, not
recomputing, no edges. -/
def PropState.init {V : Type} [Inhabited V] : PropState V :=
  { value := default
    func := none
    dirty := false
    executionInProgress := false
    reactionsWhoReceivedOldValue := []
    dependentReactions := []
    triggeringProperties := [] }

/-- A reaction state with the given action and no edges (a freshly
constructed Reaction object). -/
def ReacState.init {V : Type} (f : Comp V) : ReacState V :=
  { func := f, dirtImmune := false, triggeringProperties := [] }

/-- The initial engine: default-constructed nodes everywhere, scheduler
idle (Reaction::current null, isDeferred false, deferred empty). -/
def engine0 (V : Type) [Inhabited V] : Engine V :=
  { props := fun _ => PropState.init
    reacs := fun _ => ReacState.init (Comp.pure default)
    current := none
    isDeferred := false
    deferred := []
    log := [] }

/-- Result of running a piece of the engine: a normal result with the final
state, the propagating RecursiveBindingError with the state at the throw
point, or artificial fuel exhaustion of the model. -/
inductive Outcome (V : Type) (α : Type) : Type where
  | ok : α → Engine V → Outcome V α
  | thrown : Engine V → Outcome V α
  | timeout : Outcome V α

/-- Set-like insertion for property-id sets (std::unordered_set insert). -/
def insertPId (p : PId) (l : List PId) : List PId :=
  if p ∈ l then l else l ++ [p]

/-- Set-like insertion for consumer-node sets. -/
def insertNode (c : NodeId) (l : List NodeId) : List NodeId :=
  if c ∈ l then l else l ++ [c]

/-- Set-like insertion for sets of possibly-null consumer pointers. -/
def insertOptNode (c : Option NodeId) (l : List (Option NodeId)) :
    List (Option NodeId) :=
  if c ∈ l then l else l ++ [c]

/-- Set-like insertion for the deferred reaction set. -/
def insertRId (r : RId) (l : List RId) : List RId :=
  if r ∈ l then l else l ++ [r]

section EngineOps

variable {V : Type}

/-- Record an event in the engine log.  The log is kept newest-first (a
cons, not an append), so the events of a run form a prefix of the final
log, in reverse chronological order. -/
def logEv (ev : Ev V) (e : Engine V) : Engine V :=
  { e with log := ev :: e.log }

/-- Update the state of one property. -/
def updProp (p : PId) (f : PropState V → PropState V) (e : Engine V) :
    Engine V :=
  { e with props := fun q => if q = p then f (e.props q) else e.props q }

/-- Update the state of one reaction. -/
def updReac (r : RId) (f : ReacState V → ReacState V) (e : Engine V) :
    Engine V :=
  { e with reacs := fun q => if q = r then f (e.reacs q) else e.reacs q }

/-- The triggeringProperties set of a consumer (ReactionBase field). -/
def getTrig (c : NodeId) (e : Engine V) : List PId :=
  match c with
  | NodeId.prop q => (e.props q).triggeringProperties
  | NodeId.reac r => (e.reacs r).triggeringProperties

/-- Replace the triggeringProperties set of a consumer. -/
def setTrig (c : NodeId) (t : List PId) (e : Engine V) : Engine V :=
  match c with
  | NodeId.prop q =>
      updProp q (fun ps => { ps with triggeringProperties := t }) e
  | NodeId.reac r =>
      updReac r (fun rs => { rs with triggeringProperties := t }) e

/-- ReactionBase::addTriggeringProperty: insert the property into the
consumer's triggeringProperties and the consumer into the property's
dependentReactions (Main.cpp lines 111-114). -/
def addTriggeringProperty (c : NodeId) (p : PId) (e : Engine V) : Engine V :=
  logEv (Ev.regDep c p)
    (updProp p
      (fun ps =>
        { ps with dependentReactions := insertNode c ps.dependentReactions })
      (setTrig c (insertPId p (getTrig c e)) e))

/-- ReactionBase::unsubscribeFromTriggeringProperties: early return when
the set is empty, otherwise erase the consumer from each triggering
property's dependentReactions and clear the set (Main.cpp lines
116-122). -/
def unsubscribeFromTriggeringProperties (c : NodeId) (e : Engine V) :
    Engine V :=
  let t := getTrig c e
  if t = [] then e
  else
    logEv (Ev.unsub c)
      (setTrig c []
        (t.foldl
          (fun acc p =>
            updProp p
              (fun ps =>
                { ps with dependentReactions :=
                    ps.dependentReactions.filter (fun x => x ≠ c) })
              acc)
          e))

/-- Step 1 of Property::getValue (lines 149-151): if a consumer is
currently executing, register this property as one of its triggering
properties. -/
def registerCurrent (p : PId) (e : Engine V) : Engine V :=
  match e.current with
  | some c => addTriggeringProperty c p e
  | none => e

/-- The re-entrant branch of Property::getValue (lines 154-157): record the
current consumer (the raw Reaction::current pointer, possibly null) into
reactionsWhoReceivedOldValue. -/
def staleMark (p : PId) (e : Engine V) : Engine V :=
  logEv (Ev.staleInsert e.current)
    (updProp p
      (fun ps =>
        { ps with reactionsWhoReceivedOldValue :=
            insertOptNode e.current ps.reactionsWhoReceivedOldValue })
      e)

/-- Log the value returned by a getValue call. -/
def retLog (p : PId) (v : V) (e : Engine V) : Engine V :=
  logEv (Ev.readRet p v) e

/-- Requests to the engine interpreter.  All the mutually recursive
operations of Main.cpp are cases of one fuel-indexed function. -/
inductive Req (V : Type) : Type where
  | mkDirty : NodeId → Req V
  | mkDirtyList : List NodeId → Req V
  | mkDirtyOpt : List (Option NodeId) → Req V
  | comp : Comp V → Req V
  | exeProp : PId → Req V
  | staleFix : PId → V → Req V
  | getV : PId → Req V
  | setV : PId → V → Req V
  | exeReac : RId → Req V
  | round : List RId → Req V
  | flush : Nat → Req V

/-- The type of the recursion callback handed to each step function: how to
perform a nested engine request (with one unit of fuel less). -/
def Rec (V : Type) : Type := Req V → Engine V → Outcome V V

/-- The virtual makeDirty dispatch.  For a Reaction (Main.cpp lines 54-58):
no-op when dirtImmune, otherwise insert into the deferred set.  For a
Property (lines 204-210): no-op when already dirty, otherwise set dirty and
recursively invalidate all subscribers. -/
def mkDirtyF [Inhabited V] (rec : Rec V) (c : NodeId) (e0 : Engine V) :
    Outcome V V :=
  let e := logEv (Ev.invalidate c e0.isDeferred) e0
  match c with
  | NodeId.reac r =>
      if (e.reacs r).dirtImmune then Outcome.ok default e
      else Outcome.ok default { e with deferred := insertRId r e.deferred }
  | NodeId.prop p =>
      if (e.props p).dirty then Outcome.ok default e
      else
        rec (Req.mkDirtyList (e.props p).dependentReactions)
          (updProp p (fun ps => { ps with dirty := true }) e)

/-- Property::makeDependentReactionsDirty (lines 212-216): makeDirty over a
list of consumers, in list order. -/
def mkDirtyListF [Inhabited V] (rec : Rec V) (l : List NodeId)
    (e : Engine V) : Outcome V V :=
  match l with
  | [] => Outcome.ok default e
  | c :: rest =>
    match rec (Req.mkDirty c) e with
    | Outcome.ok _ e' => rec (Req.mkDirtyList rest) e'
    | Outcome.thrown s => Outcome.thrown s
    | Outcome.timeout => Outcome.timeout

/-- makeDirty over reactionsWhoReceivedOldValue (lines 171-173).  A null
entry is a call through the null Reaction::current pointer in C++
(undefined behaviour); the model records a nullDeref event and skips it. -/
def mkDirtyOptF [Inhabited V] (rec : Rec V) (l : List (Option NodeId))
    (e : Engine V) : Outcome V V :=
  match l with
  | [] => Outcome.ok default e
  | none :: rest => rec (Req.mkDirtyOpt rest) (logEv Ev.nullDeref e)
  | some c :: rest =>
    match rec (Req.mkDirty c) e with
    | Outcome.ok _ e' => rec (Req.mkDirtyOpt rest) e'
    | Outcome.thrown s => Outcome.thrown s
    | Outcome.timeout => Outcome.timeout

/-- A computation (the body of a C++ closure): reads go through getValue,
writes through setValue. -/
def compF (rec : Rec V) (c : Comp V) (e : Engine V) : Outcome V V :=
  match c with
  | Comp.pure v => Outcome.ok v e
  | Comp.read p k =>
    match rec (Req.getV p) e with
    | Outcome.ok v e' => rec (Req.comp (k v)) e'
    | Outcome.thrown s => Outcome.thrown s
    | Outcome.timeout => Outcome.timeout
  | Comp.set p v k =>
    match rec (Req.setV p v) e with
    | Outcome.ok _ e' => rec (Req.comp k) e'
    | Outcome.thrown s => Outcome.thrown s
    | Outcome.timeout => Outcome.timeout

/-- Property::execute (lines 138-145): ValueGuard on Reaction::current, set
current to this property, unsubscribe from all triggering properties,
invoke the producer function.  The guard restores current on every exit
path, including unwinding.  An absent producer function is modelled as
Comp.pure default; the C++ code never invokes an empty std::function on
paths reachable through this model. -/
def exePropF [Inhabited V] (rec : Rec V) (p : PId) (e : Engine V) :
    Outcome V V :=
  let saved := e.current
  let e1 := logEv (Ev.invokeP p) { e with current := some (NodeId.prop p) }
  let e2 := unsubscribeFromTriggeringProperties (NodeId.prop p) e1
  match rec (Req.comp (((e2.props p).func).getD (Comp.pure default))) e2 with
  | Outcome.ok v e3 => Outcome.ok v { e3 with current := saved }
  | Outcome.thrown s => Outcome.thrown { s with current := saved }
  | Outcome.timeout => Outcome.timeout

/-- Lines 167-176 of Property::getValue: after a recompute, if some
consumers received the old value and the fresh value differs from the old
one, open a DeferredGuard and makeDirty every one of them (the guard's
destructor flushes if this guard is the outermost); afterwards clear the
set.  When the values are equal, only the clear happens. -/
def staleFixF [Inhabited V] [DecidableEq V] (rec : Rec V) (p : PId)
    (oldValue : V) (e : Engine V) : Outcome V V :=
  let readers := (e.props p).reactionsWhoReceivedOldValue
  if readers.length > 0 then
    let afterIf : Outcome V V :=
      if (e.props p).value ≠ oldValue then
        let enabled := !e.isDeferred
        let e1 := { e with isDeferred := true }
        match rec (Req.mkDirtyOpt readers) e1 with
        | Outcome.ok _ e2 =>
          if enabled then rec (Req.flush 64) e2 else Outcome.ok default e2
        | Outcome.thrown s => Outcome.thrown s
        | Outcome.timeout => Outcome.timeout
      else Outcome.ok default e
    match afterIf with
    | Outcome.ok _ e3 =>
        Outcome.ok default
          (updProp p
            (fun ps => { ps with reactionsWhoReceivedOldValue := [] }) e3)
    | Outcome.thrown s => Outcome.thrown s
    | Outcome.timeout => Outcome.timeout
  else Outcome.ok default e

/-- Property::getValue (lines 148-179).  Register the dependency, then: not
dirty, return the cached value; dirty and mid-recompute, take the
re-entrant branch (staleMark) and return the stale cached value; otherwise
snapshot the old value, set executionInProgress, execute, store the result,
clear the flags, run the stale-reader correction, and return the value
field of the final state (the C++ return reads the field after the
correction). -/
def getValueF (rec : Rec V) (p : PId) (e : Engine V) : Outcome V V :=
  let e1 := registerCurrent p e
  let ps := e1.props p
  if ps.dirty then
    if ps.executionInProgress then
      Outcome.ok ps.value (retLog p ps.value (staleMark p e1))
    else
      let oldValue := ps.value
      let e2 := updProp p (fun s => { s with executionInProgress := true }) e1
      match rec (Req.exeProp p) e2 with
      | Outcome.ok v e3 =>
        let e4 :=
          updProp p
            (fun s =>
              { s with
                value := v
                executionInProgress := false
                dirty := false })
            e3
        match rec (Req.staleFix p oldValue) e4 with
        | Outcome.ok _ e5 =>
            Outcome.ok (e5.props p).value (retLog p (e5.props p).value e5)
        | Outcome.thrown s => Outcome.thrown s
        | Outcome.timeout => Outcome.timeout
      | Outcome.thrown s => Outcome.thrown s
      | Outcome.timeout => Outcome.timeout
  else Outcome.ok ps.value (retLog p ps.value e1)

/-- Property::setValue (lines 191-200): unsubscribe, store the value, clear
dirty and the producer function, then within a DeferredGuard makeDirty
every dependent reaction; the guard's destructor flushes if this setValue
opened the outermost scope. -/
def setValueF [Inhabited V] (rec : Rec V) (p : PId) (v : V) (e : Engine V) :
    Outcome V V :=
  let e1 := unsubscribeFromTriggeringProperties (NodeId.prop p) e
  let e2 :=
    logEv (Ev.setV p)
      (updProp p
        (fun ps => { ps with value := v, dirty := false, func := none }) e1)
  let enabled := !e2.isDeferred
  let e3 := { e2 with isDeferred := true }
  match rec (Req.mkDirtyList (e3.props p).dependentReactions) e3 with
  | Outcome.ok _ e4 =>
      if enabled then rec (Req.flush 64) e4 else Outcome.ok default e4
  | Outcome.thrown s => Outcome.thrown s
  | Outcome.timeout => Outcome.timeout

/-- Reaction::execute (lines 60-67): ValueGuard on Reaction::current, set
current to this reaction, unsubscribe from all triggering properties, run
the action. -/
def exeReacF [Inhabited V] (rec : Rec V) (r : RId) (e : Engine V) :
    Outcome V V :=
  let saved := e.current
  let e1 := logEv (Ev.execR r) { e with current := some (NodeId.reac r) }
  let e2 := unsubscribeFromTriggeringProperties (NodeId.reac r) e1
  match rec (Req.comp (e2.reacs r).func) e2 with
  | Outcome.ok _ e3 => Outcome.ok default { e3 with current := saved }
  | Outcome.thrown s => Outcome.thrown { s with current := saved }
  | Outcome.timeout => Outcome.timeout

/-- One round of the flush loop body (lines 89-93): iterate over the
snapshot copy of the deferred set, erasing each entry from deferred just
before executing it. -/
def roundF [Inhabited V] (rec : Rec V) (l : List RId) (e : Engine V) :
    Outcome V V :=
  match l with
  | [] => Outcome.ok default e
  | r :: rest =>
    let e1 := { e with deferred := e.deferred.filter (fun x => x ≠ r) }
    match rec (Req.exeReac r) e1 with
    | Outcome.ok _ e2 => rec (Req.round rest) e2
    | Outcome.thrown s => Outcome.thrown s
    | Outcome.timeout => Outcome.timeout

/-- The enabled branch of Reaction::DeferredGuard's destructor (lines
84-102): while deferred is non-empty and iterations remain, snapshot
deferred and run one round; when the loop stops with the iteration budget
exhausted, throw (before the resets, which are therefore skipped);
otherwise reset isDeferred and clear deferred. -/
def flushF [Inhabited V] (rec : Rec V) (iter : Nat) (e : Engine V) :
    Outcome V V :=
  if e.deferred ≠ [] ∧ iter ≠ 0 then
    match rec (Req.round e.deferred) e with
    | Outcome.ok _ e' => rec (Req.flush (iter - 1)) e'
    | Outcome.thrown s => Outcome.thrown s
    | Outcome.timeout => Outcome.timeout
  else if iter = 0 then Outcome.thrown e
  else Outcome.ok default { e with isDeferred := false, deferred := [] }

/-- One step of the engine interpreter: dispatch a request to the function
modelling the corresponding member function of Main.cpp, handing it the
callback for nested requests. -/
def runStep [Inhabited V] [DecidableEq V] (rec : Rec V) : Rec V := fun req e =>
  match req with
  | Req.mkDirty c => mkDirtyF rec c e
  | Req.mkDirtyList l => mkDirtyListF rec l e
  | Req.mkDirtyOpt l => mkDirtyOptF rec l e
  | Req.comp c => compF rec c e
  | Req.exeProp p => exePropF rec p e
  | Req.staleFix p ov => staleFixF rec p ov e
  | Req.getV p => getValueF rec p e
  | Req.setV p v => setValueF rec p v e
  | Req.exeReac r => exeReacF rec r e
  | Req.round l => roundF rec l e
  | Req.flush iter => flushF rec iter e

/-- The engine interpreter: runStep iterated fuel times.  Every nested
request consumes one unit of fuel, so the fuel bounds the call-tree depth;
Outcome.timeout appears only on fuel exhaustion and corresponds to no C++
behaviour. -/
def run [Inhabited V] [DecidableEq V] (fuel : Nat) : Rec V :=
  Nat.rec (motive := fun _ => Rec V) (fun _ _ => Outcome.timeout)
    (fun _ ih => runStep ih) fuel

variable [Inhabited V] [DecidableEq V]

/-- The virtual ReactionBase::makeDirty dispatch (Reaction lines 54-58,
Property lines 204-210). -/
def makeDirty (fuel : Nat) (c : NodeId) (e : Engine V) : Outcome V V :=
  run fuel (Req.mkDirty c) e

/-- Run a computation (the body of a C++ closure). -/
def runComp (fuel : Nat) (c : Comp V) (e : Engine V) : Outcome V V :=
  run fuel (Req.comp c) e

/-- Property::execute (Main.cpp lines 138-145). -/
def executeProp (fuel : Nat) (p : PId) (e : Engine V) : Outcome V V :=
  run fuel (Req.exeProp p) e

/-- The stale-reader correction step of Property::getValue (lines
167-176). -/
def staleCorrection (fuel : Nat) (p : PId) (oldValue : V) (e : Engine V) :
    Outcome V V :=
  run fuel (Req.staleFix p oldValue) e

/-- Property::getValue (Main.cpp lines 148-179). -/
def getValue (fuel : Nat) (p : PId) (e : Engine V) : Outcome V V :=
  run fuel (Req.getV p) e

/-- Property::setValue (Main.cpp lines 191-200). -/
def setValue (fuel : Nat) (p : PId) (v : V) (e : Engine V) : Outcome V V :=
  run fuel (Req.setV p v) e

/-- Reaction::execute (Main.cpp lines 60-67). -/
def executeReaction (fuel : Nat) (r : RId) (e : Engine V) : Outcome V V :=
  run fuel (Req.exeReac r) e

/-- One round of the flush loop (Main.cpp lines 89-93), over a snapshot of
the deferred set. -/
def runRound (fuel : Nat) (snapshot : List RId) (e : Engine V) :
    Outcome V V :=
  run fuel (Req.round snapshot) e

/-- The enabled branch of Reaction::DeferredGuard's destructor (lines
84-102), with the given remaining iteration budget. -/
def doFlush (fuel : Nat) (iter : Nat) (e : Engine V) : Outcome V V :=
  run fuel (Req.flush iter) e

/-- Property::setFunction (lines 181-189): unsubscribe, store the producer
function, then within a DeferredGuard makeDirty this property (which marks
it dirty and propagates to subscribers without recomputing). -/
def setFunction (fuel : Nat) (p : PId) (f : Comp V) (e : Engine V) :
    Outcome V V :=
  let e1 := unsubscribeFromTriggeringProperties (NodeId.prop p) e
  let e2 := updProp p (fun ps => { ps with func := some f }) e1
  let enabled := !e2.isDeferred
  let e3 := { e2 with isDeferred := true }
  match makeDirty fuel (NodeId.prop p) e3 with
  | Outcome.ok _ e4 =>
      if enabled then doFlush fuel 64 e4 else Outcome.ok default e4
  | Outcome.thrown s => Outcome.thrown s
  | Outcome.timeout => Outcome.timeout

/-- Reaction::Reaction (lines 41-51): store the action; if a batch is
active, insert into deferred without running; otherwise open a
DeferredGuard, execute, and flush when the guard closes.  The id r is
expected to be fresh (a newly constructed object). -/
def newReaction (fuel : Nat) (r : RId) (f : Comp V) (e : Engine V) :
    Outcome V V :=
  let e1 := updReac r (fun _ => ReacState.init f) e
  if e1.isDeferred then
    Outcome.ok default { e1 with deferred := insertRId r e1.deferred }
  else
    let e2 := { e1 with isDeferred := true }
    match executeReaction fuel r e2 with
    | Outcome.ok _ e3 => doFlush fuel 64 e3
    | Outcome.thrown s => Outcome.thrown s
    | Outcome.timeout => Outcome.timeout

/-- Sequence two engine actions, propagating errors. -/
def andThen (o : Outcome V V) (k : Engine V → Outcome V V) : Outcome V V :=
  match o with
  | Outcome.ok _ e => k e
  | Outcome.thrown s => Outcome.thrown s
  | Outcome.timeout => Outcome.timeout

end EngineOps

/-- Extract the engine from an outcome, with a default for timeouts. -/
def outState {V α : Type} (o : Outcome V α) (d : Engine V) : Engine V :=
  match o with
  | Outcome.ok _ e => e
  | Outcome.thrown s => s
  | Outcome.timeout => d

/-- Whether an outcome is the propagating RecursiveBindingError. -/
def isThrown {V α : Type} (o : Outcome V α) : Bool :=
  match o with
  | Outcome.thrown _ => true
  | _ => false

/-- Whether an outcome is a normal completion. -/
def isOk {V α : Type} (o : Outcome V α) : Bool :=
  match o with
  | Outcome.ok _ _ => true
  | _ => false

/-- The edge-set symmetry invariant of the specification: a consumer is in
a producer's subscriber set iff the producer is in the consumer's
dependency set. -/
def EdgeInv {V : Type} (e : Engine V) : Prop :=
  ∀ p c, c ∈ (e.props p).dependentReactions ↔ p ∈ getTrig c e

/-- A free term algebra of values for the diamond scenario: base values
and uninterpreted function symbols fS, gS (unary) and hS (binary), so the
producers B = f(A), C = g(A), D = h(B, C) can be modelled with f, g, h
uninterpreted and every observed value records exactly how it was
computed. -/
inductive DV : Type where
  | base : Nat → DV
  | fS : DV → DV
  | gS : DV → DV
  | hS : DV → DV → DV
deriving DecidableEq, Repr

instance : Inhabited DV := ⟨DV.base 0⟩

/-- Producer of B (property 1): read A (property 0) and apply f. -/
def dB : Comp DV := Comp.read 0 (fun v => Comp.pure (DV.fS v))

/-- Producer of C (property 2): read A and apply g. -/
def dC : Comp DV := Comp.read 0 (fun v => Comp.pure (DV.gS v))

/-- Producer of D (property 3): read B and C, apply h. -/
def dD : Comp DV :=
  Comp.read 1 (fun vb => Comp.read 2 (fun vc => Comp.pure (DV.hS vb vc)))

/-- The action of the reaction observing D. -/
def dR : Comp DV := Comp.read 3 (fun _ => Comp.pure (DV.base 9))

/-- The diamond after setup and one set of A inside a batch, before the
closing flush: A = base 0; B, C, D bound to their producers; reaction 0
reads D; then A is set to base 1 with the batch flag held. -/
def dMid : Outcome DV DV :=
  andThen (setValue 300 0 (DV.base 0) (engine0 DV)) (fun e1 =>
  andThen (setFunction 300 1 dB e1) (fun e2 =>
  andThen (setFunction 300 2 dC e2) (fun e3 =>
  andThen (setFunction 300 3 dD e3) (fun e4 =>
  andThen (newReaction 300 0 dR e4) (fun e5 =>
  setValue 300 0 (DV.base 1) { e5 with isDeferred := true })))))

/-- The diamond after the closing flush of the batch. -/
def dPost : Outcome DV DV := andThen dMid (fun e => doFlush 300 64 e)

/-- The newest-first log segment produced by the closing flush alone. -/
def dSeg : List (Ev DV) :=
  ((outState dPost (engine0 DV)).log).take
    (((outState dPost (engine0 DV)).log).length -
      ((outState dMid (engine0 DV)).log).length)

/-- Recognize the execution event of a given reaction. -/
def isExecOf (r : RId) : Ev DV → Bool
  | Ev.execR r2 => r2 == r
  | _ => false

/-- Recognize a getValue return event of a given property. -/
def isReadRetOf (p : PId) : Ev DV → Bool
  | Ev.readRet p2 _ => p2 == p
  | _ => false

/-- A chain of 64 reactions: reaction r writes property r, and property
r's only subscriber is reaction r+1 (for r+1 < 64); reaction 0 starts
pending inside a batch.  Each flush round executes one reaction and
enqueues the next, so the pending set empties only during the 64th
round. -/
def chainE : Engine Int :=
  { props := fun p =>
      { PropState.init with
        dependentReactions :=
          if p + 1 < 64 then [NodeId.reac (p + 1)] else [] }
    reacs := fun r => ReacState.init (Comp.set r 1 (Comp.pure 0))
    current := none
    isDeferred := true
    deferred := [0]
    log := [] }

/-- A diverging workload: reaction 0 reads property 0 and writes it back
incremented, so every flush round re-enqueues the reaction forever. -/
def divE : Engine Int :=
  { props := fun _ => PropState.init
    reacs := fun _ =>
      ReacState.init (Comp.read 0 (fun v => Comp.set 0 (v + 1) (Comp.pure 0)))
    current := none
    isDeferred := true
    deferred := [0]
    log := [] }

/-- A dirty property 0 whose producer reads property 1 and then assigns
property 0 (itself) with setValue: the mid-recompute self-assignment
unsubscribes property 0 from everything it has read so far. -/
def c5e : Engine Int :=
  { props := fun p =>
      if p = 0 then
        { PropState.init with
          func := some (Comp.read 1 (fun v => Comp.set 0 v (Comp.pure v)))
          dirty := true }
      else { PropState.init with value := 3 }
    reacs := fun _ => ReacState.init (Comp.pure 0)
    current := none
    isDeferred := false
    deferred := []
    log := [] }

/-- Every property dirty and mid-recompute, read while reaction 0 is the
current consumer. -/
def reentE : Engine Int :=
  { props := fun _ =>
      { PropState.init with
        value := 7
        dirty := true
        executionInProgress := true }
    reacs := fun _ => ReacState.init (Comp.pure 0)
    current := some (NodeId.reac 0)
    isDeferred := false
    deferred := []
    log := [] }

/-- A property holding one stale reader, inside a batch. -/
def staleE : Engine Int :=
  { props := fun _ =>
      { PropState.init with
        value := 5
        reactionsWhoReceivedOldValue := [some (NodeId.reac 0)] }
    reacs := fun _ => ReacState.init (Comp.pure 0)
    current := none
    isDeferred := true
    deferred := []
    log := [] }

/-- A reaction whose action reads property 1. -/
def c5w : Engine Int :=
  { props := fun _ => PropState.init
    reacs := fun _ => ReacState.init (Comp.read 1 (fun v => Comp.pure v))
    current := none
    isDeferred := true
    deferred := []
    log := [] }

/-- One pending trivial reaction inside a batch. -/
def roundE : Engine Int :=
  { props := fun _ => PropState.init
    reacs := fun _ => ReacState.init (Comp.pure 0)
    current := none
    isDeferred := true
    deferred := [0]
    log := [] }

/-- Frame relation: the two engine states agree on every field except
possibly the edge sets (dependentReactions and triggeringProperties) and
the log. -/
structure EqCore {V : Type} (e e' : Engine V) : Prop where
  valueEq : ∀ q, (e'.props q).value = (e.props q).value
  funcEq : ∀ q, (e'.props q).func = (e.props q).func
  dirtyEq : ∀ q, (e'.props q).dirty = (e.props q).dirty
  execEq : ∀ q,
    (e'.props q).executionInProgress = (e.props q).executionInProgress
  staleEq : ∀ q,
    (e'.props q).reactionsWhoReceivedOldValue =
      (e.props q).reactionsWhoReceivedOldValue
  rfuncEq : ∀ r, (e'.reacs r).func = (e.reacs r).func
  rimmEq : ∀ r, (e'.reacs r).dirtImmune = (e.reacs r).dirtImmune
  currentEq : e'.current = e.current
  batchEq : e'.isDeferred = e.isDeferred
  deferredEq : e'.deferred = e.deferred

/-- The log of the second state extends (as a newest-first list: has as a
suffix) the log of the first. -/
def LogLe {V : Type} (e e' : Engine V) : Prop := e.log <:+ e'.log

/-- The log only ever grows: specification of one interpreter result. -/
def LogGrows {V : Type} (e : Engine V) (o : Outcome V V) : Prop :=
  match o with
  | Outcome.ok _ e' => LogLe e e'
  | Outcome.thrown s => LogLe e s
  | Outcome.timeout => True

/-- Two states have identical edge sets (subscriber and dependency
sides). -/
def EdgesEq {V : Type} (e e' : Engine V) : Prop :=
  (∀ q, (e'.props q).dependentReactions = (e.props q).dependentReactions) ∧
  (∀ c, getTrig c e' = getTrig c e)

/-- EdgeInv transported along a result: specification of one interpreter
result for the edge-symmetry invariant. -/
def EdgePres {V : Type} (o : Outcome V V) : Prop :=
  match o with
  | Outcome.ok _ e' => EdgeInv e'
  | Outcome.thrown s => EdgeInv s
  | Outcome.timeout => True

/-- No reactionsWhoReceivedOldValue set contains the null consumer. -/
def NoNullStale {V : Type} (e : Engine V) : Prop :=
  ∀ q, Option.none ∉ (e.props q).reactionsWhoReceivedOldValue

/-- Whenever some property is mid-recompute, a consumer is current: the
condition under which a re-entrant read records a non-null consumer. -/
def SafeRead {V : Type} (e : Engine V) : Prop :=
  ∀ q, (e.props q).executionInProgress = true → e.current ≠ none

/-- The log carries no evidence of a null stale reader: no staleInsert of
the null consumer and no null dereference. -/
def CleanLog {V : Type} (e : Engine V) : Prop :=
  Ev.staleInsert (V := V) none ∉ e.log ∧ Ev.nullDeref (V := V) ∉ e.log

/-- The ok-result specification of the null-safety induction: the stale
sets stay null-free, the current consumer and the recomputing flags are
restored, and the log stays clean. -/
def StepPre {V : Type} (e e' : Engine V) : Prop :=
  NoNullStale e' ∧ e'.current = e.current ∧
  (∀ q, (e'.props q).executionInProgress = (e.props q).executionInProgress) ∧
  (CleanLog e → CleanLog e')

/-- Null-safety specification of one interpreter result. -/
def PrePres {V : Type} (e : Engine V) (o : Outcome V V) : Prop :=
  match o with
  | Outcome.ok _ e' => StepPre e e'
  | Outcome.thrown s => NoNullStale s ∧ (CleanLog e → CleanLog s)
  | Outcome.timeout => True

/-- Entry requirements of the null-safety induction, per request: execute
requests establish a current consumer themselves, makeDirty over a stale
set requires the set to be null-free, and everything else requires
SafeRead. -/
def EntryOk {V : Type} (req : Req V) (e : Engine V) : Prop :=
  match req with
  | Req.exeProp _ => True
  | Req.exeReac _ => True
  | Req.mkDirty _ => True
  | Req.mkDirtyList _ => True
  | Req.mkDirtyOpt l => Option.none ∉ l
  | _ => SafeRead e

/-- Relation between states across an operation performed while a batch is
active: the batch flag is unchanged, the log grows only by events that are
not reaction executions, and distinctness of the deferred set is
preserved. -/
def NoExecLe {V : Type} (e e' : Engine V) : Prop :=
  e'.isDeferred = e.isDeferred ∧
  (∃ L, e'.log = L ++ e.log ∧ ∀ r, Ev.execR (V := V) r ∉ L) ∧
  (e.deferred.Nodup → e'.deferred.Nodup)

/-- In-batch specification of one interpreter result: never the
RecursiveBindingError, and ok results satisfy NoExecLe. -/
def DefCtx {V : Type} (e : Engine V) (o : Outcome V V) : Prop :=
  match o with
  | Outcome.ok _ e' => NoExecLe e e'
  | Outcome.thrown _ => False
  | Outcome.timeout => True

/-- The requests that occur while the flush machinery is not re-entered:
everything except executing a reaction, a round, or the flush loop. -/
def InnerReq {V : Type} : Req V → Prop
  | Req.exeReac _ => False
  | Req.round _ => False
  | Req.flush _ => False
  | _ => True

/-- Count of executions of reaction r recorded in a log. -/
def countExec {V : Type} (r : RId) (L : List (Ev V)) : Nat :=
  L.countP (fun ev =>
    match ev with
    | Ev.execR r' => r' == r
    | _ => false)

/-- Specification of executing one reaction while a batch is active: it
runs exactly once (one execR event), everything else it causes executes no
reaction, the batch flag stays set, and no RecursiveBindingError can
arise. -/
def ExecOnce {V : Type} (r : RId) (e : Engine V) (o : Outcome V V) : Prop :=
  match o with
  | Outcome.ok _ e' =>
      (∃ L, e'.log = L ++ (Ev.execR r :: e.log) ∧
        ∀ r', Ev.execR (V := V) r' ∉ L) ∧
      e'.isDeferred = e.isDeferred ∧
      (e.deferred.Nodup → e'.deferred.Nodup)
  | Outcome.thrown _ => False
  | Outcome.timeout => True

/-- Specification of one round of the flush: each snapshot member executes
exactly once, nothing else executes, the batch flag is unchanged,
distinctness of deferred is preserved, and no error can arise. -/
def RoundSpec {V : Type} (snap : List RId) (e : Engine V)
    (o : Outcome V V) : Prop :=
  match o with
  | Outcome.ok _ e' =>
      (∀ r, countExec r e'.log =
        countExec r e.log + (if r ∈ snap then 1 else 0)) ∧
      e'.isDeferred = e.isDeferred ∧
      (e.deferred.Nodup → e'.deferred.Nodup)
  | Outcome.thrown _ => False
  | Outcome.timeout => True

/-- The flush loop, entered with the given fuel, runs exactly k successive
rounds from e to efin, the pending set non-empty at the start of every one
of them, each round completing normally. -/
inductive RunsRounds {V : Type} [Inhabited V] [DecidableEq V] :
    Nat → Nat → Engine V → Engine V → Prop
  | zero (fuel : Nat) (e : Engine V) : RunsRounds (fuel + 1) 0 e e
  | succ (fuel k : Nat) (e e1 efin : Engine V) (v : V) :
      e.deferred ≠ [] →
      run fuel (Req.round e.deferred) e = Outcome.ok v e1 →
      RunsRounds fuel k e1 efin →
      RunsRounds (fuel + 1) (k + 1) e efin

/-- The flush loop, entered with the given fuel, reaches an empty pending
set after exactly k rounds, every round up to there starting with a
non-empty pending set and completing normally. -/
inductive ConvergesIn {V : Type} [Inhabited V] [DecidableEq V] :
    Nat → Nat → Engine V → Engine V → Prop
  | done (fuel : Nat) (e : Engine V) :
      e.deferred = [] → ConvergesIn (fuel + 1) 0 e e
  | step (fuel k : Nat) (e e1 efin : Engine V) (v : V) :
      e.deferred ≠ [] →
      run fuel (Req.round e.deferred) e = Outcome.ok v e1 →
      ConvergesIn fuel k e1 efin →
      ConvergesIn (fuel + 1) (k + 1) e efin

/-- How one logged event changes a given consumer's dependency
(triggeringProperties) set: a dependency registration by that consumer
inserts the producer, an unsubscription by that consumer empties the set,
and every other event leaves it unchanged. -/
def applyEv {V : Type} [DecidableEq V] (c : NodeId) (ev : Ev V)
    (d : List PId) : List PId :=
  match ev with
  | Ev.regDep c2 p => if c2 = c then insertPId p d else d
  | Ev.unsub c2 => if c2 = c then [] else d
  | _ => d

/-- Replay a newest-first log segment over a consumer's dependency set,
oldest event first. -/
def depsEvo {V : Type} [DecidableEq V] (c : NodeId) (d : List PId)
    (L : List (Ev V)) : List PId :=
  L.foldr (fun ev acc => applyEv c ev acc) d

/-- The producers a consumer has read since its most recent unsubscription
within a newest-first log segment: the replay of the segment over the
empty dependency set. -/
def readsSince {V : Type} [DecidableEq V] (c : NodeId) (L : List (Ev V)) :
    List PId :=
  depsEvo c [] L

/-- Between two states, the log has grown by a segment whose replay maps
every consumer's old dependency set to its new one. -/
def DepsStep {V : Type} [DecidableEq V] (e e2 : Engine V) : Prop :=
  ∃ L, e2.log = L ++ e.log ∧ ∀ c, getTrig c e2 = depsEvo c (getTrig c e) L

/-- The dependency sets of all consumers evolve exactly by replay of the
logged events: specification of one interpreter result. -/
def DepsPres {V : Type} [DecidableEq V] (e : Engine V) (o : Outcome V V) :
    Prop :=
  match o with
  | Outcome.ok _ e2 => DepsStep e e2
  | Outcome.thrown s => DepsStep e s
  | Outcome.timeout => True

section BasicLemmas

variable {V : Type}

theorem updProp_props (p : PId) (f : PropState V → PropState V)
    (e : Engine V) (q : PId) :
    (updProp p f e).props q = if q = p then f (e.props q) else e.props q :=
  rfl

theorem updProp_props_self (p : PId) (f : PropState V → PropState V)
    (e : Engine V) : (updProp p f e).props p = f (e.props p) := by
  simp [updProp_props]

theorem updProp_props_ne (p : PId) (f : PropState V → PropState V)
    (e : Engine V) (q : PId) (h : q ≠ p) :
    (updProp p f e).props q = e.props q := by
  simp [updProp_props, h]

@[simp] theorem updProp_reacs (p : PId) (f : PropState V → PropState V)
    (e : Engine V) : (updProp p f e).reacs = e.reacs := rfl

@[simp] theorem updProp_current (p : PId) (f : PropState V → PropState V)
    (e : Engine V) : (updProp p f e).current = e.current := rfl

@[simp] theorem updProp_isDeferred (p : PId) (f : PropState V → PropState V)
    (e : Engine V) : (updProp p f e).isDeferred = e.isDeferred := rfl

@[simp] theorem updProp_deferred (p : PId) (f : PropState V → PropState V)
    (e : Engine V) : (updProp p f e).deferred = e.deferred := rfl

@[simp] theorem updProp_log (p : PId) (f : PropState V → PropState V)
    (e : Engine V) : (updProp p f e).log = e.log := rfl

theorem updReac_reacs (r : RId) (f : ReacState V → ReacState V)
    (e : Engine V) (q : RId) :
    (updReac r f e).reacs q = if q = r then f (e.reacs q) else e.reacs q :=
  rfl

@[simp] theorem updReac_props (r : RId) (f : ReacState V → ReacState V)
    (e : Engine V) : (updReac r f e).props = e.props := rfl

@[simp] theorem updReac_current (r : RId) (f : ReacState V → ReacState V)
    (e : Engine V) : (updReac r f e).current = e.current := rfl

@[simp] theorem updReac_isDeferred (r : RId) (f : ReacState V → ReacState V)
    (e : Engine V) : (updReac r f e).isDeferred = e.isDeferred := rfl

@[simp] theorem updReac_deferred (r : RId) (f : ReacState V → ReacState V)
    (e : Engine V) : (updReac r f e).deferred = e.deferred := rfl

@[simp] theorem updReac_log (r : RId) (f : ReacState V → ReacState V)
    (e : Engine V) : (updReac r f e).log = e.log := rfl

@[simp] theorem logEv_log (ev : Ev V) (e : Engine V) :
    (logEv ev e).log = ev :: e.log := rfl

@[simp] theorem logEv_props (ev : Ev V) (e : Engine V) :
    (logEv ev e).props = e.props := rfl

@[simp] theorem logEv_reacs (ev : Ev V) (e : Engine V) :
    (logEv ev e).reacs = e.reacs := rfl

@[simp] theorem logEv_current (ev : Ev V) (e : Engine V) :
    (logEv ev e).current = e.current := rfl

@[simp] theorem logEv_isDeferred (ev : Ev V) (e : Engine V) :
    (logEv ev e).isDeferred = e.isDeferred := rfl

@[simp] theorem logEv_deferred (ev : Ev V) (e : Engine V) :
    (logEv ev e).deferred = e.deferred := rfl

end BasicLemmas

section EdgeOpLemmas

variable {V : Type}

theorem mem_insertPId (x p : PId) (l : List PId) :
    x ∈ insertPId p l ↔ x = p ∨ x ∈ l := by
  unfold insertPId
  by_cases h : p ∈ l
  · simp only [if_pos h]
    constructor
    · exact Or.inr
    · rintro (rfl | h1)
      · exact h
      · exact h1
  · simp [if_neg h, List.mem_append, or_comm]

theorem mem_insertNode (x c : NodeId) (l : List NodeId) :
    x ∈ insertNode c l ↔ x = c ∨ x ∈ l := by
  unfold insertNode
  by_cases h : c ∈ l
  · simp only [if_pos h]
    constructor
    · exact Or.inr
    · rintro (rfl | h1)
      · exact h
      · exact h1
  · simp [if_neg h, List.mem_append, or_comm]

theorem mem_insertRId (x r : RId) (l : List RId) :
    x ∈ insertRId r l ↔ x = r ∨ x ∈ l := by
  unfold insertRId
  by_cases h : r ∈ l
  · simp only [if_pos h]
    constructor
    · exact Or.inr
    · rintro (rfl | h1)
      · exact h
      · exact h1
  · simp [if_neg h, List.mem_append, or_comm]

theorem mem_insertOptNode (x c : Option NodeId) (l : List (Option NodeId)) :
    x ∈ insertOptNode c l ↔ x = c ∨ x ∈ l := by
  unfold insertOptNode
  by_cases h : c ∈ l
  · simp only [if_pos h]
    constructor
    · exact Or.inr
    · rintro (rfl | h1)
      · exact h
      · exact h1
  · simp [if_neg h, List.mem_append, or_comm]

theorem nodup_insertRId (r : RId) (l : List RId) (h : l.Nodup) :
    (insertRId r l).Nodup := by
  unfold insertRId
  by_cases hm : r ∈ l <;> simp [hm, List.nodup_append, h]

theorem nodup_filter_ne (r : RId) (l : List RId) (h : l.Nodup) :
    (l.filter (fun x => x ≠ r)).Nodup := h.filter _


theorem eqCore_refl (e : Engine V) : EqCore e e :=
  ⟨fun _ => rfl, fun _ => rfl, fun _ => rfl, fun _ => rfl, fun _ => rfl,
   fun _ => rfl, fun _ => rfl, rfl, rfl, rfl⟩

theorem eqCore_trans {e1 e2 e3 : Engine V} (h1 : EqCore e1 e2)
    (h2 : EqCore e2 e3) : EqCore e1 e3 := by
  constructor <;> intros <;>
    simp [h2.valueEq, h2.funcEq, h2.dirtyEq, h2.execEq, h2.staleEq,
      h2.rfuncEq, h2.rimmEq, h2.currentEq, h2.batchEq, h2.deferredEq,
      h1.valueEq, h1.funcEq, h1.dirtyEq, h1.execEq, h1.staleEq,
      h1.rfuncEq, h1.rimmEq, h1.currentEq, h1.batchEq, h1.deferredEq]

theorem eqCore_logEv (ev : Ev V) (e : Engine V) : EqCore e (logEv ev e) :=
  ⟨fun _ => rfl, fun _ => rfl, fun _ => rfl, fun _ => rfl, fun _ => rfl,
   fun _ => rfl, fun _ => rfl, rfl, rfl, rfl⟩

theorem eqCore_setTrig (c : NodeId) (t : List PId) (e : Engine V) :
    EqCore e (setTrig c t e) := by
  cases c <;>
    (refine ⟨?_, ?_, ?_, ?_, ?_, ?_, ?_, ?_, ?_, ?_⟩ <;> intros <;>
      simp [setTrig, updProp_props, updReac_reacs] <;> (try split) <;>
        (try rfl))

end EdgeOpLemmas

section EdgeCharLemmas

variable {V : Type}

theorem eqCore_addTrig (c : NodeId) (p : PId) (e : Engine V) :
    EqCore e (addTriggeringProperty c p e) := by
  refine eqCore_trans (eqCore_trans (eqCore_setTrig c (insertPId p (getTrig c e)) e) ?_)
    (eqCore_logEv _ _)
  refine ⟨?_, ?_, ?_, ?_, ?_, ?_, ?_, ?_, ?_, ?_⟩ <;> intros <;>
    simp [updProp_props] <;> (try split) <;> (try rfl)

theorem getTrig_setTrig_self (c : NodeId) (t : List PId) (e : Engine V) :
    getTrig c (setTrig c t e) = t := by
  cases c <;> simp [getTrig, setTrig, updProp_props, updReac_reacs]

theorem getTrig_setTrig_ne (c c' : NodeId) (t : List PId) (e : Engine V)
    (h : c' ≠ c) : getTrig c' (setTrig c t e) = getTrig c' e := by
  cases c with
  | prop a =>
    cases c' with
    | prop b =>
      have hab : b ≠ a := fun hba => h (by rw [hba])
      simp [getTrig, setTrig, updProp_props, hab]
    | reac b => simp [getTrig, setTrig]
  | reac a =>
    cases c' with
    | prop b => simp [getTrig, setTrig]
    | reac b =>
      have hab : b ≠ a := fun hba => h (by rw [hba])
      simp [getTrig, setTrig, updReac_reacs, hab]

theorem getTrig_logEv (c : NodeId) (ev : Ev V) (e : Engine V) :
    getTrig c (logEv ev e) = getTrig c e := by
  cases c <;> simp [getTrig]

theorem getTrig_addTrig (c c' : NodeId) (p : PId) (e : Engine V) :
    getTrig c' (addTriggeringProperty c p e) =
      if c' = c then insertPId p (getTrig c e) else getTrig c' e := by
  unfold addTriggeringProperty
  rw [getTrig_logEv]
  have hupd : ∀ e1 : Engine V,
      getTrig c'
        (updProp p
          (fun ps =>
            { ps with dependentReactions := insertNode c ps.dependentReactions })
          e1) = getTrig c' e1 := by
    intro e1
    cases c' <;> simp [getTrig, updProp_props] <;> split <;> rfl
  rw [hupd]
  by_cases h : c' = c
  · subst h; rw [getTrig_setTrig_self]; simp
  · rw [getTrig_setTrig_ne _ _ _ _ h]; simp [h]

theorem deps_addTrig (c : NodeId) (p : PId) (e : Engine V) (q : PId) :
    ((addTriggeringProperty c p e).props q).dependentReactions =
      if q = p then insertNode c (e.props q).dependentReactions
      else (e.props q).dependentReactions := by
  unfold addTriggeringProperty
  have hst : ∀ q1, ((setTrig c (insertPId p (getTrig c e)) e).props q1).dependentReactions
      = (e.props q1).dependentReactions := by
    intro q1
    cases c <;> simp [setTrig, updProp_props] <;> split <;> rfl
  simp [updProp_props]
  split <;> simp [hst]

theorem foldRemove_props (c : NodeId) (t : List PId) (e : Engine V)
    (q : PId) :
    ((t.foldl
      (fun acc p =>
        updProp p
          (fun ps =>
            { ps with dependentReactions :=
                ps.dependentReactions.filter (fun x => x ≠ c) })
          acc)
      e)).props q =
      if q ∈ t then
        { e.props q with dependentReactions :=
            (e.props q).dependentReactions.filter (fun x => x ≠ c) }
      else e.props q := by
  induction t generalizing e with
  | nil => simp
  | cons p rest ih =>
    simp only [List.foldl_cons]
    rw [ih]
    by_cases hq : q ∈ rest
    · simp only [if_pos hq, updProp_props]
      by_cases hqp : q = p
      · subst hqp
        simp [List.mem_cons, List.filter_filter]
      · simp [hqp, List.mem_cons, hq]
    · simp only [if_neg hq, updProp_props]
      by_cases hqp : q = p
      · subst hqp
        simp [List.mem_cons, hq]
      · simp [hqp, List.mem_cons, hq]

theorem foldRemove_frame (c : NodeId) (t : List PId) (e : Engine V) :
    (t.foldl
      (fun acc p =>
        updProp p
          (fun ps =>
            { ps with dependentReactions :=
                ps.dependentReactions.filter (fun x => x ≠ c) })
          acc)
      e).reacs = e.reacs ∧
    (t.foldl
      (fun acc p =>
        updProp p
          (fun ps =>
            { ps with dependentReactions :=
                ps.dependentReactions.filter (fun x => x ≠ c) })
          acc)
      e).current = e.current ∧
    (t.foldl
      (fun acc p =>
        updProp p
          (fun ps =>
            { ps with dependentReactions :=
                ps.dependentReactions.filter (fun x => x ≠ c) })
          acc)
      e).isDeferred = e.isDeferred ∧
    (t.foldl
      (fun acc p =>
        updProp p
          (fun ps =>
            { ps with dependentReactions :=
                ps.dependentReactions.filter (fun x => x ≠ c) })
          acc)
      e).deferred = e.deferred ∧
    (t.foldl
      (fun acc p =>
        updProp p
          (fun ps =>
            { ps with dependentReactions :=
                ps.dependentReactions.filter (fun x => x ≠ c) })
          acc)
      e).log = e.log := by
  induction t generalizing e with
  | nil => simp
  | cons p rest ih =>
    simp only [List.foldl_cons]
    rcases ih (updProp p
      (fun ps =>
        { ps with dependentReactions :=
            ps.dependentReactions.filter (fun x => x ≠ c) }) e) with
      ⟨h1, h2, h3, h4, h5⟩
    exact ⟨by rw [h1]; rfl, by rw [h2]; rfl, by rw [h3]; rfl,
      by rw [h4]; rfl, by rw [h5]; rfl⟩

theorem eqCore_foldRemove (c : NodeId) (t : List PId) (e : Engine V) :
    EqCore e
      (t.foldl
        (fun acc p =>
          updProp p
            (fun ps =>
              { ps with dependentReactions :=
                  ps.dependentReactions.filter (fun x => x ≠ c) })
            acc)
        e) := by
  induction t generalizing e with
  | nil => exact eqCore_refl e
  | cons p rest ih =>
    simp only [List.foldl_cons]
    refine eqCore_trans ?_ (ih _)
    refine ⟨?_, ?_, ?_, ?_, ?_, ?_, ?_, ?_, ?_, ?_⟩ <;> intros <;>
      simp [updProp_props] <;> (try split) <;> (try rfl)

theorem eqCore_unsub (c : NodeId) (e : Engine V) :
    EqCore e (unsubscribeFromTriggeringProperties c e) := by
  unfold unsubscribeFromTriggeringProperties
  by_cases hT : getTrig c e = []
  · simp only [hT, if_pos rfl]
    exact eqCore_refl e
  · simp only [if_neg hT]
    exact eqCore_trans (eqCore_foldRemove c (getTrig c e) e)
      (eqCore_trans (eqCore_setTrig c [] _) (eqCore_logEv _ _))

theorem getTrig_unsub_self (c : NodeId) (e : Engine V) :
    getTrig c (unsubscribeFromTriggeringProperties c e) = [] := by
  unfold unsubscribeFromTriggeringProperties
  by_cases hT : getTrig c e = []
  · simpa [hT]
  · simp only [if_neg hT]
    rw [getTrig_logEv, getTrig_setTrig_self]

theorem getTrig_foldRemove (c c' : NodeId) (t : List PId) (e : Engine V) :
    getTrig c'
      (t.foldl
        (fun acc p =>
          updProp p
            (fun ps =>
              { ps with dependentReactions :=
                  ps.dependentReactions.filter (fun x => x ≠ c) })
            acc)
        e) = getTrig c' e := by
  induction t generalizing e with
  | nil => rfl
  | cons p rest ih =>
    simp only [List.foldl_cons]
    rw [ih]
    cases c' <;> simp [getTrig, updProp_props] <;> split <;> rfl

theorem getTrig_unsub_ne (c c' : NodeId) (e : Engine V) (h : c' ≠ c) :
    getTrig c' (unsubscribeFromTriggeringProperties c e) = getTrig c' e := by
  unfold unsubscribeFromTriggeringProperties
  by_cases hT : getTrig c e = []
  · simp [hT]
  · simp only [if_neg hT]
    rw [getTrig_logEv, getTrig_setTrig_ne _ _ _ _ h]
    exact getTrig_foldRemove c c' (getTrig c e) e

theorem deps_unsub (c : NodeId) (e : Engine V) (q : PId) :
    ((unsubscribeFromTriggeringProperties c e).props q).dependentReactions =
      if q ∈ getTrig c e then
        (e.props q).dependentReactions.filter (fun x => x ≠ c)
      else (e.props q).dependentReactions := by
  unfold unsubscribeFromTriggeringProperties
  by_cases hT : getTrig c e = []
  · simp [hT]
  · simp only [if_neg hT]
    have hst : ∀ e1 : Engine V, ∀ q1,
        ((setTrig c [] e1).props q1).dependentReactions =
          (e1.props q1).dependentReactions := by
      intro e1 q1
      cases c <;> simp [setTrig, updProp_props] <;> split <;> rfl
    simp only [logEv_props, hst]
    rw [foldRemove_props]
    split <;> rfl

theorem log_unsub (c : NodeId) (e : Engine V) :
    (unsubscribeFromTriggeringProperties c e).log =
      if getTrig c e = [] then e.log else Ev.unsub c :: e.log := by
  unfold unsubscribeFromTriggeringProperties
  by_cases hT : getTrig c e = []
  · simp [hT]
  · simp only [if_neg hT]
    have hst : ∀ e1 : Engine V, (setTrig c [] e1).log = e1.log := by
      intro e1; cases c <;> simp [setTrig]
    rcases foldRemove_frame c (getTrig c e) e with ⟨_, _, _, _, h5⟩
    rw [logEv_log, hst, h5]

end EdgeCharLemmas

section RunUnfold

variable {V : Type} [Inhabited V] [DecidableEq V]

theorem run_zero (req : Req V) (e : Engine V) :
    run 0 req e = Outcome.timeout := rfl

theorem run_succ (fuel : Nat) (req : Req V) (e : Engine V) :
    run (fuel + 1) req e = runStep (run fuel) req e := rfl

@[simp] theorem runStep_mkDirty (rec : Rec V) (c : NodeId) (e : Engine V) :
    runStep rec (Req.mkDirty c) e = mkDirtyF rec c e := rfl

@[simp] theorem runStep_mkDirtyList (rec : Rec V) (l : List NodeId)
    (e : Engine V) : runStep rec (Req.mkDirtyList l) e = mkDirtyListF rec l e :=
  rfl

@[simp] theorem runStep_mkDirtyOpt (rec : Rec V) (l : List (Option NodeId))
    (e : Engine V) : runStep rec (Req.mkDirtyOpt l) e = mkDirtyOptF rec l e :=
  rfl

@[simp] theorem runStep_comp (rec : Rec V) (c : Comp V) (e : Engine V) :
    runStep rec (Req.comp c) e = compF rec c e := rfl

@[simp] theorem runStep_exeProp (rec : Rec V) (p : PId) (e : Engine V) :
    runStep rec (Req.exeProp p) e = exePropF rec p e := rfl

@[simp] theorem runStep_staleFix (rec : Rec V) (p : PId) (ov : V)
    (e : Engine V) : runStep rec (Req.staleFix p ov) e = staleFixF rec p ov e :=
  rfl

@[simp] theorem runStep_getV (rec : Rec V) (p : PId) (e : Engine V) :
    runStep rec (Req.getV p) e = getValueF rec p e := rfl

@[simp] theorem runStep_setV (rec : Rec V) (p : PId) (v : V) (e : Engine V) :
    runStep rec (Req.setV p v) e = setValueF rec p v e := rfl

@[simp] theorem runStep_exeReac (rec : Rec V) (r : RId) (e : Engine V) :
    runStep rec (Req.exeReac r) e = exeReacF rec r e := rfl

@[simp] theorem runStep_round (rec : Rec V) (l : List RId) (e : Engine V) :
    runStep rec (Req.round l) e = roundF rec l e := rfl

@[simp] theorem runStep_flush (rec : Rec V) (iter : Nat) (e : Engine V) :
    runStep rec (Req.flush iter) e = flushF rec iter e := rfl

end RunUnfold



section LogGrowth

variable {V : Type} [Inhabited V] [DecidableEq V]

theorem logLe_refl (e : Engine V) : LogLe e e := List.suffix_refl _

theorem logLe_trans {e1 e2 e3 : Engine V} (h1 : LogLe e1 e2)
    (h2 : LogLe e2 e3) : LogLe e1 e3 := List.IsSuffix.trans h1 h2

theorem logLe_logEv (ev : Ev V) (e : Engine V) : LogLe e (logEv ev e) :=
  List.suffix_cons ev e.log

theorem logLe_updProp (p : PId) (f : PropState V → PropState V)
    (e : Engine V) : LogLe e (updProp p f e) := List.suffix_refl _

theorem logLe_updReac (r : RId) (f : ReacState V → ReacState V)
    (e : Engine V) : LogLe e (updReac r f e) := List.suffix_refl _

theorem logLe_addTrig (c : NodeId) (p : PId) (e : Engine V) :
    LogLe e (addTriggeringProperty c p e) := by
  unfold addTriggeringProperty
  show e.log <:+ _ :: _
  simp only [updProp_log]
  have : (setTrig c (insertPId p (getTrig c e)) e).log = e.log := by
    cases c <;> simp [setTrig]
  rw [this]
  exact List.suffix_cons _ _

theorem logLe_unsub (c : NodeId) (e : Engine V) :
    LogLe e (unsubscribeFromTriggeringProperties c e) := by
  unfold LogLe
  rw [log_unsub]
  split
  · exact List.suffix_refl _
  · exact List.suffix_cons _ _

theorem logLe_registerCurrent (p : PId) (e : Engine V) :
    LogLe e (registerCurrent p e) := by
  unfold registerCurrent
  cases e.current
  · exact logLe_refl e
  · exact logLe_addTrig _ _ _

theorem logLe_staleMark (p : PId) (e : Engine V) : LogLe e (staleMark p e) := by
  unfold staleMark
  exact logLe_trans (logLe_updProp _ _ _) (logLe_logEv _ _)

theorem logLe_retLog (p : PId) (v : V) (e : Engine V) :
    LogLe e (retLog p v e) := logLe_logEv _ _

theorem logGrows_mono {e1 e2 : Engine V} {o : Outcome V V}
    (h : LogLe e1 e2) (hg : LogGrows e2 o) : LogGrows e1 o := by
  cases o <;> simp only [LogGrows] at hg ⊢
  · exact logLe_trans h hg
  · exact logLe_trans h hg

theorem run_logGrows : ∀ (fuel : Nat) (req : Req V) (e : Engine V),
    LogGrows e (run fuel req e) := by
  intro fuel
  induction fuel with
  | zero => intro req e; rw [run_zero]; trivial
  | succ n ih =>
    intro req e
    rw [run_succ]
    cases req with
    | mkDirty c =>
      simp only [runStep_mkDirty, mkDirtyF]
      cases c with
      | reac r =>
        dsimp only
        split
        · exact logLe_logEv _ _
        · exact logLe_logEv _ _
      | prop p =>
        dsimp only
        split
        · exact logLe_logEv _ _
        · exact logGrows_mono
            (logLe_trans (logLe_logEv _ _) (logLe_updProp _ _ _)) (ih _ _)
    | mkDirtyList l =>
      simp only [runStep_mkDirtyList, mkDirtyListF]
      cases l with
      | nil => exact List.suffix_refl _
      | cons c rest =>
        dsimp only
        cases h : run n (Req.mkDirty c) e with
        | ok v e' =>
          have h1 := ih (Req.mkDirty c) e
          rw [h] at h1
          (try dsimp only)
          exact logGrows_mono h1 (ih _ _)
        | thrown s =>
          have h1 := ih (Req.mkDirty c) e
          rw [h] at h1
          (try dsimp only)
          exact h1
        | timeout => trivial
    | mkDirtyOpt l =>
      simp only [runStep_mkDirtyOpt, mkDirtyOptF]
      cases l with
      | nil => exact List.suffix_refl _
      | cons oc rest =>
        cases oc with
        | none =>
          exact logGrows_mono (logLe_logEv _ _) (ih _ _)
        | some c =>
          dsimp only
          cases h : run n (Req.mkDirty c) e with
          | ok v e' =>
            have h1 := ih (Req.mkDirty c) e
            rw [h] at h1
            (try dsimp only)
            exact logGrows_mono h1 (ih _ _)
          | thrown s =>
            have h1 := ih (Req.mkDirty c) e
            rw [h] at h1
            (try dsimp only)
            exact h1
          | timeout => trivial
    | comp c =>
      simp only [runStep_comp, compF]
      cases c with
      | pure v => exact List.suffix_refl _
      | read p k =>
        dsimp only
        cases h : run n (Req.getV p) e with
        | ok v e' =>
          have h1 := ih (Req.getV p) e
          rw [h] at h1
          (try dsimp only)
          exact logGrows_mono h1 (ih _ _)
        | thrown s =>
          have h1 := ih (Req.getV p) e
          rw [h] at h1
          (try dsimp only)
          exact h1
        | timeout => trivial
      | set p v k =>
        dsimp only
        cases h : run n (Req.setV p v) e with
        | ok w e' =>
          have h1 := ih (Req.setV p v) e
          rw [h] at h1
          (try dsimp only)
          exact logGrows_mono h1 (ih _ _)
        | thrown s =>
          have h1 := ih (Req.setV p v) e
          rw [h] at h1
          (try dsimp only)
          exact h1
        | timeout => trivial
    | exeProp p =>
      simp only [runStep_exeProp, exePropF]
      have hpre : LogLe e
          (unsubscribeFromTriggeringProperties (NodeId.prop p)
            (logEv (Ev.invokeP p) { e with current := some (NodeId.prop p) })) := by
        refine logLe_trans ?_ (logLe_unsub _ _)
        show e.log <:+ _ :: _
        exact List.suffix_cons _ _
      cases h : run n
          (Req.comp
            ((((unsubscribeFromTriggeringProperties (NodeId.prop p)
              (logEv (Ev.invokeP p)
                { e with current := some (NodeId.prop p) })).props p).func).getD
              (Comp.pure default)))
          (unsubscribeFromTriggeringProperties (NodeId.prop p)
            (logEv (Ev.invokeP p) { e with current := some (NodeId.prop p) })) with
      | ok v e3 =>
        have h1 := ih (Req.comp
            ((((unsubscribeFromTriggeringProperties (NodeId.prop p)
              (logEv (Ev.invokeP p)
                { e with current := some (NodeId.prop p) })).props p).func).getD
              (Comp.pure default)))
          (unsubscribeFromTriggeringProperties (NodeId.prop p)
            (logEv (Ev.invokeP p) { e with current := some (NodeId.prop p) }))
        rw [h] at h1
        (try dsimp only)
        exact logLe_trans hpre h1
      | thrown s =>
        have h1 := ih (Req.comp
            ((((unsubscribeFromTriggeringProperties (NodeId.prop p)
              (logEv (Ev.invokeP p)
                { e with current := some (NodeId.prop p) })).props p).func).getD
              (Comp.pure default)))
          (unsubscribeFromTriggeringProperties (NodeId.prop p)
            (logEv (Ev.invokeP p) { e with current := some (NodeId.prop p) }))
        rw [h] at h1
        (try dsimp only)
        exact logLe_trans hpre h1
      | timeout => trivial
    | staleFix p ov =>
      simp only [runStep_staleFix, staleFixF]
      split
      · by_cases hv : (e.props p).value ≠ ov
        · rw [if_pos hv]
          cases h : run n (Req.mkDirtyOpt ((e.props p).reactionsWhoReceivedOldValue))
              { e with isDeferred := true } with
          | ok v e2 =>
            have h1 := ih (Req.mkDirtyOpt ((e.props p).reactionsWhoReceivedOldValue))
              { e with isDeferred := true }
            rw [h] at h1
            (try dsimp only)
            have hbase : LogLe e { e with isDeferred := true } :=
              List.suffix_refl _
            by_cases hD : (!e.isDeferred) = true
            · rw [if_pos hD]
              cases h2 : run n (Req.flush 64) e2 with
              | ok w e4 =>
                have h3 := ih (Req.flush 64) e2
                rw [h2] at h3
                (try dsimp only)
                exact logLe_trans (logLe_trans (logLe_trans hbase h1) h3)
                  (logLe_updProp _ _ _)
              | thrown s =>
                have h3 := ih (Req.flush 64) e2
                rw [h2] at h3
                (try dsimp only)
                exact logLe_trans (logLe_trans hbase h1) h3
              | timeout => trivial
            · rw [if_neg hD]
              exact logLe_trans (logLe_trans hbase h1) (logLe_updProp _ _ _)
          | thrown s =>
            have h1 := ih (Req.mkDirtyOpt ((e.props p).reactionsWhoReceivedOldValue))
              { e with isDeferred := true }
            rw [h] at h1
            (try dsimp only)
            exact h1
          | timeout => trivial
        · rw [if_neg hv]
          exact logLe_updProp _ _ _
      · exact List.suffix_refl _
    | getV p =>
      simp only [runStep_getV, getValueF]
      split
      · split
        · exact logLe_trans (logLe_registerCurrent _ _)
            (logLe_trans (logLe_staleMark _ _) (logLe_retLog _ _ _))
        · cases h : run n (Req.exeProp p)
              (updProp p (fun s => { s with executionInProgress := true })
                (registerCurrent p e)) with
          | ok v e3 =>
            have h1 := ih (Req.exeProp p)
              (updProp p (fun s => { s with executionInProgress := true })
                (registerCurrent p e))
            rw [h] at h1
            (try dsimp only)
            have hbase : LogLe e
                (updProp p (fun s => { s with executionInProgress := true })
                  (registerCurrent p e)) :=
              logLe_trans (logLe_registerCurrent _ _) (logLe_updProp _ _ _)
            cases h2 : run n (Req.staleFix p
                (((registerCurrent p e).props p).value))
                (updProp p
                  (fun s =>
                    { s with
                      value := v
                      executionInProgress := false
                      dirty := false })
                  e3) with
            | ok w e5 =>
              have h3 := ih (Req.staleFix p
                  (((registerCurrent p e).props p).value))
                  (updProp p
                    (fun s =>
                      { s with
                        value := v
                        executionInProgress := false
                        dirty := false })
                    e3)
              rw [h2] at h3
              (try dsimp only)
              exact logLe_trans (logLe_trans hbase h1)
                (logLe_trans (logLe_trans (logLe_updProp _ _ _) h3)
                  (logLe_retLog _ _ _))
            | thrown s =>
              have h3 := ih (Req.staleFix p
                  (((registerCurrent p e).props p).value))
                  (updProp p
                    (fun s =>
                      { s with
                        value := v
                        executionInProgress := false
                        dirty := false })
                    e3)
              rw [h2] at h3
              (try dsimp only)
              exact logLe_trans (logLe_trans hbase h1)
                (logLe_trans (logLe_updProp _ _ _) h3)
            | timeout => trivial
          | thrown s =>
            have h1 := ih (Req.exeProp p)
              (updProp p (fun s => { s with executionInProgress := true })
                (registerCurrent p e))
            rw [h] at h1
            (try dsimp only)
            exact logLe_trans
              (logLe_trans (logLe_registerCurrent _ _) (logLe_updProp _ _ _))
              h1
          | timeout => trivial
      · exact logLe_trans (logLe_registerCurrent _ _) (logLe_retLog _ _ _)
    | setV p v =>
      simp only [runStep_setV, setValueF]
      have hbase : LogLe e
          ({ logEv (Ev.setV p)
              (updProp p
                (fun ps => { ps with value := v, dirty := false, func := none })
                (unsubscribeFromTriggeringProperties (NodeId.prop p) e)) with
            isDeferred := true }) := by
        refine logLe_trans (logLe_unsub (NodeId.prop p) e) ?_
        show (unsubscribeFromTriggeringProperties (NodeId.prop p) e).log <:+ _
        simp only [logEv_log, updProp_log]
        exact List.suffix_cons _ _
      cases h : run n
          (Req.mkDirtyList
            ((({ logEv (Ev.setV p)
                (updProp p
                  (fun ps =>
                    { ps with value := v, dirty := false, func := none })
                  (unsubscribeFromTriggeringProperties (NodeId.prop p) e)) with
              isDeferred := true } : Engine V).props p).dependentReactions))
          ({ logEv (Ev.setV p)
              (updProp p
                (fun ps => { ps with value := v, dirty := false, func := none })
                (unsubscribeFromTriggeringProperties (NodeId.prop p) e)) with
            isDeferred := true }) with
      | ok w e4 =>
        have h1 := ih (Req.mkDirtyList
            ((({ logEv (Ev.setV p)
                (updProp p
                  (fun ps =>
                    { ps with value := v, dirty := false, func := none })
                  (unsubscribeFromTriggeringProperties (NodeId.prop p) e)) with
              isDeferred := true } : Engine V).props p).dependentReactions))
          ({ logEv (Ev.setV p)
              (updProp p
                (fun ps => { ps with value := v, dirty := false, func := none })
                (unsubscribeFromTriggeringProperties (NodeId.prop p) e)) with
            isDeferred := true })
        rw [h] at h1
        (try dsimp only)
        split
        · cases h2 : run n (Req.flush 64) e4 with
          | ok u e5 =>
            have h3 := ih (Req.flush 64) e4
            rw [h2] at h3
            (try dsimp only)
            exact logLe_trans (logLe_trans hbase h1) h3
          | thrown s =>
            have h3 := ih (Req.flush 64) e4
            rw [h2] at h3
            (try dsimp only)
            exact logLe_trans (logLe_trans hbase h1) h3
          | timeout => trivial
        · exact logLe_trans hbase h1
      | thrown s =>
        have h1 := ih (Req.mkDirtyList
            ((({ logEv (Ev.setV p)
                (updProp p
                  (fun ps =>
                    { ps with value := v, dirty := false, func := none })
                  (unsubscribeFromTriggeringProperties (NodeId.prop p) e)) with
              isDeferred := true } : Engine V).props p).dependentReactions))
          ({ logEv (Ev.setV p)
              (updProp p
                (fun ps => { ps with value := v, dirty := false, func := none })
                (unsubscribeFromTriggeringProperties (NodeId.prop p) e)) with
            isDeferred := true })
        rw [h] at h1
        (try dsimp only)
        exact logLe_trans hbase h1
      | timeout => trivial
    | exeReac r =>
      simp only [runStep_exeReac, exeReacF]
      have hpre : LogLe e
          (unsubscribeFromTriggeringProperties (NodeId.reac r)
            (logEv (Ev.execR r) { e with current := some (NodeId.reac r) })) := by
        refine logLe_trans ?_ (logLe_unsub _ _)
        show e.log <:+ _ :: _
        exact List.suffix_cons _ _
      cases h : run n
          (Req.comp
            (((unsubscribeFromTriggeringProperties (NodeId.reac r)
              (logEv (Ev.execR r)
                { e with current := some (NodeId.reac r) })).reacs r).func))
          (unsubscribeFromTriggeringProperties (NodeId.reac r)
            (logEv (Ev.execR r) { e with current := some (NodeId.reac r) })) with
      | ok v e3 =>
        have h1 := ih (Req.comp
            (((unsubscribeFromTriggeringProperties (NodeId.reac r)
              (logEv (Ev.execR r)
                { e with current := some (NodeId.reac r) })).reacs r).func))
          (unsubscribeFromTriggeringProperties (NodeId.reac r)
            (logEv (Ev.execR r) { e with current := some (NodeId.reac r) }))
        rw [h] at h1
        (try dsimp only)
        exact logLe_trans hpre h1
      | thrown s =>
        have h1 := ih (Req.comp
            (((unsubscribeFromTriggeringProperties (NodeId.reac r)
              (logEv (Ev.execR r)
                { e with current := some (NodeId.reac r) })).reacs r).func))
          (unsubscribeFromTriggeringProperties (NodeId.reac r)
            (logEv (Ev.execR r) { e with current := some (NodeId.reac r) }))
        rw [h] at h1
        (try dsimp only)
        exact logLe_trans hpre h1
      | timeout => trivial
    | round l =>
      simp only [runStep_round, roundF]
      cases l with
      | nil => exact List.suffix_refl _
      | cons r rest =>
        dsimp only
        cases h : run n (Req.exeReac r)
            { e with deferred := e.deferred.filter (fun x => x ≠ r) } with
        | ok v e2 =>
          have h1 := ih (Req.exeReac r)
            { e with deferred := e.deferred.filter (fun x => x ≠ r) }
          rw [h] at h1
          (try dsimp only)
          have hbase : LogLe e
              { e with deferred := e.deferred.filter (fun x => x ≠ r) } :=
            List.suffix_refl _
          exact logGrows_mono (logLe_trans hbase h1) (ih _ _)
        | thrown s =>
          have h1 := ih (Req.exeReac r)
            { e with deferred := e.deferred.filter (fun x => x ≠ r) }
          rw [h] at h1
          (try dsimp only)
          exact h1
        | timeout => trivial
    | flush iter =>
      simp only [runStep_flush, flushF]
      split
      · cases h : run n (Req.round e.deferred) e with
        | ok v e2 =>
          have h1 := ih (Req.round e.deferred) e
          rw [h] at h1
          (try dsimp only)
          exact logGrows_mono h1 (ih _ _)
        | thrown s =>
          have h1 := ih (Req.round e.deferred) e
          rw [h] at h1
          (try dsimp only)
          exact h1
        | timeout => trivial
      · split
        · exact List.suffix_refl _
        · exact List.suffix_refl _

end LogGrowth



section EdgeInvLemmas

variable {V : Type}

theorem edgeInv_of_edgesEq {e e' : Engine V} (h : EdgesEq e e')
    (hinv : EdgeInv e) : EdgeInv e' := by
  intro p c
  rw [h.1 p, h.2 c]
  exact hinv p c

theorem edgesEq_refl (e : Engine V) : EdgesEq e e := ⟨fun _ => rfl, fun _ => rfl⟩

theorem edgesEq_of_maps {e e' : Engine V} (h1 : e'.props = e.props)
    (h2 : e'.reacs = e.reacs) : EdgesEq e e' := by
  constructor
  · intro q; rw [h1]
  · intro c; cases c <;> simp [getTrig, h1, h2]

theorem edgesEq_logEv (ev : Ev V) (e : Engine V) : EdgesEq e (logEv ev e) :=
  edgesEq_of_maps rfl rfl

theorem edgesEq_updProp_keep (p : PId) (f : PropState V → PropState V)
    (e : Engine V)
    (hd : ∀ ps, (f ps).dependentReactions = ps.dependentReactions)
    (ht : ∀ ps, (f ps).triggeringProperties = ps.triggeringProperties) :
    EdgesEq e (updProp p f e) := by
  constructor
  · intro q
    rw [updProp_props]
    split
    · rw [hd]
    · rfl
  · intro c
    cases c with
    | prop b =>
      simp only [getTrig, updProp_props]
      split
      · rw [ht]
      · rfl
    | reac b => simp [getTrig, updProp_reacs]

theorem edgeInv_addTrig {e : Engine V} (c : NodeId) (p : PId)
    (hinv : EdgeInv e) : EdgeInv (addTriggeringProperty c p e) := by
  intro q c'
  rw [deps_addTrig, getTrig_addTrig]
  by_cases hq : q = p <;> by_cases hc : c' = c
  · rw [if_pos hq, if_pos hc, mem_insertNode, mem_insertPId]
    simp [hq, hc]
  · rw [if_pos hq, if_neg hc, mem_insertNode]
    constructor
    · rintro (h1 | h1)
      · exact absurd h1 hc
      · exact (hinv q c').mp h1
    · intro hm
      exact Or.inr ((hinv q c').mpr hm)
  · rw [if_neg hq, if_pos hc, mem_insertPId]
    simp only [hc]
    constructor
    · intro hm
      exact Or.inr ((hinv q c).mp hm)
    · rintro (h1 | h1)
      · exact absurd h1 hq
      · exact (hinv q c).mpr h1
  · rw [if_neg hq, if_neg hc]
    exact hinv q c'

theorem edgeInv_unsub {e : Engine V} (c : NodeId) (hinv : EdgeInv e) :
    EdgeInv (unsubscribeFromTriggeringProperties c e) := by
  intro q c'
  rw [deps_unsub]
  by_cases hc : c' = c
  · subst hc
    rw [getTrig_unsub_self]
    simp only [List.not_mem_nil, iff_false]
    by_cases hq : q ∈ getTrig c' e
    · rw [if_pos hq]
      intro hm
      rcases List.mem_filter.mp hm with ⟨_, hne⟩
      simp at hne
    · rw [if_neg hq]
      intro hm
      exact hq ((hinv q c').mp hm)
  · rw [getTrig_unsub_ne _ _ _ hc]
    by_cases hq : q ∈ getTrig c e
    · rw [if_pos hq]
      constructor
      · intro hm
        exact (hinv q c').mp (List.mem_filter.mp hm).1
      · intro hm
        refine List.mem_filter.mpr ⟨(hinv q c').mpr hm, ?_⟩
        simp [hc]
    · rw [if_neg hq]
      exact hinv q c'

end EdgeInvLemmas

section EdgeInvRun

variable {V : Type} [Inhabited V] [DecidableEq V]

theorem edgeInv_same_maps {e e' : Engine V} (h1 : e'.props = e.props)
    (h2 : e'.reacs = e.reacs) (hinv : EdgeInv e) : EdgeInv e' :=
  edgeInv_of_edgesEq (edgesEq_of_maps h1 h2) hinv

theorem edgeInv_logEv {e : Engine V} (ev : Ev V) (hinv : EdgeInv e) :
    EdgeInv (logEv ev e) := edgeInv_same_maps rfl rfl hinv

theorem edgeInv_updProp_keep {e : Engine V} (p : PId)
    (f : PropState V → PropState V)
    (hd : ∀ ps, (f ps).dependentReactions = ps.dependentReactions)
    (ht : ∀ ps, (f ps).triggeringProperties = ps.triggeringProperties)
    (hinv : EdgeInv e) : EdgeInv (updProp p f e) :=
  edgeInv_of_edgesEq (edgesEq_updProp_keep p f e hd ht) hinv

theorem edgeInv_registerCurrent {e : Engine V} (p : PId) (hinv : EdgeInv e) :
    EdgeInv (registerCurrent p e) := by
  unfold registerCurrent
  cases e.current
  · exact hinv
  · exact edgeInv_addTrig _ _ hinv

theorem edgeInv_staleMark {e : Engine V} (p : PId) (hinv : EdgeInv e) :
    EdgeInv (staleMark p e) := by
  unfold staleMark
  exact edgeInv_logEv _ (edgeInv_updProp_keep _ _ (fun _ => rfl) (fun _ => rfl) hinv)

theorem edgeInv_retLog {e : Engine V} (p : PId) (v : V) (hinv : EdgeInv e) :
    EdgeInv (retLog p v e) := edgeInv_logEv _ hinv

theorem run_edgeInv : ∀ (fuel : Nat) (req : Req V) (e : Engine V),
    EdgeInv e → EdgePres (run fuel req e) := by
  intro fuel
  induction fuel with
  | zero => intro req e _; rw [run_zero]; trivial
  | succ n ih =>
    intro req e hinv
    rw [run_succ]
    cases req with
    | mkDirty c =>
      simp only [runStep_mkDirty, mkDirtyF]
      cases c with
      | reac r =>
        dsimp only
        split
        · exact edgeInv_logEv _ hinv
        · exact edgeInv_same_maps rfl rfl hinv
      | prop p =>
        dsimp only
        split
        · exact edgeInv_logEv _ hinv
        · exact ih _ _
            (edgeInv_updProp_keep _ _ (fun _ => rfl) (fun _ => rfl)
              (edgeInv_logEv _ hinv))
    | mkDirtyList l =>
      simp only [runStep_mkDirtyList, mkDirtyListF]
      cases l with
      | nil => exact hinv
      | cons c rest =>
        dsimp only
        cases h : run n (Req.mkDirty c) e with
        | ok v e' =>
          have h1 := ih (Req.mkDirty c) e hinv
          rw [h] at h1
          exact ih _ _ h1
        | thrown s =>
          have h1 := ih (Req.mkDirty c) e hinv
          rw [h] at h1
          exact h1
        | timeout => trivial
    | mkDirtyOpt l =>
      simp only [runStep_mkDirtyOpt, mkDirtyOptF]
      cases l with
      | nil => exact hinv
      | cons oc rest =>
        cases oc with
        | none =>
          exact ih _ _ (edgeInv_logEv _ hinv)
        | some c =>
          dsimp only
          cases h : run n (Req.mkDirty c) e with
          | ok v e' =>
            have h1 := ih (Req.mkDirty c) e hinv
            rw [h] at h1
            exact ih _ _ h1
          | thrown s =>
            have h1 := ih (Req.mkDirty c) e hinv
            rw [h] at h1
            exact h1
          | timeout => trivial
    | comp c =>
      simp only [runStep_comp, compF]
      cases c with
      | pure v => exact hinv
      | read p k =>
        dsimp only
        cases h : run n (Req.getV p) e with
        | ok v e' =>
          have h1 := ih (Req.getV p) e hinv
          rw [h] at h1
          exact ih _ _ h1
        | thrown s =>
          have h1 := ih (Req.getV p) e hinv
          rw [h] at h1
          exact h1
        | timeout => trivial
      | set p v k =>
        dsimp only
        cases h : run n (Req.setV p v) e with
        | ok w e' =>
          have h1 := ih (Req.setV p v) e hinv
          rw [h] at h1
          exact ih _ _ h1
        | thrown s =>
          have h1 := ih (Req.setV p v) e hinv
          rw [h] at h1
          exact h1
        | timeout => trivial
    | exeProp p =>
      simp only [runStep_exeProp, exePropF]
      have hpre : EdgeInv
          (unsubscribeFromTriggeringProperties (NodeId.prop p)
            (logEv (Ev.invokeP p) { e with current := some (NodeId.prop p) })) :=
        edgeInv_unsub _
          (edgeInv_logEv _ (edgeInv_same_maps rfl rfl hinv))
      cases h : run n
          (Req.comp
            ((((unsubscribeFromTriggeringProperties (NodeId.prop p)
              (logEv (Ev.invokeP p)
                { e with current := some (NodeId.prop p) })).props p).func).getD
              (Comp.pure default)))
          (unsubscribeFromTriggeringProperties (NodeId.prop p)
            (logEv (Ev.invokeP p) { e with current := some (NodeId.prop p) })) with
      | ok v e3 =>
        have h1 := ih (Req.comp
            ((((unsubscribeFromTriggeringProperties (NodeId.prop p)
              (logEv (Ev.invokeP p)
                { e with current := some (NodeId.prop p) })).props p).func).getD
              (Comp.pure default)))
          (unsubscribeFromTriggeringProperties (NodeId.prop p)
            (logEv (Ev.invokeP p) { e with current := some (NodeId.prop p) })) hpre
        rw [h] at h1
        exact edgeInv_same_maps rfl rfl h1
      | thrown s =>
        have h1 := ih (Req.comp
            ((((unsubscribeFromTriggeringProperties (NodeId.prop p)
              (logEv (Ev.invokeP p)
                { e with current := some (NodeId.prop p) })).props p).func).getD
              (Comp.pure default)))
          (unsubscribeFromTriggeringProperties (NodeId.prop p)
            (logEv (Ev.invokeP p) { e with current := some (NodeId.prop p) })) hpre
        rw [h] at h1
        exact edgeInv_same_maps rfl rfl h1
      | timeout => trivial
    | staleFix p ov =>
      simp only [runStep_staleFix, staleFixF]
      split
      · by_cases hv : (e.props p).value ≠ ov
        · rw [if_pos hv]
          cases h : run n (Req.mkDirtyOpt ((e.props p).reactionsWhoReceivedOldValue))
              { e with isDeferred := true } with
          | ok v e2 =>
            have h1 := ih (Req.mkDirtyOpt ((e.props p).reactionsWhoReceivedOldValue))
              { e with isDeferred := true } (edgeInv_same_maps rfl rfl hinv)
            rw [h] at h1
            (try dsimp only)
            by_cases hD : (!e.isDeferred) = true
            · rw [if_pos hD]
              cases h2 : run n (Req.flush 64) e2 with
              | ok w e4 =>
                have h3 := ih (Req.flush 64) e2 h1
                rw [h2] at h3
                exact edgeInv_updProp_keep _ _ (fun _ => rfl) (fun _ => rfl) h3
              | thrown s =>
                have h3 := ih (Req.flush 64) e2 h1
                rw [h2] at h3
                exact h3
              | timeout => trivial
            · rw [if_neg hD]
              exact edgeInv_updProp_keep _ _ (fun _ => rfl) (fun _ => rfl) h1
          | thrown s =>
            have h1 := ih (Req.mkDirtyOpt ((e.props p).reactionsWhoReceivedOldValue))
              { e with isDeferred := true } (edgeInv_same_maps rfl rfl hinv)
            rw [h] at h1
            exact h1
          | timeout => trivial
        · rw [if_neg hv]
          exact edgeInv_updProp_keep _ _ (fun _ => rfl) (fun _ => rfl) hinv
      · exact hinv
    | getV p =>
      simp only [runStep_getV, getValueF]
      split
      · split
        · exact edgeInv_retLog _ _
            (edgeInv_staleMark _ (edgeInv_registerCurrent _ hinv))
        · cases h : run n (Req.exeProp p)
              (updProp p (fun s => { s with executionInProgress := true })
                (registerCurrent p e)) with
          | ok v e3 =>
            have h1 := ih (Req.exeProp p)
              (updProp p (fun s => { s with executionInProgress := true })
                (registerCurrent p e))
              (edgeInv_updProp_keep _ _ (fun _ => rfl) (fun _ => rfl)
                (edgeInv_registerCurrent _ hinv))
            rw [h] at h1
            (try dsimp only)
            cases h2 : run n (Req.staleFix p
                (((registerCurrent p e).props p).value))
                (updProp p
                  (fun s =>
                    { s with
                      value := v
                      executionInProgress := false
                      dirty := false })
                  e3) with
            | ok w e5 =>
              have h3 := ih (Req.staleFix p
                  (((registerCurrent p e).props p).value))
                  (updProp p
                    (fun s =>
                      { s with
                        value := v
                        executionInProgress := false
                        dirty := false })
                    e3)
                (edgeInv_updProp_keep _ _ (fun _ => rfl) (fun _ => rfl) h1)
              rw [h2] at h3
              exact edgeInv_retLog _ _ h3
            | thrown s =>
              have h3 := ih (Req.staleFix p
                  (((registerCurrent p e).props p).value))
                  (updProp p
                    (fun s =>
                      { s with
                        value := v
                        executionInProgress := false
                        dirty := false })
                    e3)
                (edgeInv_updProp_keep _ _ (fun _ => rfl) (fun _ => rfl) h1)
              rw [h2] at h3
              exact h3
            | timeout => trivial
          | thrown s =>
            have h1 := ih (Req.exeProp p)
              (updProp p (fun s => { s with executionInProgress := true })
                (registerCurrent p e))
              (edgeInv_updProp_keep _ _ (fun _ => rfl) (fun _ => rfl)
                (edgeInv_registerCurrent _ hinv))
            rw [h] at h1
            exact h1
          | timeout => trivial
      · exact edgeInv_retLog _ _ (edgeInv_registerCurrent _ hinv)
    | setV p v =>
      simp only [runStep_setV, setValueF]
      have hbase : EdgeInv
          ({ logEv (Ev.setV p)
              (updProp p
                (fun ps => { ps with value := v, dirty := false, func := none })
                (unsubscribeFromTriggeringProperties (NodeId.prop p) e)) with
            isDeferred := true }) :=
        edgeInv_same_maps rfl rfl
          (edgeInv_logEv (Ev.setV p)
            (edgeInv_updProp_keep p
              (fun ps => { ps with value := v, dirty := false, func := none })
              (fun _ => rfl) (fun _ => rfl)
              (edgeInv_unsub (NodeId.prop p) hinv)))
      cases h : run n
          (Req.mkDirtyList
            ((({ logEv (Ev.setV p)
                (updProp p
                  (fun ps =>
                    { ps with value := v, dirty := false, func := none })
                  (unsubscribeFromTriggeringProperties (NodeId.prop p) e)) with
              isDeferred := true } : Engine V).props p).dependentReactions))
          ({ logEv (Ev.setV p)
              (updProp p
                (fun ps => { ps with value := v, dirty := false, func := none })
                (unsubscribeFromTriggeringProperties (NodeId.prop p) e)) with
            isDeferred := true }) with
      | ok w e4 =>
        have h1 := ih (Req.mkDirtyList
            ((({ logEv (Ev.setV p)
                (updProp p
                  (fun ps =>
                    { ps with value := v, dirty := false, func := none })
                  (unsubscribeFromTriggeringProperties (NodeId.prop p) e)) with
              isDeferred := true } : Engine V).props p).dependentReactions))
          ({ logEv (Ev.setV p)
              (updProp p
                (fun ps => { ps with value := v, dirty := false, func := none })
                (unsubscribeFromTriggeringProperties (NodeId.prop p) e)) with
            isDeferred := true }) hbase
        rw [h] at h1
        (try dsimp only)
        split
        · cases h2 : run n (Req.flush 64) e4 with
          | ok u e5 =>
            have h3 := ih (Req.flush 64) e4 h1
            rw [h2] at h3
            exact h3
          | thrown s =>
            have h3 := ih (Req.flush 64) e4 h1
            rw [h2] at h3
            exact h3
          | timeout => trivial
        · exact h1
      | thrown s =>
        have h1 := ih (Req.mkDirtyList
            ((({ logEv (Ev.setV p)
                (updProp p
                  (fun ps =>
                    { ps with value := v, dirty := false, func := none })
                  (unsubscribeFromTriggeringProperties (NodeId.prop p) e)) with
              isDeferred := true } : Engine V).props p).dependentReactions))
          ({ logEv (Ev.setV p)
              (updProp p
                (fun ps => { ps with value := v, dirty := false, func := none })
                (unsubscribeFromTriggeringProperties (NodeId.prop p) e)) with
            isDeferred := true }) hbase
        rw [h] at h1
        exact h1
      | timeout => trivial
    | exeReac r =>
      simp only [runStep_exeReac, exeReacF]
      have hpre : EdgeInv
          (unsubscribeFromTriggeringProperties (NodeId.reac r)
            (logEv (Ev.execR r) { e with current := some (NodeId.reac r) })) :=
        edgeInv_unsub _
          (edgeInv_logEv _ (edgeInv_same_maps rfl rfl hinv))
      cases h : run n
          (Req.comp
            (((unsubscribeFromTriggeringProperties (NodeId.reac r)
              (logEv (Ev.execR r)
                { e with current := some (NodeId.reac r) })).reacs r).func))
          (unsubscribeFromTriggeringProperties (NodeId.reac r)
            (logEv (Ev.execR r) { e with current := some (NodeId.reac r) })) with
      | ok v e3 =>
        have h1 := ih (Req.comp
            (((unsubscribeFromTriggeringProperties (NodeId.reac r)
              (logEv (Ev.execR r)
                { e with current := some (NodeId.reac r) })).reacs r).func))
          (unsubscribeFromTriggeringProperties (NodeId.reac r)
            (logEv (Ev.execR r) { e with current := some (NodeId.reac r) })) hpre
        rw [h] at h1
        exact edgeInv_same_maps rfl rfl h1
      | thrown s =>
        have h1 := ih (Req.comp
            (((unsubscribeFromTriggeringProperties (NodeId.reac r)
              (logEv (Ev.execR r)
                { e with current := some (NodeId.reac r) })).reacs r).func))
          (unsubscribeFromTriggeringProperties (NodeId.reac r)
            (logEv (Ev.execR r) { e with current := some (NodeId.reac r) })) hpre
        rw [h] at h1
        exact edgeInv_same_maps rfl rfl h1
      | timeout => trivial
    | round l =>
      simp only [runStep_round, roundF]
      cases l with
      | nil => exact hinv
      | cons r rest =>
        dsimp only
        cases h : run n (Req.exeReac r)
            { e with deferred := e.deferred.filter (fun x => x ≠ r) } with
        | ok v e2 =>
          have h1 := ih (Req.exeReac r)
            { e with deferred := e.deferred.filter (fun x => x ≠ r) }
            (edgeInv_same_maps rfl rfl hinv)
          rw [h] at h1
          exact ih _ _ h1
        | thrown s =>
          have h1 := ih (Req.exeReac r)
            { e with deferred := e.deferred.filter (fun x => x ≠ r) }
            (edgeInv_same_maps rfl rfl hinv)
          rw [h] at h1
          exact h1
        | timeout => trivial
    | flush iter =>
      simp only [runStep_flush, flushF]
      split
      · cases h : run n (Req.round e.deferred) e with
        | ok v e2 =>
          have h1 := ih (Req.round e.deferred) e hinv
          rw [h] at h1
          exact ih _ _ h1
        | thrown s =>
          have h1 := ih (Req.round e.deferred) e hinv
          rw [h] at h1
          exact h1
        | timeout => trivial
      · split
        · exact hinv
        · exact edgeInv_same_maps rfl rfl hinv

end EdgeInvRun







section PreInvLemmas

variable {V : Type}

theorem noNullStale_of_eqCore {e e' : Engine V} (h : EqCore e e')
    (hn : NoNullStale e) : NoNullStale e' := by
  intro q
  rw [h.staleEq q]
  exact hn q

theorem safeRead_of_pres {e e' : Engine V} (hc : e'.current = e.current)
    (he : ∀ q, (e'.props q).executionInProgress =
      (e.props q).executionInProgress) (hs : SafeRead e) : SafeRead e' := by
  intro q hq
  rw [he q] at hq
  rw [hc]
  exact hs q hq

theorem safeRead_of_some {e : Engine V} {c : NodeId}
    (h : e.current = some c) : SafeRead e := by
  intro q _
  rw [h]
  exact fun hh => Option.noConfusion hh

theorem cleanLog_cons {e : Engine V} {ev : Ev V} (h : CleanLog e)
    (h1 : ev ≠ Ev.staleInsert none) (h2 : ev ≠ Ev.nullDeref) :
    CleanLog (logEv ev e) := by
  constructor
  · rw [logEv_log]
    intro hm
    rcases List.mem_cons.mp hm with hm | hm
    · exact h1 hm.symm
    · exact h.1 hm
  · rw [logEv_log]
    intro hm
    rcases List.mem_cons.mp hm with hm | hm
    · exact h2 hm.symm
    · exact h.2 hm

theorem cleanLog_of_log_eq {e e' : Engine V} (h : e'.log = e.log)
    (hc : CleanLog e) : CleanLog e' := by
  constructor
  · rw [h]; exact hc.1
  · rw [h]; exact hc.2

theorem cleanLog_unsub {e : Engine V} (c : NodeId) (h : CleanLog e) :
    CleanLog (unsubscribeFromTriggeringProperties c e) := by
  have hl := log_unsub (V := V) c e
  by_cases hT : getTrig c e = []
  · rw [if_pos hT] at hl
    exact cleanLog_of_log_eq hl h
  · rw [if_neg hT] at hl
    constructor
    · rw [hl]
      intro hm
      rcases List.mem_cons.mp hm with hm | hm
      · exact Ev.noConfusion hm.symm
      · exact h.1 hm
    · rw [hl]
      intro hm
      rcases List.mem_cons.mp hm with hm | hm
      · exact Ev.noConfusion hm.symm
      · exact h.2 hm

theorem cleanLog_addTrig {e : Engine V} (c : NodeId) (p : PId)
    (h : CleanLog e) : CleanLog (addTriggeringProperty c p e) := by
  unfold addTriggeringProperty
  refine cleanLog_cons ?_ (fun hh => Ev.noConfusion hh)
    (fun hh => Ev.noConfusion hh)
  refine cleanLog_of_log_eq ?_ h
  rw [updProp_log]
  cases c <;> simp [setTrig]

theorem cleanLog_registerCurrent {e : Engine V} (p : PId) (h : CleanLog e) :
    CleanLog (registerCurrent p e) := by
  unfold registerCurrent
  cases e.current
  · exact h
  · exact cleanLog_addTrig _ _ h

theorem stepPre_refl {e : Engine V} (hn : NoNullStale e) : StepPre e e :=
  ⟨hn, rfl, fun _ => rfl, fun h => h⟩

theorem stepPre_trans {e1 e2 e3 : Engine V} (h1 : StepPre e1 e2)
    (h2 : StepPre e2 e3) : StepPre e1 e3 := by
  obtain ⟨n1, c1, x1, l1⟩ := h1
  obtain ⟨n2, c2, x2, l2⟩ := h2
  exact ⟨n2, c2.trans c1, fun q => (x2 q).trans (x1 q), fun h => l2 (l1 h)⟩

theorem stepPre_of_eqCore {e e' : Engine V} (hc : EqCore e e')
    (hn : NoNullStale e) (hl : CleanLog e → CleanLog e') : StepPre e e' :=
  ⟨noNullStale_of_eqCore hc hn, hc.currentEq, hc.execEq, hl⟩

theorem stepPre_unsub {e : Engine V} (c : NodeId) (hn : NoNullStale e) :
    StepPre e (unsubscribeFromTriggeringProperties c e) :=
  stepPre_of_eqCore (eqCore_unsub c e) hn (cleanLog_unsub c)

theorem stepPre_registerCurrent {e : Engine V} (p : PId)
    (hn : NoNullStale e) : StepPre e (registerCurrent p e) := by
  unfold registerCurrent
  cases hc : e.current
  · exact stepPre_refl hn
  · refine stepPre_of_eqCore (eqCore_addTrig _ _ _) hn ?_
    exact fun h => cleanLog_addTrig _ _ h

theorem stepPre_logEv {e : Engine V} (ev : Ev V)
    (h1 : ev ≠ Ev.staleInsert none) (h2 : ev ≠ Ev.nullDeref)
    (hn : NoNullStale e) : StepPre e (logEv ev e) :=
  stepPre_of_eqCore (eqCore_logEv ev e) hn (fun h => cleanLog_cons h h1 h2)

end PreInvLemmas

section PreInvRun

variable {V : Type} [Inhabited V] [DecidableEq V]

theorem stepPre_same {e e' : Engine V} (hp : e'.props = e.props)
    (hc : e'.current = e.current) (hl : e'.log = e.log)
    (hn : NoNullStale e) : StepPre e e' := by
  refine ⟨?_, hc, ?_, fun h => cleanLog_of_log_eq hl h⟩
  · intro q; rw [hp]; exact hn q
  · intro q; rw [hp]

theorem stepPre_flag {e : Engine V} (b : Bool) (hn : NoNullStale e) :
    StepPre e { e with isDeferred := b } :=
  ⟨fun q => hn q, rfl, fun _ => rfl, fun h => h⟩

theorem stepPre_defer {e : Engine V} (l : List RId) (hn : NoNullStale e) :
    StepPre e { e with deferred := l } :=
  ⟨fun q => hn q, rfl, fun _ => rfl, fun h => h⟩

theorem stepPre_flagDefer {e : Engine V} (b : Bool) (l : List RId)
    (hn : NoNullStale e) : StepPre e { e with isDeferred := b, deferred := l } :=
  ⟨fun q => hn q, rfl, fun _ => rfl, fun h => h⟩

theorem stepPre_updProp {e : Engine V} (p : PId)
    (f : PropState V → PropState V)
    (hs : ∀ ps, (f ps).reactionsWhoReceivedOldValue =
      ps.reactionsWhoReceivedOldValue)
    (hx : ∀ ps, (f ps).executionInProgress = ps.executionInProgress)
    (hn : NoNullStale e) : StepPre e (updProp p f e) := by
  refine ⟨?_, rfl, ?_, fun h => h⟩
  · intro q
    rw [updProp_props]
    split
    · rw [hs]; exact hn q
    · exact hn q
  · intro q
    rw [updProp_props]
    split
    · rw [hx]
    · rfl

theorem nonull_clearStale {e : Engine V} (p : PId) (hn : NoNullStale e) :
    NoNullStale
      (updProp p (fun ps => { ps with reactionsWhoReceivedOldValue := [] })
        e) := by
  intro q
  rw [updProp_props]
  split
  · exact List.not_mem_nil _
  · exact hn q

theorem none_not_mem_insertOpt {l : List (Option NodeId)} {c : NodeId}
    (h : Option.none ∉ l) : Option.none ∉ insertOptNode (some c) l := by
  intro hm
  rcases (mem_insertOptNode _ _ _).mp hm with hh | hh
  · exact Option.noConfusion hh
  · exact h hh

theorem prePres_mono {e e1 : Engine V} {o : Outcome V V}
    (h : StepPre e e1) (hp : PrePres e1 o) : PrePres e o := by
  cases o with
  | ok v e' => exact stepPre_trans h hp
  | thrown s => exact ⟨hp.1, fun hc => hp.2 (h.2.2.2 hc)⟩
  | timeout => trivial

theorem run_preInv : ∀ (fuel : Nat) (req : Req V) (e : Engine V),
    NoNullStale e → EntryOk req e → PrePres e (run fuel req e) := by
  intro fuel
  induction fuel with
  | zero => intro req e _ _; rw [run_zero]; trivial
  | succ n ih =>
    intro req e hn hEntry
    rw [run_succ]
    cases req with
    | mkDirty c =>
      simp only [runStep_mkDirty, mkDirtyF]
      have h0 : StepPre e (logEv (Ev.invalidate c e.isDeferred) e) :=
        stepPre_logEv _ (fun hh => Ev.noConfusion hh)
          (fun hh => Ev.noConfusion hh) hn
      cases c with
      | reac r =>
        dsimp only
        split
        · exact h0
        · exact stepPre_trans h0 (stepPre_defer _ h0.1)
      | prop p =>
        dsimp only
        split
        · exact h0
        · refine prePres_mono
            (stepPre_trans h0
              (stepPre_updProp p (fun ps => { ps with dirty := true })
                (fun _ => rfl) (fun _ => rfl) h0.1))
            (ih _ _ ?_ (by trivial))
          exact (stepPre_trans h0
            (stepPre_updProp p (fun ps => { ps with dirty := true })
              (fun _ => rfl) (fun _ => rfl) h0.1)).1
    | mkDirtyList l =>
      simp only [runStep_mkDirtyList, mkDirtyListF]
      cases l with
      | nil => exact stepPre_refl hn
      | cons c rest =>
        dsimp only
        cases h : run n (Req.mkDirty c) e with
        | ok v e' =>
          have h1 := ih (Req.mkDirty c) e hn trivial
          rw [h] at h1
          exact prePres_mono h1 (ih _ _ h1.1 (by trivial))
        | thrown s =>
          have h1 := ih (Req.mkDirty c) e hn trivial
          rw [h] at h1
          exact h1
        | timeout => trivial
    | mkDirtyOpt l =>
      simp only [runStep_mkDirtyOpt, mkDirtyOptF]
      cases l with
      | nil => exact stepPre_refl hn
      | cons oc rest =>
        cases oc with
        | none => exact absurd (List.mem_cons_self _ _) hEntry
        | some c =>
          dsimp only
          have hrest : Option.none ∉ rest := by
            intro hm
            exact hEntry (List.mem_cons_of_mem _ hm)
          cases h : run n (Req.mkDirty c) e with
          | ok v e' =>
            have h1 := ih (Req.mkDirty c) e hn trivial
            rw [h] at h1
            exact prePres_mono h1 (ih _ _ h1.1 hrest)
          | thrown s =>
            have h1 := ih (Req.mkDirty c) e hn trivial
            rw [h] at h1
            exact h1
          | timeout => trivial
    | comp c =>
      simp only [runStep_comp, compF]
      cases c with
      | pure v => exact stepPre_refl hn
      | read p k =>
        dsimp only
        cases h : run n (Req.getV p) e with
        | ok v e' =>
          have h1 := ih (Req.getV p) e hn hEntry
          rw [h] at h1
          refine prePres_mono h1 (ih _ _ h1.1 ?_)
          exact safeRead_of_pres h1.2.1 h1.2.2.1 hEntry
        | thrown s =>
          have h1 := ih (Req.getV p) e hn hEntry
          rw [h] at h1
          exact h1
        | timeout => trivial
      | set p v k =>
        dsimp only
        cases h : run n (Req.setV p v) e with
        | ok w e' =>
          have h1 := ih (Req.setV p v) e hn hEntry
          rw [h] at h1
          refine prePres_mono h1 (ih _ _ h1.1 ?_)
          exact safeRead_of_pres h1.2.1 h1.2.2.1 hEntry
        | thrown s =>
          have h1 := ih (Req.setV p v) e hn hEntry
          rw [h] at h1
          exact h1
        | timeout => trivial
    | exeProp p =>
      simp only [runStep_exeProp, exePropF]
      have hcur : (unsubscribeFromTriggeringProperties (NodeId.prop p)
          (logEv (Ev.invokeP p)
            { e with current := some (NodeId.prop p) })).current =
          some (NodeId.prop p) := by
        rw [(eqCore_unsub _ _).currentEq]
        rfl
      have hn2 : NoNullStale (unsubscribeFromTriggeringProperties (NodeId.prop p)
          (logEv (Ev.invokeP p) { e with current := some (NodeId.prop p) })) := by
        refine noNullStale_of_eqCore (eqCore_unsub _ _) ?_
        intro q
        exact hn q
      have hcl2 : CleanLog e →
          CleanLog (unsubscribeFromTriggeringProperties (NodeId.prop p)
            (logEv (Ev.invokeP p) { e with current := some (NodeId.prop p) })) := by
        intro hc
        refine cleanLog_unsub _ ?_
        refine cleanLog_cons ?_ (fun hh => Ev.noConfusion hh)
          (fun hh => Ev.noConfusion hh)
        exact cleanLog_of_log_eq rfl hc
      have hx2 : ∀ q, ((unsubscribeFromTriggeringProperties (NodeId.prop p)
          (logEv (Ev.invokeP p)
            { e with current := some (NodeId.prop p) })).props q).executionInProgress =
          (e.props q).executionInProgress := by
        intro q
        rw [(eqCore_unsub _ _).execEq q]
        rfl
      cases h : run n
          (Req.comp
            ((((unsubscribeFromTriggeringProperties (NodeId.prop p)
              (logEv (Ev.invokeP p)
                { e with current := some (NodeId.prop p) })).props p).func).getD
              (Comp.pure default)))
          (unsubscribeFromTriggeringProperties (NodeId.prop p)
            (logEv (Ev.invokeP p) { e with current := some (NodeId.prop p) })) with
      | ok v e3 =>
        have h1 := ih (Req.comp
            ((((unsubscribeFromTriggeringProperties (NodeId.prop p)
              (logEv (Ev.invokeP p)
                { e with current := some (NodeId.prop p) })).props p).func).getD
              (Comp.pure default)))
          (unsubscribeFromTriggeringProperties (NodeId.prop p)
            (logEv (Ev.invokeP p) { e with current := some (NodeId.prop p) }))
          hn2 (safeRead_of_some hcur)
        rw [h] at h1
        refine ⟨fun q => h1.1 q, rfl, ?_, ?_⟩
        · intro q
          exact (h1.2.2.1 q).trans (hx2 q)
        · intro hc
          exact h1.2.2.2 (hcl2 hc)
      | thrown s =>
        have h1 := ih (Req.comp
            ((((unsubscribeFromTriggeringProperties (NodeId.prop p)
              (logEv (Ev.invokeP p)
                { e with current := some (NodeId.prop p) })).props p).func).getD
              (Comp.pure default)))
          (unsubscribeFromTriggeringProperties (NodeId.prop p)
            (logEv (Ev.invokeP p) { e with current := some (NodeId.prop p) }))
          hn2 (safeRead_of_some hcur)
        rw [h] at h1
        exact ⟨fun q => h1.1 q, fun hc => h1.2 (hcl2 hc)⟩
      | timeout => trivial
    | staleFix p ov =>
      simp only [runStep_staleFix, staleFixF]
      split
      · by_cases hv : (e.props p).value ≠ ov
        · rw [if_pos hv]
          have hb : StepPre e { e with isDeferred := true } :=
            stepPre_flag true hn
          cases h : run n (Req.mkDirtyOpt ((e.props p).reactionsWhoReceivedOldValue))
              { e with isDeferred := true } with
          | ok v e2 =>
            have h1 := ih (Req.mkDirtyOpt ((e.props p).reactionsWhoReceivedOldValue))
              { e with isDeferred := true } hb.1 (hn p)
            rw [h] at h1
            (try dsimp only)
            by_cases hD : (!e.isDeferred) = true
            · rw [if_pos hD]
              cases h2 : run n (Req.flush 64) e2 with
              | ok w e4 =>
                have h3 := ih (Req.flush 64) e2 h1.1
                  (safeRead_of_pres h1.2.1 h1.2.2.1
                    (safeRead_of_pres rfl (fun _ => rfl) hEntry))
                rw [h2] at h3
                have hall := stepPre_trans hb (stepPre_trans h1 h3)
                exact stepPre_trans hall
                  ⟨nonull_clearStale p hall.1, rfl,
                    by intro q; rw [updProp_props]; split <;> rfl,
                    fun hc => hc⟩
              | thrown s =>
                have h3 := ih (Req.flush 64) e2 h1.1
                  (safeRead_of_pres h1.2.1 h1.2.2.1
                    (safeRead_of_pres rfl (fun _ => rfl) hEntry))
                rw [h2] at h3
                exact prePres_mono (stepPre_trans hb h1) h3
              | timeout => trivial
            · rw [if_neg hD]
              have hall := stepPre_trans hb h1
              exact stepPre_trans hall
                ⟨nonull_clearStale p hall.1, rfl,
                  by intro q; rw [updProp_props]; split <;> rfl,
                  fun hc => hc⟩
          | thrown s =>
            have h1 := ih (Req.mkDirtyOpt ((e.props p).reactionsWhoReceivedOldValue))
              { e with isDeferred := true } hb.1 (hn p)
            rw [h] at h1
            exact h1
          | timeout => trivial
        · rw [if_neg hv]
          exact stepPre_trans (stepPre_refl hn)
            ⟨nonull_clearStale p hn, rfl,
              by intro q; rw [updProp_props]; split <;> rfl,
              fun hc => hc⟩
      · exact stepPre_refl hn
    | getV p =>
      simp only [runStep_getV, getValueF]
      have h0 : StepPre e (registerCurrent p e) := stepPre_registerCurrent p hn
      split
      · split
        · rename_i hdirty hexec
          obtain ⟨c0, hc0⟩ : ∃ c0, (registerCurrent p e).current = some c0 := by
            have hxp : (e.props p).executionInProgress = true := by
              rw [← h0.2.2.1 p]
              exact hexec
            have hne := hEntry p hxp
            rw [← h0.2.1] at hne
            cases hcc : (registerCurrent p e).current with
            | none => rw [hcc] at hne; exact absurd rfl hne
            | some c1 => exact ⟨c1, rfl⟩
          have hsm : StepPre (registerCurrent p e)
              (staleMark p (registerCurrent p e)) := by
            unfold staleMark
            refine ⟨?_, rfl, ?_, ?_⟩
            · intro q
              rw [logEv_props, updProp_props]
              split
              · rw [hc0]
                exact none_not_mem_insertOpt (h0.1 q)
              · exact h0.1 q
            · intro q
              rw [logEv_props, updProp_props]
              split <;> rfl
            · intro hc
              refine cleanLog_cons (cleanLog_of_log_eq (updProp_log _ _ _) hc) ?_
                (fun hh => Ev.noConfusion hh)
              rw [hc0]
              intro hh
              injection hh with h9
              exact Option.noConfusion h9
          exact stepPre_trans h0
            (stepPre_trans hsm
              (stepPre_logEv _ (fun hh => Ev.noConfusion hh)
                (fun hh => Ev.noConfusion hh) hsm.1))
        · rename_i hdirty hexec
          have hE1x : ((registerCurrent p e).props p).executionInProgress = false := by
            revert hexec
            cases ((registerCurrent p e).props p).executionInProgress <;> simp
          have hxfalse : (e.props p).executionInProgress = false :=
            (h0.2.2.1 p).symm.trans hE1x
          have hn2 : NoNullStale
              (updProp p (fun s => { s with executionInProgress := true })
                (registerCurrent p e)) := by
            intro q
            rw [updProp_props]
            split
            · exact h0.1 q
            · exact h0.1 q
          have hcl2 : CleanLog e →
              CleanLog (updProp p (fun s => { s with executionInProgress := true })
                (registerCurrent p e)) := by
            intro hc
            exact cleanLog_of_log_eq (updProp_log _ _ _)
              (cleanLog_of_log_eq rfl (h0.2.2.2 hc))
          cases h : run n (Req.exeProp p)
              (updProp p (fun s => { s with executionInProgress := true })
                (registerCurrent p e)) with
          | ok v e3 =>
            have h1 := ih (Req.exeProp p)
              (updProp p (fun s => { s with executionInProgress := true })
                (registerCurrent p e)) hn2 trivial
            rw [h] at h1
            (try dsimp only)
            have hcur3 : e3.current = e.current := by
              rw [h1.2.1, updProp_current, h0.2.1]
            have hx4 : ∀ q,
                ((updProp p
                  (fun s =>
                    { s with
                      value := v
                      executionInProgress := false
                      dirty := false })
                  e3).props q).executionInProgress =
                (e.props q).executionInProgress := by
              intro q
              rw [updProp_props]
              by_cases hq : q = p
              · rw [if_pos hq, hq]
                exact hxfalse.symm
              · rw [if_neg hq]
                rw [h1.2.2.1 q, updProp_props, if_neg hq]
                exact h0.2.2.1 q
            have hn4 : NoNullStale
                (updProp p
                  (fun s =>
                    { s with
                      value := v
                      executionInProgress := false
                      dirty := false })
                  e3) := by
              intro q
              rw [updProp_props]
              split
              · exact h1.1 q
              · exact h1.1 q
            have hcl4 : CleanLog e →
                CleanLog (updProp p
                  (fun s =>
                    { s with
                      value := v
                      executionInProgress := false
                      dirty := false })
                  e3) := by
              intro hc
              exact cleanLog_of_log_eq (updProp_log _ _ _) (h1.2.2.2 (hcl2 hc))
            cases h2 : run n (Req.staleFix p
                (((registerCurrent p e).props p).value))
                (updProp p
                  (fun s =>
                    { s with
                      value := v
                      executionInProgress := false
                      dirty := false })
                  e3) with
            | ok w e5 =>
              have h3 := ih (Req.staleFix p
                  (((registerCurrent p e).props p).value))
                  (updProp p
                    (fun s =>
                      { s with
                        value := v
                        executionInProgress := false
                        dirty := false })
                    e3) hn4
                (safeRead_of_pres (by rw [updProp_current, hcur3]) hx4 hEntry)
              rw [h2] at h3
              refine ⟨fun q => h3.1 q, ?_, ?_, ?_⟩
              · show e5.current = e.current
                rw [h3.2.1, updProp_current, hcur3]
              · intro q
                show (e5.props q).executionInProgress = _
                rw [h3.2.2.1 q]
                exact hx4 q
              · intro hc
                refine cleanLog_cons ?_ (fun hh => Ev.noConfusion hh)
                  (fun hh => Ev.noConfusion hh)
                exact h3.2.2.2 (hcl4 hc)
            | thrown s =>
              have h3 := ih (Req.staleFix p
                  (((registerCurrent p e).props p).value))
                  (updProp p
                    (fun s =>
                      { s with
                        value := v
                        executionInProgress := false
                        dirty := false })
                    e3) hn4
                (safeRead_of_pres (by rw [updProp_current, hcur3]) hx4 hEntry)
              rw [h2] at h3
              exact ⟨h3.1, fun hc => h3.2 (hcl4 hc)⟩
            | timeout => trivial
          | thrown s =>
            have h1 := ih (Req.exeProp p)
              (updProp p (fun s => { s with executionInProgress := true })
                (registerCurrent p e)) hn2 trivial
            rw [h] at h1
            exact ⟨h1.1, fun hc => h1.2 (hcl2 hc)⟩
          | timeout => trivial
      · exact stepPre_trans h0
          (stepPre_logEv _ (fun hh => Ev.noConfusion hh)
            (fun hh => Ev.noConfusion hh) h0.1)
    | setV p v =>
      simp only [runStep_setV, setValueF]
      have hPre : StepPre e
          ({ logEv (Ev.setV p)
              (updProp p
                (fun ps => { ps with value := v, dirty := false, func := none })
                (unsubscribeFromTriggeringProperties (NodeId.prop p) e)) with
            isDeferred := true }) := by
        refine stepPre_trans (stepPre_unsub (NodeId.prop p) hn) ?_
        refine stepPre_trans
          (stepPre_updProp p (fun ps => { ps with value := v, dirty := false, func := none })
            (fun _ => rfl) (fun _ => rfl)
            (stepPre_unsub (NodeId.prop p) hn).1) ?_
        refine stepPre_trans
          (stepPre_logEv (Ev.setV p) (fun hh => Ev.noConfusion hh)
            (fun hh => Ev.noConfusion hh)
            (stepPre_updProp p
              (fun ps => { ps with value := v, dirty := false, func := none })
              (fun _ => rfl) (fun _ => rfl)
              (stepPre_unsub (NodeId.prop p) hn).1).1) ?_
        exact stepPre_flag true
          (stepPre_logEv (Ev.setV p) (fun hh => Ev.noConfusion hh)
            (fun hh => Ev.noConfusion hh)
            (stepPre_updProp p
              (fun ps => { ps with value := v, dirty := false, func := none })
              (fun _ => rfl) (fun _ => rfl)
              (stepPre_unsub (NodeId.prop p) hn).1).1).1
      cases h : run n
          (Req.mkDirtyList
            ((({ logEv (Ev.setV p)
                (updProp p
                  (fun ps =>
                    { ps with value := v, dirty := false, func := none })
                  (unsubscribeFromTriggeringProperties (NodeId.prop p) e)) with
              isDeferred := true } : Engine V).props p).dependentReactions))
          ({ logEv (Ev.setV p)
              (updProp p
                (fun ps => { ps with value := v, dirty := false, func := none })
                (unsubscribeFromTriggeringProperties (NodeId.prop p) e)) with
            isDeferred := true }) with
      | ok w e4 =>
        have h1 := ih (Req.mkDirtyList
            ((({ logEv (Ev.setV p)
                (updProp p
                  (fun ps =>
                    { ps with value := v, dirty := false, func := none })
                  (unsubscribeFromTriggeringProperties (NodeId.prop p) e)) with
              isDeferred := true } : Engine V).props p).dependentReactions))
          ({ logEv (Ev.setV p)
              (updProp p
                (fun ps => { ps with value := v, dirty := false, func := none })
                (unsubscribeFromTriggeringProperties (NodeId.prop p) e)) with
            isDeferred := true }) hPre.1 trivial
        rw [h] at h1
        (try dsimp only)
        have hA := stepPre_trans hPre h1
        split
        · cases h2 : run n (Req.flush 64) e4 with
          | ok u e5 =>
            have h3 := ih (Req.flush 64) e4 hA.1
              (safeRead_of_pres hA.2.1 hA.2.2.1 hEntry)
            rw [h2] at h3
            exact stepPre_trans hA h3
          | thrown s =>
            have h3 := ih (Req.flush 64) e4 hA.1
              (safeRead_of_pres hA.2.1 hA.2.2.1 hEntry)
            rw [h2] at h3
            exact prePres_mono hA h3
          | timeout => trivial
        · exact hA
      | thrown s =>
        have h1 := ih (Req.mkDirtyList
            ((({ logEv (Ev.setV p)
                (updProp p
                  (fun ps =>
                    { ps with value := v, dirty := false, func := none })
                  (unsubscribeFromTriggeringProperties (NodeId.prop p) e)) with
              isDeferred := true } : Engine V).props p).dependentReactions))
          ({ logEv (Ev.setV p)
              (updProp p
                (fun ps => { ps with value := v, dirty := false, func := none })
                (unsubscribeFromTriggeringProperties (NodeId.prop p) e)) with
            isDeferred := true }) hPre.1 trivial
        rw [h] at h1
        exact prePres_mono hPre h1
      | timeout => trivial
    | exeReac r =>
      simp only [runStep_exeReac, exeReacF]
      have hcur : (unsubscribeFromTriggeringProperties (NodeId.reac r)
          (logEv (Ev.execR r)
            { e with current := some (NodeId.reac r) })).current =
          some (NodeId.reac r) := by
        rw [(eqCore_unsub _ _).currentEq]
        rfl
      have hn2 : NoNullStale (unsubscribeFromTriggeringProperties (NodeId.reac r)
          (logEv (Ev.execR r) { e with current := some (NodeId.reac r) })) := by
        refine noNullStale_of_eqCore (eqCore_unsub _ _) ?_
        intro q
        exact hn q
      have hcl2 : CleanLog e →
          CleanLog (unsubscribeFromTriggeringProperties (NodeId.reac r)
            (logEv (Ev.execR r) { e with current := some (NodeId.reac r) })) := by
        intro hc
        refine cleanLog_unsub _ ?_
        refine cleanLog_cons ?_ (fun hh => Ev.noConfusion hh)
          (fun hh => Ev.noConfusion hh)
        exact cleanLog_of_log_eq rfl hc
      have hx2 : ∀ q, ((unsubscribeFromTriggeringProperties (NodeId.reac r)
          (logEv (Ev.execR r)
            { e with current := some (NodeId.reac r) })).props q).executionInProgress =
          (e.props q).executionInProgress := by
        intro q
        rw [(eqCore_unsub _ _).execEq q]
        rfl
      cases h : run n
          (Req.comp
            (((unsubscribeFromTriggeringProperties (NodeId.reac r)
              (logEv (Ev.execR r)
                { e with current := some (NodeId.reac r) })).reacs r).func))
          (unsubscribeFromTriggeringProperties (NodeId.reac r)
            (logEv (Ev.execR r) { e with current := some (NodeId.reac r) })) with
      | ok v e3 =>
        have h1 := ih (Req.comp
            (((unsubscribeFromTriggeringProperties (NodeId.reac r)
              (logEv (Ev.execR r)
                { e with current := some (NodeId.reac r) })).reacs r).func))
          (unsubscribeFromTriggeringProperties (NodeId.reac r)
            (logEv (Ev.execR r) { e with current := some (NodeId.reac r) }))
          hn2 (safeRead_of_some hcur)
        rw [h] at h1
        refine ⟨fun q => h1.1 q, rfl, ?_, ?_⟩
        · intro q
          exact (h1.2.2.1 q).trans (hx2 q)
        · intro hc
          exact h1.2.2.2 (hcl2 hc)
      | thrown s =>
        have h1 := ih (Req.comp
            (((unsubscribeFromTriggeringProperties (NodeId.reac r)
              (logEv (Ev.execR r)
                { e with current := some (NodeId.reac r) })).reacs r).func))
          (unsubscribeFromTriggeringProperties (NodeId.reac r)
            (logEv (Ev.execR r) { e with current := some (NodeId.reac r) }))
          hn2 (safeRead_of_some hcur)
        rw [h] at h1
        exact ⟨fun q => h1.1 q, fun hc => h1.2 (hcl2 hc)⟩
      | timeout => trivial
    | round l =>
      simp only [runStep_round, roundF]
      cases l with
      | nil => exact stepPre_refl hn
      | cons r rest =>
        dsimp only
        have hb : StepPre e
            { e with deferred := e.deferred.filter (fun x => x ≠ r) } :=
          stepPre_defer _ hn
        cases h : run n (Req.exeReac r)
            { e with deferred := e.deferred.filter (fun x => x ≠ r) } with
        | ok v e2 =>
          have h1 := ih (Req.exeReac r)
            { e with deferred := e.deferred.filter (fun x => x ≠ r) }
            hb.1 (by trivial)
          rw [h] at h1
          have hA := stepPre_trans hb h1
          exact prePres_mono hA
            (ih _ _ hA.1 (safeRead_of_pres hA.2.1 hA.2.2.1 hEntry))
        | thrown s =>
          have h1 := ih (Req.exeReac r)
            { e with deferred := e.deferred.filter (fun x => x ≠ r) }
            hb.1 (by trivial)
          rw [h] at h1
          exact prePres_mono hb h1
        | timeout => trivial
    | flush iter =>
      simp only [runStep_flush, flushF]
      split
      · cases h : run n (Req.round e.deferred) e with
        | ok v e2 =>
          have h1 := ih (Req.round e.deferred) e hn hEntry
          rw [h] at h1
          exact prePres_mono h1
            (ih _ _ h1.1 (safeRead_of_pres h1.2.1 h1.2.2.1 hEntry))
        | thrown s =>
          have h1 := ih (Req.round e.deferred) e hn hEntry
          rw [h] at h1
          exact h1
        | timeout => trivial
      · split
        · exact ⟨hn, fun hc => hc⟩
        · exact stepPre_flagDefer false [] hn

end PreInvRun




section DefCtxRun

variable {V : Type} [Inhabited V] [DecidableEq V]

theorem noExecLe_refl (e : Engine V) : NoExecLe e e :=
  ⟨rfl, ⟨[], rfl, fun _ h => (List.not_mem_nil _ h)⟩, fun h => h⟩

theorem noExecLe_trans {e1 e2 e3 : Engine V} (h1 : NoExecLe e1 e2)
    (h2 : NoExecLe e2 e3) : NoExecLe e1 e3 := by
  obtain ⟨hb1, ⟨L1, hl1, hn1⟩, hd1⟩ := h1
  obtain ⟨hb2, ⟨L2, hl2, hn2⟩, hd2⟩ := h2
  refine ⟨hb2.trans hb1, ⟨L2 ++ L1, ?_, ?_⟩, fun h => hd2 (hd1 h)⟩
  · rw [hl2, hl1, List.append_assoc]
  · intro r hm
    rcases List.mem_append.mp hm with hm | hm
    · exact hn2 r hm
    · exact hn1 r hm

theorem noExecLe_logEv {e : Engine V} (ev : Ev V)
    (hev : ∀ r, ev ≠ Ev.execR r) : NoExecLe e (logEv ev e) := by
  refine ⟨rfl, ⟨[ev], rfl, ?_⟩, fun h => h⟩
  intro r hm
  rcases List.mem_singleton.mp hm with hh
  exact hev r hh.symm

theorem noExecLe_updProp {e : Engine V} (p : PId)
    (f : PropState V → PropState V) : NoExecLe e (updProp p f e) :=
  ⟨rfl, ⟨[], rfl, fun _ h => (List.not_mem_nil _ h)⟩, fun h => h⟩

theorem noExecLe_unsub {e : Engine V} (c : NodeId) :
    NoExecLe e (unsubscribeFromTriggeringProperties c e) := by
  have hc := eqCore_unsub c e
  refine ⟨hc.batchEq, ?_, ?_⟩
  · rw [log_unsub]
    split
    · exact ⟨[], rfl, fun _ h => (List.not_mem_nil _ h)⟩
    · refine ⟨[Ev.unsub c], rfl, ?_⟩
      intro r hm
      rcases List.mem_singleton.mp hm with hh
      exact Ev.noConfusion hh
  · rw [hc.deferredEq]
    exact fun h => h

theorem noExecLe_setTrig {e : Engine V} (c : NodeId) (t : List PId) :
    NoExecLe e (setTrig c t e) := by
  have hc := eqCore_setTrig c t e
  refine ⟨hc.batchEq, ⟨[], ?_, fun _ h => (List.not_mem_nil _ h)⟩, ?_⟩
  · cases c <;> simp [setTrig]
  · rw [hc.deferredEq]
    exact fun h => h

theorem noExecLe_addTrig {e : Engine V} (c : NodeId) (p : PId) :
    NoExecLe e (addTriggeringProperty c p e) := by
  unfold addTriggeringProperty
  exact noExecLe_trans (noExecLe_setTrig c _)
    (noExecLe_trans (noExecLe_updProp _ _)
      (noExecLe_logEv _ (fun r hh => Ev.noConfusion hh)))

theorem noExecLe_registerCurrent {e : Engine V} (p : PId) :
    NoExecLe e (registerCurrent p e) := by
  unfold registerCurrent
  cases e.current
  · exact noExecLe_refl e
  · exact noExecLe_addTrig _ _

theorem noExecLe_staleMark {e : Engine V} (p : PId) :
    NoExecLe e (staleMark p e) := by
  unfold staleMark
  exact noExecLe_trans (noExecLe_updProp _ _)
    (noExecLe_logEv _ (fun r hh => Ev.noConfusion hh))

theorem noExecLe_retLog {e : Engine V} (p : PId) (v : V) :
    NoExecLe e (retLog p v e) :=
  noExecLe_logEv _ (fun r hh => Ev.noConfusion hh)

theorem noExecLe_flag {e : Engine V} :
    NoExecLe e { e with isDeferred := e.isDeferred } :=
  ⟨rfl, ⟨[], rfl, fun _ h => (List.not_mem_nil _ h)⟩, fun h => h⟩

theorem defCtx_mono {e e1 : Engine V} {o : Outcome V V}
    (h : NoExecLe e e1) (hp : DefCtx e1 o) : DefCtx e o := by
  cases o with
  | ok v e' => exact noExecLe_trans h hp
  | thrown s => exact hp
  | timeout => trivial

theorem run_defCtx : ∀ (fuel : Nat) (req : Req V) (e : Engine V),
    e.isDeferred = true → InnerReq req → DefCtx e (run fuel req e) := by
  intro fuel
  induction fuel with
  | zero => intro req e _ _; rw [run_zero]; trivial
  | succ n ih =>
    intro req e hDef hin
    rw [run_succ]
    cases req with
    | mkDirty c =>
      simp only [runStep_mkDirty, mkDirtyF]
      have h0 : NoExecLe e (logEv (Ev.invalidate c e.isDeferred) e) :=
        noExecLe_logEv _ (fun r hh => Ev.noConfusion hh)
      cases c with
      | reac r =>
        dsimp only
        split
        · exact h0
        · refine noExecLe_trans h0 ⟨rfl, ⟨[], rfl, fun _ h => (List.not_mem_nil _ h)⟩, ?_⟩
          intro h
          exact nodup_insertRId _ _ h
      | prop p =>
        dsimp only
        split
        · exact h0
        · refine defCtx_mono
            (noExecLe_trans h0 (noExecLe_updProp _ _)) (ih _ _ ?_ (by trivial))
          show (updProp _ _ _).isDeferred = true
          rw [updProp_isDeferred, logEv_isDeferred]
          exact hDef
    | mkDirtyList l =>
      simp only [runStep_mkDirtyList, mkDirtyListF]
      cases l with
      | nil => exact noExecLe_refl e
      | cons c rest =>
        dsimp only
        cases h : run n (Req.mkDirty c) e with
        | ok v e' =>
          have h1 := ih (Req.mkDirty c) e hDef (by trivial)
          rw [h] at h1
          exact defCtx_mono h1 (ih _ _ (h1.1.trans hDef) (by trivial))
        | thrown s =>
          have h1 := ih (Req.mkDirty c) e hDef (by trivial)
          rw [h] at h1
          exact h1
        | timeout => trivial
    | mkDirtyOpt l =>
      simp only [runStep_mkDirtyOpt, mkDirtyOptF]
      cases l with
      | nil => exact noExecLe_refl e
      | cons oc rest =>
        cases oc with
        | none =>
          refine defCtx_mono
            (noExecLe_logEv Ev.nullDeref (fun r hh => Ev.noConfusion hh))
            (ih _ _ ?_ (by trivial))
          show (logEv _ _).isDeferred = true
          rw [logEv_isDeferred]
          exact hDef
        | some c =>
          dsimp only
          cases h : run n (Req.mkDirty c) e with
          | ok v e' =>
            have h1 := ih (Req.mkDirty c) e hDef (by trivial)
            rw [h] at h1
            exact defCtx_mono h1 (ih _ _ (h1.1.trans hDef) (by trivial))
          | thrown s =>
            have h1 := ih (Req.mkDirty c) e hDef (by trivial)
            rw [h] at h1
            exact h1
          | timeout => trivial
    | comp c =>
      simp only [runStep_comp, compF]
      cases c with
      | pure v => exact noExecLe_refl e
      | read p k =>
        dsimp only
        cases h : run n (Req.getV p) e with
        | ok v e' =>
          have h1 := ih (Req.getV p) e hDef (by trivial)
          rw [h] at h1
          exact defCtx_mono h1 (ih _ _ (h1.1.trans hDef) (by trivial))
        | thrown s =>
          have h1 := ih (Req.getV p) e hDef (by trivial)
          rw [h] at h1
          exact h1
        | timeout => trivial
      | set p v k =>
        dsimp only
        cases h : run n (Req.setV p v) e with
        | ok w e' =>
          have h1 := ih (Req.setV p v) e hDef (by trivial)
          rw [h] at h1
          exact defCtx_mono h1 (ih _ _ (h1.1.trans hDef) (by trivial))
        | thrown s =>
          have h1 := ih (Req.setV p v) e hDef (by trivial)
          rw [h] at h1
          exact h1
        | timeout => trivial
    | exeProp p =>
      simp only [runStep_exeProp, exePropF]
      have hpre : NoExecLe e
          (unsubscribeFromTriggeringProperties (NodeId.prop p)
            (logEv (Ev.invokeP p) { e with current := some (NodeId.prop p) })) := by
        refine noExecLe_trans ?_ (noExecLe_unsub _)
        refine noExecLe_trans
          (⟨rfl, ⟨[], rfl, fun _ h => (List.not_mem_nil _ h)⟩, fun h => h⟩ :
            NoExecLe e { e with current := some (NodeId.prop p) })
          (noExecLe_logEv _ (fun r hh => Ev.noConfusion hh))
      cases h : run n
          (Req.comp
            ((((unsubscribeFromTriggeringProperties (NodeId.prop p)
              (logEv (Ev.invokeP p)
                { e with current := some (NodeId.prop p) })).props p).func).getD
              (Comp.pure default)))
          (unsubscribeFromTriggeringProperties (NodeId.prop p)
            (logEv (Ev.invokeP p) { e with current := some (NodeId.prop p) })) with
      | ok v e3 =>
        have h1 := ih (Req.comp
            ((((unsubscribeFromTriggeringProperties (NodeId.prop p)
              (logEv (Ev.invokeP p)
                { e with current := some (NodeId.prop p) })).props p).func).getD
              (Comp.pure default)))
          (unsubscribeFromTriggeringProperties (NodeId.prop p)
            (logEv (Ev.invokeP p) { e with current := some (NodeId.prop p) }))
          (hpre.1.trans hDef) (by trivial)
        rw [h] at h1
        refine noExecLe_trans (noExecLe_trans hpre h1) ?_
        exact ⟨rfl, ⟨[], rfl, fun _ hh => (List.not_mem_nil _ hh)⟩, fun hh => hh⟩
      | thrown s =>
        have h1 := ih (Req.comp
            ((((unsubscribeFromTriggeringProperties (NodeId.prop p)
              (logEv (Ev.invokeP p)
                { e with current := some (NodeId.prop p) })).props p).func).getD
              (Comp.pure default)))
          (unsubscribeFromTriggeringProperties (NodeId.prop p)
            (logEv (Ev.invokeP p) { e with current := some (NodeId.prop p) }))
          (hpre.1.trans hDef) (by trivial)
        rw [h] at h1
        exact h1
      | timeout => trivial
    | staleFix p ov =>
      simp only [runStep_staleFix, staleFixF]
      split
      · by_cases hv : (e.props p).value ≠ ov
        · rw [if_pos hv]
          cases h : run n (Req.mkDirtyOpt ((e.props p).reactionsWhoReceivedOldValue))
              { e with isDeferred := true } with
          | ok v e2 =>
            have h1 := ih (Req.mkDirtyOpt ((e.props p).reactionsWhoReceivedOldValue))
              { e with isDeferred := true } rfl (by trivial)
            rw [h] at h1
            (try dsimp only)
            have hEnab : (!e.isDeferred) = false := by rw [hDef]; rfl
            rw [hEnab]
            simp only [Bool.false_eq_true, if_false]
            have hb : NoExecLe e { e with isDeferred := true } := by
              refine ⟨?_, ⟨[], rfl, fun _ hh => (List.not_mem_nil _ hh)⟩, fun hh => hh⟩
              show true = e.isDeferred
              rw [hDef]
            exact noExecLe_trans (noExecLe_trans hb h1) (noExecLe_updProp _ _)
          | thrown s =>
            have h1 := ih (Req.mkDirtyOpt ((e.props p).reactionsWhoReceivedOldValue))
              { e with isDeferred := true } rfl (by trivial)
            rw [h] at h1
            exact h1
          | timeout => trivial
        · rw [if_neg hv]
          exact noExecLe_trans (noExecLe_refl e) (noExecLe_updProp _ _)
      · exact noExecLe_refl e
    | getV p =>
      simp only [runStep_getV, getValueF]
      split
      · split
        · exact noExecLe_trans (noExecLe_registerCurrent _)
            (noExecLe_trans (noExecLe_staleMark _) (noExecLe_retLog _ _))
        · cases h : run n (Req.exeProp p)
              (updProp p (fun s => { s with executionInProgress := true })
                (registerCurrent p e)) with
          | ok v e3 =>
            have h1 := ih (Req.exeProp p)
              (updProp p (fun s => { s with executionInProgress := true })
                (registerCurrent p e))
              (by rw [updProp_isDeferred, (noExecLe_registerCurrent p (e := e)).1]
                  exact hDef)
              (by trivial)
            rw [h] at h1
            (try dsimp only)
            cases h2 : run n (Req.staleFix p
                (((registerCurrent p e).props p).value))
                (updProp p
                  (fun s =>
                    { s with
                      value := v
                      executionInProgress := false
                      dirty := false })
                  e3) with
            | ok w e5 =>
              have h3 := ih (Req.staleFix p
                  (((registerCurrent p e).props p).value))
                  (updProp p
                    (fun s =>
                      { s with
                        value := v
                        executionInProgress := false
                        dirty := false })
                    e3)
                (by rw [updProp_isDeferred]
                    exact h1.1.trans
                      (by rw [updProp_isDeferred, (noExecLe_registerCurrent p (e := e)).1]
                          exact hDef))
                (by trivial)
              rw [h2] at h3
              refine noExecLe_trans (noExecLe_registerCurrent p) ?_
              refine noExecLe_trans
                (noExecLe_updProp p (fun s => { s with executionInProgress := true })) ?_
              refine noExecLe_trans h1 ?_
              refine noExecLe_trans
                (noExecLe_updProp p
                  (fun s =>
                    { s with
                      value := v
                      executionInProgress := false
                      dirty := false })) ?_
              exact noExecLe_trans h3 (noExecLe_retLog p ((e5.props p).value))
            | thrown s =>
              have h3 := ih (Req.staleFix p
                  (((registerCurrent p e).props p).value))
                  (updProp p
                    (fun s =>
                      { s with
                        value := v
                        executionInProgress := false
                        dirty := false })
                    e3)
                (by rw [updProp_isDeferred]
                    exact h1.1.trans
                      (by rw [updProp_isDeferred, (noExecLe_registerCurrent p (e := e)).1]
                          exact hDef))
                (by trivial)
              rw [h2] at h3
              exact h3
            | timeout => trivial
          | thrown s =>
            have h1 := ih (Req.exeProp p)
              (updProp p (fun s => { s with executionInProgress := true })
                (registerCurrent p e))
              (by rw [updProp_isDeferred, (noExecLe_registerCurrent p (e := e)).1]
                  exact hDef)
              (by trivial)
            rw [h] at h1
            exact h1
          | timeout => trivial
      · exact noExecLe_trans (noExecLe_registerCurrent _) (noExecLe_retLog _ _)
    | setV p v =>
      simp only [runStep_setV, setValueF]
      have hPre : NoExecLe e
          ({ logEv (Ev.setV p)
              (updProp p
                (fun ps => { ps with value := v, dirty := false, func := none })
                (unsubscribeFromTriggeringProperties (NodeId.prop p) e)) with
            isDeferred := true }) := by
        refine noExecLe_trans (noExecLe_unsub (NodeId.prop p)) ?_
        refine noExecLe_trans
          (noExecLe_updProp p
            (fun ps => { ps with value := v, dirty := false, func := none })) ?_
        refine noExecLe_trans
          (noExecLe_logEv (Ev.setV p) (fun r hh => Ev.noConfusion hh)) ?_
        refine ⟨?_, ⟨[], rfl, fun _ hh => (List.not_mem_nil _ hh)⟩, fun hh => hh⟩
        show true = (logEv _ _).isDeferred
        rw [logEv_isDeferred, updProp_isDeferred, (eqCore_unsub _ _).batchEq, hDef]
      have hE2Def : (logEv (Ev.setV p)
          (updProp p
            (fun ps => { ps with value := v, dirty := false, func := none })
            (unsubscribeFromTriggeringProperties (NodeId.prop p) e))).isDeferred
          = true := by
        rw [logEv_isDeferred, updProp_isDeferred, (eqCore_unsub _ _).batchEq, hDef]
      cases h : run n
          (Req.mkDirtyList
            ((({ logEv (Ev.setV p)
                (updProp p
                  (fun ps =>
                    { ps with value := v, dirty := false, func := none })
                  (unsubscribeFromTriggeringProperties (NodeId.prop p) e)) with
              isDeferred := true } : Engine V).props p).dependentReactions))
          ({ logEv (Ev.setV p)
              (updProp p
                (fun ps => { ps with value := v, dirty := false, func := none })
                (unsubscribeFromTriggeringProperties (NodeId.prop p) e)) with
            isDeferred := true }) with
      | ok w e4 =>
        have h1 := ih (Req.mkDirtyList
            ((({ logEv (Ev.setV p)
                (updProp p
                  (fun ps =>
                    { ps with value := v, dirty := false, func := none })
                  (unsubscribeFromTriggeringProperties (NodeId.prop p) e)) with
              isDeferred := true } : Engine V).props p).dependentReactions))
          ({ logEv (Ev.setV p)
              (updProp p
                (fun ps => { ps with value := v, dirty := false, func := none })
                (unsubscribeFromTriggeringProperties (NodeId.prop p) e)) with
            isDeferred := true }) rfl (by trivial)
        rw [h] at h1
        (try dsimp only)
        have hEnab : (!(logEv (Ev.setV p)
            (updProp p
              (fun ps => { ps with value := v, dirty := false, func := none })
              (unsubscribeFromTriggeringProperties (NodeId.prop p) e))).isDeferred)
            = false := by
          rw [hE2Def]
          rfl
        rw [hEnab]
        simp only [Bool.false_eq_true, if_false]
        exact noExecLe_trans hPre h1
      | thrown s =>
        have h1 := ih (Req.mkDirtyList
            ((({ logEv (Ev.setV p)
                (updProp p
                  (fun ps =>
                    { ps with value := v, dirty := false, func := none })
                  (unsubscribeFromTriggeringProperties (NodeId.prop p) e)) with
              isDeferred := true } : Engine V).props p).dependentReactions))
          ({ logEv (Ev.setV p)
              (updProp p
                (fun ps => { ps with value := v, dirty := false, func := none })
                (unsubscribeFromTriggeringProperties (NodeId.prop p) e)) with
            isDeferred := true }) rfl (by trivial)
        rw [h] at h1
        exact h1
      | timeout => trivial
    | exeReac r => exact absurd hin (by simp [InnerReq])
    | round l => exact absurd hin (by simp [InnerReq])
    | flush iter => exact absurd hin (by simp [InnerReq])

end DefCtxRun



section RoundFlushLemmas

variable {V : Type} [Inhabited V] [DecidableEq V]

theorem exeReac_execOnce (fuel : Nat) (r : RId) (e : Engine V)
    (hDef : e.isDeferred = true) : ExecOnce r e (run fuel (Req.exeReac r) e) := by
  cases fuel with
  | zero => rw [run_zero]; trivial
  | succ n =>
    rw [run_succ]
    simp only [runStep_exeReac, exeReacF]
    have hu : NoExecLe (logEv (Ev.execR r) { e with current := some (NodeId.reac r) })
        (unsubscribeFromTriggeringProperties (NodeId.reac r)
          (logEv (Ev.execR r) { e with current := some (NodeId.reac r) })) :=
      noExecLe_unsub _
    have hDef2 : (unsubscribeFromTriggeringProperties (NodeId.reac r)
        (logEv (Ev.execR r) { e with current := some (NodeId.reac r) })).isDeferred
        = true := by
      rw [(eqCore_unsub _ _).batchEq, logEv_isDeferred]
      exact hDef
    cases h : run n
        (Req.comp
          (((unsubscribeFromTriggeringProperties (NodeId.reac r)
            (logEv (Ev.execR r)
              { e with current := some (NodeId.reac r) })).reacs r).func))
        (unsubscribeFromTriggeringProperties (NodeId.reac r)
          (logEv (Ev.execR r) { e with current := some (NodeId.reac r) })) with
    | ok v e3 =>
      have h1 := run_defCtx n (Req.comp
          (((unsubscribeFromTriggeringProperties (NodeId.reac r)
            (logEv (Ev.execR r)
              { e with current := some (NodeId.reac r) })).reacs r).func))
        (unsubscribeFromTriggeringProperties (NodeId.reac r)
          (logEv (Ev.execR r) { e with current := some (NodeId.reac r) }))
        hDef2 (by trivial)
      rw [h] at h1
      have ht := noExecLe_trans hu h1
      obtain ⟨hb, ⟨L, hl, hnE⟩, hd⟩ := ht
      refine ⟨⟨L, ?_, hnE⟩, ?_, fun hh => hd hh⟩
      · show e3.log = _
        rw [hl]
        rfl
      · show e3.isDeferred = e.isDeferred
        rw [hb]
        rfl
    | thrown s =>
      have h1 := run_defCtx n (Req.comp
          (((unsubscribeFromTriggeringProperties (NodeId.reac r)
            (logEv (Ev.execR r)
              { e with current := some (NodeId.reac r) })).reacs r).func))
        (unsubscribeFromTriggeringProperties (NodeId.reac r)
          (logEv (Ev.execR r) { e with current := some (NodeId.reac r) }))
        hDef2 (by trivial)
      rw [h] at h1
      exact h1
    | timeout => trivial

theorem countExec_append (r : RId) (L1 L2 : List (Ev V)) :
    countExec r (L1 ++ L2) = countExec r L1 + countExec r L2 := by
  unfold countExec
  rw [List.countP_append]

theorem countExec_nil_of_noExec (r : RId) (L : List (Ev V))
    (h : ∀ r', Ev.execR (V := V) r' ∉ L) : countExec r L = 0 := by
  unfold countExec
  rw [List.countP_eq_zero]
  intro ev hm
  cases ev with
  | execR r' => exact absurd hm (h r')
  | regDep c p => simp
  | unsub c => simp
  | invokeP p => simp
  | readRet p v => simp
  | staleInsert c => simp
  | invalidate c b => simp
  | nullDeref => simp
  | setV p => simp

theorem countExec_cons_execR (r r' : RId) (L : List (Ev V)) :
    countExec r (Ev.execR r' :: L) =
      (if r' = r then 1 else 0) + countExec r L := by
  unfold countExec
  rw [List.countP_cons]
  simp only []
  by_cases h : r' = r
  · simp [h, Nat.add_comm]
  · simp [h, Nat.add_comm]


theorem runRound_spec : ∀ (fuel : Nat) (snap : List RId) (e : Engine V),
    e.isDeferred = true → snap.Nodup →
    RoundSpec snap e (run fuel (Req.round snap) e) := by
  intro fuel
  induction fuel with
  | zero => intro snap e _ _; rw [run_zero]; trivial
  | succ n ih =>
    intro snap e hDef hnd
    rw [run_succ]
    simp only [runStep_round, roundF]
    cases snap with
    | nil =>
      exact ⟨fun r => by simp, rfl, fun h => h⟩
    | cons r rest =>
      dsimp only
      cases h : run n (Req.exeReac r)
          { e with deferred := e.deferred.filter (fun x => x ≠ r) } with
      | ok v e2 =>
        have h1 := exeReac_execOnce n r
          { e with deferred := e.deferred.filter (fun x => x ≠ r) } hDef
        rw [h] at h1
        obtain ⟨⟨L, hl, hnE⟩, hb, hd⟩ := h1
        (try dsimp only)
        have h2 := ih rest e2 (hb.trans hDef) (List.Nodup.of_cons hnd)
        cases h3 : run n (Req.round rest) e2 with
        | ok w e3 =>
          rw [h3] at h2
          obtain ⟨hcnt, hb2, hd2⟩ := h2
          refine ⟨?_, hb2.trans hb, ?_⟩
          · intro r0
            rw [hcnt r0, hl, countExec_append, countExec_cons_execR,
              countExec_nil_of_noExec _ _ hnE]
            by_cases hr : r = r0
            · have hr' : r0 ∉ rest := by
                rw [← hr]
                exact (List.nodup_cons.mp hnd).1
              have hmem : r0 ∈ r :: rest := by
                rw [List.mem_cons]
                exact Or.inl hr.symm
              rw [if_pos hr, if_neg hr', if_pos hmem]
              dsimp only
              omega
            · rw [if_neg hr]
              by_cases hm : r0 ∈ rest
              · have hmem : r0 ∈ r :: rest := List.mem_cons_of_mem _ hm
                rw [if_pos hm, if_pos hmem]
                dsimp only
                omega
              · have hmem : r0 ∉ r :: rest := by
                  rw [List.mem_cons]
                  rintro (hh | hh)
                  · exact hr hh.symm
                  · exact hm hh
                rw [if_neg hm, if_neg hmem]
                dsimp only
                omega

          · intro hh
            refine hd2 (hd ?_)
            show (e.deferred.filter (fun x => x ≠ r)).Nodup
            exact List.Nodup.filter _ hh
        | thrown s =>
          rw [h3] at h2
          exact h2
        | timeout => trivial
      | thrown s =>
        have h1 := exeReac_execOnce n r
          { e with deferred := e.deferred.filter (fun x => x ≠ r) } hDef
        rw [h] at h1
        exact h1
      | timeout => trivial

end RoundFlushLemmas



section FlushLemmas

variable {V : Type} [Inhabited V] [DecidableEq V]

theorem runsRounds_flush_thrown {fuel k : Nat} {e efin : Engine V}
    (h : RunsRounds fuel k e efin) :
    run fuel (Req.flush k) e = Outcome.thrown efin := by
  induction h with
  | zero fuel e =>
    rw [run_succ]
    simp only [runStep_flush, flushF]
    rw [if_neg (fun hc => hc.2 rfl), if_pos trivial]
  | succ fuel k e e1 efin v hne hround hrest ih =>
    rw [run_succ]
    simp only [runStep_flush, flushF]
    rw [if_pos (And.intro hne (Nat.succ_ne_zero k)), hround]
    dsimp only
    rw [Nat.add_sub_cancel]
    exact ih

theorem flush_thrown_runsRounds : ∀ (fuel k : Nat) (e s : Engine V),
    e.isDeferred = true → e.deferred.Nodup →
    run fuel (Req.flush k) e = Outcome.thrown s → RunsRounds fuel k e s := by
  intro fuel
  induction fuel with
  | zero =>
    intro k e s _ _ h
    rw [run_zero] at h
    exact Outcome.noConfusion h
  | succ n ih =>
    intro k e s hD hnd h
    rw [run_succ] at h
    simp only [runStep_flush, flushF] at h
    by_cases hc : e.deferred ≠ [] ∧ k ≠ 0
    · rw [if_pos hc] at h
      cases hr : run n (Req.round e.deferred) e with
      | ok v e1 =>
        rw [hr] at h
        dsimp only at h
        have hspec := runRound_spec n e.deferred e hD hnd
        rw [hr] at hspec
        obtain ⟨_, hb, hd⟩ := hspec
        obtain ⟨k2, rfl⟩ := Nat.exists_eq_succ_of_ne_zero hc.2
        exact RunsRounds.succ n k2 e e1 s v hc.1 hr
          (ih k2 e1 s (hb.trans hD) (hd hnd) h)
      | thrown s0 =>
        have hspec := runRound_spec n e.deferred e hD hnd
        rw [hr] at hspec
        exact False.elim hspec
      | timeout =>
        rw [hr] at h
        exact Outcome.noConfusion h
    · rw [if_neg hc] at h
      by_cases hk : k = 0
      · rw [if_pos hk] at h
        injection h with h1
        rw [hk, ← h1]
        exact RunsRounds.zero n e
      · rw [if_neg hk] at h
        exact Outcome.noConfusion h

theorem convergesIn_flush_ok {fuel k : Nat} {e efin : Engine V}
    (h : ConvergesIn fuel k e efin) :
    ∀ iter, k < iter →
      run fuel (Req.flush iter) e =
        Outcome.ok default
          { efin with isDeferred := false, deferred := [] } := by
  induction h with
  | done fuel e hemp =>
    intro iter hlt
    rw [run_succ]
    simp only [runStep_flush, flushF]
    rw [if_neg (fun hc => hc.1 hemp), if_neg (Nat.pos_iff_ne_zero.mp hlt)]
  | step fuel k e e1 efin v hne hround hrest ih =>
    intro iter hlt
    rw [run_succ]
    simp only [runStep_flush, flushF]
    have hit : iter ≠ 0 := by omega
    rw [if_pos (And.intro hne hit), hround]
    dsimp only
    exact ih (iter - 1) (by omega)

theorem flush_ok_teardown : ∀ (fuel iter : Nat) (e : Engine V) (v : V)
    (e2 : Engine V), run fuel (Req.flush iter) e = Outcome.ok v e2 →
    e2.isDeferred = false ∧ e2.deferred = [] := by
  intro fuel
  induction fuel with
  | zero =>
    intro iter e v e2 h
    rw [run_zero] at h
    exact Outcome.noConfusion h
  | succ n ih =>
    intro iter e v e2 h
    rw [run_succ] at h
    simp only [runStep_flush, flushF] at h
    by_cases hc : e.deferred ≠ [] ∧ iter ≠ 0
    · rw [if_pos hc] at h
      cases hr : run n (Req.round e.deferred) e with
      | ok w e1 =>
        rw [hr] at h
        dsimp only at h
        exact ih (iter - 1) e1 v e2 h
      | thrown s0 =>
        rw [hr] at h
        exact Outcome.noConfusion h
      | timeout =>
        rw [hr] at h
        exact Outcome.noConfusion h
    · rw [if_neg hc] at h
      by_cases hk : iter = 0
      · rw [if_pos hk] at h
        exact Outcome.noConfusion h
      · rw [if_neg hk] at h
        injection h with h1 h2
        rw [← h2]
        exact ⟨rfl, rfl⟩

theorem flush_thrown_not_torn : ∀ (fuel iter : Nat) (e s : Engine V),
    e.isDeferred = true → e.deferred.Nodup →
    run fuel (Req.flush iter) e = Outcome.thrown s → s.isDeferred = true := by
  intro fuel
  induction fuel with
  | zero =>
    intro iter e s _ _ h
    rw [run_zero] at h
    exact Outcome.noConfusion h
  | succ n ih =>
    intro iter e s hD hnd h
    rw [run_succ] at h
    simp only [runStep_flush, flushF] at h
    by_cases hc : e.deferred ≠ [] ∧ iter ≠ 0
    · rw [if_pos hc] at h
      cases hr : run n (Req.round e.deferred) e with
      | ok w e1 =>
        rw [hr] at h
        dsimp only at h
        have hspec := runRound_spec n e.deferred e hD hnd
        rw [hr] at hspec
        obtain ⟨_, hb, hd⟩ := hspec
        exact ih (iter - 1) e1 s (hb.trans hD) (hd hnd) h
      | thrown s0 =>
        have hspec := runRound_spec n e.deferred e hD hnd
        rw [hr] at hspec
        exact False.elim hspec
      | timeout =>
        rw [hr] at h
        exact Outcome.noConfusion h
    · rw [if_neg hc] at h
      by_cases hk : iter = 0
      · rw [if_pos hk] at h
        injection h with h1
        rw [← h1]
        exact hD
      · rw [if_neg hk] at h
        exact Outcome.noConfusion h

end FlushLemmas

section BranchLemmas

variable {V : Type} [Inhabited V] [DecidableEq V]

theorem eqCore_registerCurrent (p : PId) (e : Engine V) :
    EqCore e (registerCurrent p e) := by
  unfold registerCurrent
  cases hc : e.current
  · exact eqCore_refl e
  · exact eqCore_addTrig _ _ _

/-- C6: re-entrant cycle read.  For a property that is dirty with its
recomputing flag set, getValue registers the dependency, records the
current consumer (Reaction::current, possibly null) into the property's
reactionsWhoReceivedOldValue set, and returns the stale cached value
immediately: the result is exactly this for any remaining fuel — in
particular for fuel 0, so the producer is never invoked, nothing recurses,
and no error is raised. -/
theorem getValue_reentrant_eq (fuel : Nat) (p : PId) (e : Engine V)
    (h1 : (e.props p).dirty = true)
    (h2 : (e.props p).executionInProgress = true) :
    run (fuel + 1) (Req.getV p) e =
      Outcome.ok ((e.props p).value)
        (retLog p ((e.props p).value) (staleMark p (registerCurrent p e))) := by
  have hc := eqCore_registerCurrent p e
  rw [run_succ]
  simp only [runStep_getV, getValueF]
  rw [if_pos ((hc.dirtyEq p).trans h1), if_pos ((hc.execEq p).trans h2),
    hc.valueEq p]

theorem getValue_memoized_eq (fuel : Nat) (p : PId) (e : Engine V)
    (h1 : (e.props p).dirty = false) :
    run (fuel + 1) (Req.getV p) e =
      Outcome.ok ((e.props p).value)
        (retLog p ((e.props p).value) (registerCurrent p e)) := by
  have hc := eqCore_registerCurrent p e
  have hd : ((registerCurrent p e).props p).dirty = false :=
    (hc.dirtyEq p).trans h1
  rw [run_succ]
  simp only [runStep_getV, getValueF]
  rw [if_neg (by rw [hd]; exact Bool.false_ne_true), hc.valueEq p]

end BranchLemmas

section InvalidateLemmas

variable {V : Type} [Inhabited V] [DecidableEq V]

theorem mem_log_of_run_ok {req : Req V} {e : Engine V} {n : Nat} {v : V}
    {e2 : Engine V} (h : run n req e = Outcome.ok v e2) {ev : Ev V}
    (hm : ev ∈ e.log) : ev ∈ e2.log := by
  have hg := run_logGrows n req e
  rw [h] at hg
  have h2 : e.log <:+ e2.log := hg
  exact h2.subset hm

theorem mkDirty_invalidate : ∀ (fuel : Nat) (c : NodeId) (e : Engine V)
    (v : V) (e2 : Engine V), run fuel (Req.mkDirty c) e = Outcome.ok v e2 →
    Ev.invalidate c e.isDeferred ∈ e2.log := by
  intro fuel c e v e2 h
  cases fuel with
  | zero =>
    rw [run_zero] at h
    exact Outcome.noConfusion h
  | succ n =>
    rw [run_succ] at h
    simp only [runStep_mkDirty, mkDirtyF] at h
    cases c with
    | reac r =>
      dsimp only at h
      split at h
      · injection h with hv he
        rw [← he]
        exact List.mem_cons_self _ _
      · injection h with hv he
        rw [← he]
        exact List.mem_cons_self _ _
    | prop p =>
      dsimp only at h
      split at h
      · injection h with hv he
        rw [← he]
        exact List.mem_cons_self _ _
      · exact mem_log_of_run_ok h (List.mem_cons_self _ _)

theorem mkDirtyOpt_invalidates : ∀ (fuel : Nat) (l : List (Option NodeId))
    (e : Engine V) (v : V) (e2 : Engine V), e.isDeferred = true →
    run fuel (Req.mkDirtyOpt l) e = Outcome.ok v e2 →
    ∀ c : NodeId, some c ∈ l → Ev.invalidate c true ∈ e2.log := by
  intro fuel
  induction fuel with
  | zero =>
    intro l e v e2 _ h
    rw [run_zero] at h
    exact Outcome.noConfusion h
  | succ n ih =>
    intro l e v e2 hD h c hc
    rw [run_succ] at h
    simp only [runStep_mkDirtyOpt, mkDirtyOptF] at h
    cases l with
    | nil => exact absurd hc (List.not_mem_nil _)
    | cons o rest =>
      cases o with
      | none =>
        dsimp only at h
        rcases List.mem_cons.mp hc with h1 | h1
        · exact Option.noConfusion h1
        · exact ih rest (logEv Ev.nullDeref e) v e2 hD h c h1
      | some c0 =>
        dsimp only at h
        cases hr : run n (Req.mkDirty c0) e with
        | ok w e1 =>
          rw [hr] at h
          dsimp only at h
          have hDef1 : e1.isDeferred = true := by
            have hdc := run_defCtx n (Req.mkDirty c0) e hD trivial
            rw [hr] at hdc
            exact hdc.1.trans hD
          rcases List.mem_cons.mp hc with h1 | h1
          · injection h1 with h1
            rw [h1]
            have hm : Ev.invalidate c0 e.isDeferred ∈ e1.log :=
              mkDirty_invalidate n c0 e w e1 hr
            rw [hD] at hm
            exact mem_log_of_run_ok h hm
          · exact ih rest e1 v e2 hDef1 h c h1
        | thrown s =>
          rw [hr] at h
          exact Outcome.noConfusion h
        | timeout =>
          rw [hr] at h
          exact Outcome.noConfusion h

end InvalidateLemmas

section C7Section

variable {V : Type} [Inhabited V] [DecidableEq V]

/-- C7: when a Property finishes recomputing with a non-empty staleReaders
set, then on normal completion the set is cleared, and when the fresh
value differs from the old value every (non-null) consumer recorded there
is invalidated (a makeDirty call under the implicit batch scope, recorded
as an invalidate event with the batch flag set); when the fresh value
equals the old one, the correction is exactly the clearing of the set and
nothing else happens (the state is unchanged otherwise, so nobody is
invalidated). -/
theorem staleCorrection_spec (fuel : Nat) (p : PId) (ov : V) (e : Engine V)
    (hne : (e.props p).reactionsWhoReceivedOldValue ≠ []) :
    (∀ v e2, run fuel (Req.staleFix p ov) e = Outcome.ok v e2 →
      (e2.props p).reactionsWhoReceivedOldValue = [] ∧
      ((e.props p).value ≠ ov →
        ∀ c, some c ∈ (e.props p).reactionsWhoReceivedOldValue →
          Ev.invalidate c true ∈ e2.log)) ∧
    ((e.props p).value = ov →
      run (fuel + 1) (Req.staleFix p ov) e =
        Outcome.ok default
          (updProp p (fun ps => { ps with reactionsWhoReceivedOldValue := [] })
            e)) := by
  have hlen : (e.props p).reactionsWhoReceivedOldValue.length > 0 :=
    List.length_pos.mpr hne
  constructor
  · intro v e2 h
    cases fuel with
    | zero =>
      rw [run_zero] at h
      exact Outcome.noConfusion h
    | succ n =>
      rw [run_succ] at h
      simp only [runStep_staleFix, staleFixF] at h
      rw [if_pos hlen] at h
      by_cases hv : (e.props p).value ≠ ov
      · rw [if_pos hv] at h
        cases hmk : run n
            (Req.mkDirtyOpt (e.props p).reactionsWhoReceivedOldValue)
            { e with isDeferred := true } with
        | ok w e1 =>
          rw [hmk] at h
          dsimp only at h
          have hinv : ∀ c : NodeId,
              some c ∈ (e.props p).reactionsWhoReceivedOldValue →
              Ev.invalidate c true ∈ e1.log :=
            mkDirtyOpt_invalidates n _ _ w e1 rfl hmk
          by_cases hb : e.isDeferred = true
          · rw [hb] at h
            rw [if_neg (by simp)] at h
            injection h with h1 h2
            rw [← h2]
            refine ⟨updProp_props_self p _ e1 ▸ rfl, fun _ c hmem => ?_⟩
            exact hinv c hmem
          · have hb2 : e.isDeferred = false := Bool.eq_false_iff.mpr hb
            rw [hb2] at h
            rw [if_pos (show (!false) = true from rfl)] at h
            cases hf : run n (Req.flush 64) e1 with
            | ok u e3 =>
              rw [hf] at h
              injection h with h1 h2
              rw [← h2]
              refine ⟨updProp_props_self p _ e3 ▸ rfl, fun _ c hmem => ?_⟩
              exact mem_log_of_run_ok hf (hinv c hmem)
            | thrown s =>
              rw [hf] at h
              exact Outcome.noConfusion h
            | timeout =>
              rw [hf] at h
              exact Outcome.noConfusion h
        | thrown s =>
          rw [hmk] at h
          exact Outcome.noConfusion h
        | timeout =>
          rw [hmk] at h
          exact Outcome.noConfusion h
      · rw [if_neg hv] at h
        dsimp only at h
        injection h with h1 h2
        rw [← h2]
        refine ⟨updProp_props_self p _ e ▸ rfl, fun hcon => absurd hcon hv⟩
  · intro heq
    rw [run_succ]
    simp only [runStep_staleFix, staleFixF]
    rw [if_pos hlen, if_neg (fun hcon => hcon heq)]

end C7Section






section DepsLemmas

variable {V : Type} [Inhabited V] [DecidableEq V]

theorem depsEvo_append (c : NodeId) (d : List PId) (L1 L2 : List (Ev V)) :
    depsEvo c d (L2 ++ L1) = depsEvo c (depsEvo c d L1) L2 :=
  List.foldr_append _ _ _ _

theorem depsStep_refl (e : Engine V) : DepsStep e e :=
  ⟨[], rfl, fun _ => rfl⟩

theorem depsStep_trans {e1 e2 e3 : Engine V} (h1 : DepsStep e1 e2)
    (h2 : DepsStep e2 e3) : DepsStep e1 e3 := by
  obtain ⟨L1, hl1, ht1⟩ := h1
  obtain ⟨L2, hl2, ht2⟩ := h2
  refine ⟨L2 ++ L1, ?_, fun c => ?_⟩
  · rw [hl2, hl1, List.append_assoc]
  · rw [ht2 c, ht1 c, depsEvo_append]

theorem depsPres_mono {e1 e2 : Engine V} {o : Outcome V V}
    (h : DepsStep e1 e2) (hg : DepsPres e2 o) : DepsPres e1 o := by
  cases o <;> simp only [DepsPres] at hg ⊢
  · exact depsStep_trans h hg
  · exact depsStep_trans h hg

theorem depsStep_same_maps {e e2 : Engine V} (h1 : e2.props = e.props)
    (h2 : e2.reacs = e.reacs) (hl : e2.log = e.log) : DepsStep e e2 := by
  refine ⟨[], by rw [hl]; rfl, fun c => ?_⟩
  show getTrig c e2 = getTrig c e
  cases c <;> simp [getTrig, h1, h2]

theorem depsStep_logEvN {e : Engine V} (ev : Ev V)
    (hne : ∀ (c : NodeId) (d : List PId), applyEv c ev d = d) :
    DepsStep e (logEv ev e) := by
  refine ⟨[ev], rfl, fun c => ?_⟩
  show getTrig c (logEv ev e) = applyEv c ev (getTrig c e)
  rw [hne, getTrig_logEv]

theorem depsStep_updProp {e : Engine V} (p : PId)
    (f : PropState V → PropState V)
    (hf : ∀ ps, (f ps).triggeringProperties = ps.triggeringProperties) :
    DepsStep e (updProp p f e) := by
  refine ⟨[], rfl, fun c => ?_⟩
  show getTrig c (updProp p f e) = getTrig c e
  cases c with
  | prop q =>
    show ((updProp p f e).props q).triggeringProperties =
      ((e.props q) : PropState V).triggeringProperties
    rw [updProp_props]
    by_cases hq : q = p
    · rw [if_pos hq, hf]
    · rw [if_neg hq]
  | reac r => rfl

theorem depsStep_addTrig {e : Engine V} (c0 : NodeId) (p : PId) :
    DepsStep e (addTriggeringProperty c0 p e) := by
  refine ⟨[Ev.regDep c0 p], ?_, fun c => ?_⟩
  · show (addTriggeringProperty c0 p e).log = Ev.regDep c0 p :: e.log
    unfold addTriggeringProperty
    rw [logEv_log, updProp_log]
    cases c0 <;> simp [setTrig]
  · show getTrig c (addTriggeringProperty c0 p e) =
      applyEv c (Ev.regDep (V := V) c0 p) (getTrig c e)
    rw [getTrig_addTrig]
    show _ = if c0 = c then insertPId p (getTrig c e) else getTrig c e
    by_cases hcc : c = c0
    · rw [if_pos hcc, if_pos hcc.symm, hcc]
    · rw [if_neg hcc, if_neg (fun hh => hcc hh.symm)]

theorem depsStep_registerCurrent {e : Engine V} (p : PId) :
    DepsStep e (registerCurrent p e) := by
  unfold registerCurrent
  cases e.current
  · exact depsStep_refl e
  · exact depsStep_addTrig _ _

theorem depsStep_unsub {e : Engine V} (c0 : NodeId) :
    DepsStep e (unsubscribeFromTriggeringProperties c0 e) := by
  by_cases hT : getTrig c0 e = []
  · refine ⟨[], ?_, fun c => ?_⟩
    · rw [log_unsub, if_pos hT]
      rfl
    · show getTrig c (unsubscribeFromTriggeringProperties c0 e) = getTrig c e
      by_cases hcc : c = c0
      · rw [hcc, getTrig_unsub_self]
        exact hT.symm
      · rw [getTrig_unsub_ne c0 c e hcc]
  · refine ⟨[Ev.unsub c0], ?_, fun c => ?_⟩
    · rw [log_unsub, if_neg hT]
      rfl
    · show getTrig c (unsubscribeFromTriggeringProperties c0 e) =
        applyEv c (Ev.unsub (V := V) c0) (getTrig c e)
      show _ = if c0 = c then [] else getTrig c e
      by_cases hcc : c0 = c
      · rw [if_pos hcc, ← hcc, getTrig_unsub_self]
      · rw [if_neg hcc, getTrig_unsub_ne c0 c e (fun hh => hcc hh.symm)]

theorem depsStep_staleMark {e : Engine V} (p : PId) :
    DepsStep e (staleMark p e) := by
  unfold staleMark
  exact depsStep_trans
    (depsStep_updProp p
      (fun ps =>
        { ps with reactionsWhoReceivedOldValue :=
            insertOptNode e.current ps.reactionsWhoReceivedOldValue })
      (fun _ => rfl))
    (depsStep_logEvN (Ev.staleInsert e.current) (fun _ _ => rfl))

theorem depsStep_retLog {e : Engine V} (p : PId) (v : V) :
    DepsStep e (retLog p v e) :=
  depsStep_logEvN (Ev.readRet p v) (fun _ _ => rfl)

end DepsLemmas

section DepsRun

variable {V : Type} [Inhabited V] [DecidableEq V]

theorem depsStep_entry {e : Engine V} (c0 : NodeId) (ev : Ev V)
    (x : Option NodeId)
    (hne : ∀ (c : NodeId) (d : List PId), applyEv c ev d = d) :
    DepsStep e (unsubscribeFromTriggeringProperties c0
      (logEv ev { e with current := x })) := by
  refine depsStep_trans ?_ (depsStep_unsub _)
  refine depsStep_trans ?_ (depsStep_logEvN ev hne)
  exact depsStep_same_maps rfl rfl rfl

theorem run_depsPres : ∀ (fuel : Nat) (req : Req V) (e : Engine V),
    DepsPres e (run fuel req e) := by
  intro fuel
  induction fuel with
  | zero => intro req e; rw [run_zero]; trivial
  | succ n ih =>
    intro req e
    rw [run_succ]
    cases req with
    | mkDirty c =>
      simp only [runStep_mkDirty, mkDirtyF]
      cases c with
      | reac r =>
        dsimp only
        split
        · exact depsStep_logEvN (Ev.invalidate (NodeId.reac r) e.isDeferred)
            (fun _ _ => rfl)
        · exact depsStep_trans
            (depsStep_logEvN (Ev.invalidate (NodeId.reac r) e.isDeferred)
              (fun _ _ => rfl))
            (depsStep_same_maps rfl rfl rfl)
      | prop p =>
        dsimp only
        split
        · exact depsStep_logEvN (Ev.invalidate (NodeId.prop p) e.isDeferred)
            (fun _ _ => rfl)
        · refine depsPres_mono ?_ (ih _ _)
          exact depsStep_trans
            (depsStep_logEvN (Ev.invalidate (NodeId.prop p) e.isDeferred)
              (fun _ _ => rfl))
            (depsStep_updProp _ _ (fun _ => rfl))
    | mkDirtyList l =>
      simp only [runStep_mkDirtyList, mkDirtyListF]
      cases l with
      | nil => exact depsStep_refl e
      | cons c rest =>
        dsimp only
        cases h : run n (Req.mkDirty c) e with
        | ok v e2 =>
          have h1 := ih (Req.mkDirty c) e
          rw [h] at h1
          (try dsimp only)
          exact depsPres_mono h1 (ih _ _)
        | thrown s =>
          have h1 := ih (Req.mkDirty c) e
          rw [h] at h1
          (try dsimp only)
          exact h1
        | timeout => trivial
    | mkDirtyOpt l =>
      simp only [runStep_mkDirtyOpt, mkDirtyOptF]
      cases l with
      | nil => exact depsStep_refl e
      | cons oc rest =>
        cases oc with
        | none =>
          refine depsPres_mono ?_ (ih _ _)
          exact depsStep_logEvN Ev.nullDeref (fun _ _ => rfl)
        | some c =>
          dsimp only
          cases h : run n (Req.mkDirty c) e with
          | ok v e2 =>
            have h1 := ih (Req.mkDirty c) e
            rw [h] at h1
            (try dsimp only)
            exact depsPres_mono h1 (ih _ _)
          | thrown s =>
            have h1 := ih (Req.mkDirty c) e
            rw [h] at h1
            (try dsimp only)
            exact h1
          | timeout => trivial
    | comp c =>
      simp only [runStep_comp, compF]
      cases c with
      | pure v => exact depsStep_refl e
      | read p k =>
        dsimp only
        cases h : run n (Req.getV p) e with
        | ok v e2 =>
          have h1 := ih (Req.getV p) e
          rw [h] at h1
          (try dsimp only)
          exact depsPres_mono h1 (ih _ _)
        | thrown s =>
          have h1 := ih (Req.getV p) e
          rw [h] at h1
          (try dsimp only)
          exact h1
        | timeout => trivial
      | set p v k =>
        dsimp only
        cases h : run n (Req.setV p v) e with
        | ok w e2 =>
          have h1 := ih (Req.setV p v) e
          rw [h] at h1
          (try dsimp only)
          exact depsPres_mono h1 (ih _ _)
        | thrown s =>
          have h1 := ih (Req.setV p v) e
          rw [h] at h1
          (try dsimp only)
          exact h1
        | timeout => trivial
    | exeProp p =>
      simp only [runStep_exeProp, exePropF]
      have hpre : DepsStep e
          (unsubscribeFromTriggeringProperties (NodeId.prop p)
            (logEv (Ev.invokeP p) { e with current := some (NodeId.prop p) })) :=
        depsStep_entry _ (Ev.invokeP p) _ (fun _ _ => rfl)
      cases h : run n
          (Req.comp
            ((((unsubscribeFromTriggeringProperties (NodeId.prop p)
              (logEv (Ev.invokeP p)
                { e with current := some (NodeId.prop p) })).props p).func).getD
              (Comp.pure default)))
          (unsubscribeFromTriggeringProperties (NodeId.prop p)
            (logEv (Ev.invokeP p) { e with current := some (NodeId.prop p) })) with
      | ok v e3 =>
        have h1 := ih (Req.comp
            ((((unsubscribeFromTriggeringProperties (NodeId.prop p)
              (logEv (Ev.invokeP p)
                { e with current := some (NodeId.prop p) })).props p).func).getD
              (Comp.pure default)))
          (unsubscribeFromTriggeringProperties (NodeId.prop p)
            (logEv (Ev.invokeP p) { e with current := some (NodeId.prop p) }))
        rw [h] at h1
        (try dsimp only)
        exact depsStep_trans (depsStep_trans hpre h1)
          (depsStep_same_maps rfl rfl rfl)
      | thrown s =>
        have h1 := ih (Req.comp
            ((((unsubscribeFromTriggeringProperties (NodeId.prop p)
              (logEv (Ev.invokeP p)
                { e with current := some (NodeId.prop p) })).props p).func).getD
              (Comp.pure default)))
          (unsubscribeFromTriggeringProperties (NodeId.prop p)
            (logEv (Ev.invokeP p) { e with current := some (NodeId.prop p) }))
        rw [h] at h1
        (try dsimp only)
        exact depsStep_trans (depsStep_trans hpre h1)
          (depsStep_same_maps rfl rfl rfl)
      | timeout => trivial
    | staleFix p ov =>
      simp only [runStep_staleFix, staleFixF]
      split
      · by_cases hv : (e.props p).value ≠ ov
        · rw [if_pos hv]
          cases h : run n (Req.mkDirtyOpt ((e.props p).reactionsWhoReceivedOldValue))
              { e with isDeferred := true } with
          | ok v e2 =>
            have h1 := ih (Req.mkDirtyOpt ((e.props p).reactionsWhoReceivedOldValue))
              { e with isDeferred := true }
            rw [h] at h1
            (try dsimp only)
            have hbase : DepsStep e ({ e with isDeferred := true }) :=
              depsStep_same_maps rfl rfl rfl
            by_cases hD : (!e.isDeferred) = true
            · rw [if_pos hD]
              cases h2 : run n (Req.flush 64) e2 with
              | ok w e4 =>
                have h3 := ih (Req.flush 64) e2
                rw [h2] at h3
                (try dsimp only)
                exact depsStep_trans
                  (depsStep_trans (depsStep_trans hbase h1) h3)
                  (depsStep_updProp _ _ (fun _ => rfl))
              | thrown s =>
                have h3 := ih (Req.flush 64) e2
                rw [h2] at h3
                (try dsimp only)
                exact depsStep_trans (depsStep_trans hbase h1) h3
              | timeout => trivial
            · rw [if_neg hD]
              exact depsStep_trans (depsStep_trans hbase h1)
                (depsStep_updProp _ _ (fun _ => rfl))
          | thrown s =>
            have h1 := ih (Req.mkDirtyOpt ((e.props p).reactionsWhoReceivedOldValue))
              { e with isDeferred := true }
            rw [h] at h1
            (try dsimp only)
            exact depsStep_trans (depsStep_same_maps rfl rfl rfl) h1
          | timeout => trivial
        · rw [if_neg hv]
          exact depsStep_updProp _ _ (fun _ => rfl)
      · exact depsStep_refl e
    | getV p =>
      simp only [runStep_getV, getValueF]
      split
      · split
        · exact depsStep_trans (depsStep_registerCurrent _)
            (depsStep_trans (depsStep_staleMark _) (depsStep_retLog _ _))
        · cases h : run n (Req.exeProp p)
              (updProp p (fun s => { s with executionInProgress := true })
                (registerCurrent p e)) with
          | ok v e3 =>
            have h1 := ih (Req.exeProp p)
              (updProp p (fun s => { s with executionInProgress := true })
                (registerCurrent p e))
            rw [h] at h1
            (try dsimp only)
            have hbase : DepsStep e
                (updProp p (fun s => { s with executionInProgress := true })
                  (registerCurrent p e)) :=
              depsStep_trans (depsStep_registerCurrent _)
                (depsStep_updProp _ _ (fun _ => rfl))
            cases h2 : run n (Req.staleFix p
                (((registerCurrent p e).props p).value))
                (updProp p
                  (fun s =>
                    { s with
                      value := v
                      executionInProgress := false
                      dirty := false })
                  e3) with
            | ok w e5 =>
              have h3 := ih (Req.staleFix p
                  (((registerCurrent p e).props p).value))
                  (updProp p
                    (fun s =>
                      { s with
                        value := v
                        executionInProgress := false
                        dirty := false })
                    e3)
              rw [h2] at h3
              (try dsimp only)
              exact depsStep_trans (depsStep_trans hbase h1)
                (depsStep_trans
                  (depsStep_trans
                    (depsStep_updProp p
                      (fun s =>
                        { s with
                          value := v
                          executionInProgress := false
                          dirty := false })
                      (fun _ => rfl))
                    h3)
                  (depsStep_retLog _ _))
            | thrown s =>
              have h3 := ih (Req.staleFix p
                  (((registerCurrent p e).props p).value))
                  (updProp p
                    (fun s =>
                      { s with
                        value := v
                        executionInProgress := false
                        dirty := false })
                    e3)
              rw [h2] at h3
              (try dsimp only)
              exact depsStep_trans (depsStep_trans hbase h1)
                (depsStep_trans
                  (depsStep_updProp p
                    (fun s =>
                      { s with
                        value := v
                        executionInProgress := false
                        dirty := false })
                    (fun _ => rfl))
                  h3)
            | timeout => trivial
          | thrown s =>
            have h1 := ih (Req.exeProp p)
              (updProp p (fun s => { s with executionInProgress := true })
                (registerCurrent p e))
            rw [h] at h1
            (try dsimp only)
            exact depsStep_trans
              (depsStep_trans (depsStep_registerCurrent _)
                (depsStep_updProp p
                  (fun s => { s with executionInProgress := true })
                  (fun _ => rfl)))
              h1
          | timeout => trivial
      · exact depsStep_trans (depsStep_registerCurrent _) (depsStep_retLog _ _)
    | setV p v =>
      simp only [runStep_setV, setValueF]
      have hbase : DepsStep e
          ({ logEv (Ev.setV p)
              (updProp p
                (fun ps => { ps with value := v, dirty := false, func := none })
                (unsubscribeFromTriggeringProperties (NodeId.prop p) e)) with
            isDeferred := true }) := by
        refine depsStep_trans ?_ (depsStep_same_maps rfl rfl rfl)
        refine depsStep_trans ?_ (depsStep_logEvN (Ev.setV p) (fun _ _ => rfl))
        exact depsStep_trans (depsStep_unsub _)
          (depsStep_updProp _ _ (fun _ => rfl))
      cases h : run n
          (Req.mkDirtyList
            ((({ logEv (Ev.setV p)
                (updProp p
                  (fun ps =>
                    { ps with value := v, dirty := false, func := none })
                  (unsubscribeFromTriggeringProperties (NodeId.prop p) e)) with
              isDeferred := true } : Engine V).props p).dependentReactions))
          ({ logEv (Ev.setV p)
              (updProp p
                (fun ps => { ps with value := v, dirty := false, func := none })
                (unsubscribeFromTriggeringProperties (NodeId.prop p) e)) with
            isDeferred := true }) with
      | ok w e4 =>
        have h1 := ih (Req.mkDirtyList
            ((({ logEv (Ev.setV p)
                (updProp p
                  (fun ps =>
                    { ps with value := v, dirty := false, func := none })
                  (unsubscribeFromTriggeringProperties (NodeId.prop p) e)) with
              isDeferred := true } : Engine V).props p).dependentReactions))
          ({ logEv (Ev.setV p)
              (updProp p
                (fun ps => { ps with value := v, dirty := false, func := none })
                (unsubscribeFromTriggeringProperties (NodeId.prop p) e)) with
            isDeferred := true })
        rw [h] at h1
        (try dsimp only)
        split
        · cases h2 : run n (Req.flush 64) e4 with
          | ok u e5 =>
            have h3 := ih (Req.flush 64) e4
            rw [h2] at h3
            (try dsimp only)
            exact depsStep_trans (depsStep_trans hbase h1) h3
          | thrown s =>
            have h3 := ih (Req.flush 64) e4
            rw [h2] at h3
            (try dsimp only)
            exact depsStep_trans (depsStep_trans hbase h1) h3
          | timeout => trivial
        · exact depsStep_trans hbase h1
      | thrown s =>
        have h1 := ih (Req.mkDirtyList
            ((({ logEv (Ev.setV p)
                (updProp p
                  (fun ps =>
                    { ps with value := v, dirty := false, func := none })
                  (unsubscribeFromTriggeringProperties (NodeId.prop p) e)) with
              isDeferred := true } : Engine V).props p).dependentReactions))
          ({ logEv (Ev.setV p)
              (updProp p
                (fun ps => { ps with value := v, dirty := false, func := none })
                (unsubscribeFromTriggeringProperties (NodeId.prop p) e)) with
            isDeferred := true })
        rw [h] at h1
        (try dsimp only)
        exact depsStep_trans hbase h1
      | timeout => trivial
    | exeReac r =>
      simp only [runStep_exeReac, exeReacF]
      have hpre : DepsStep e
          (unsubscribeFromTriggeringProperties (NodeId.reac r)
            (logEv (Ev.execR r) { e with current := some (NodeId.reac r) })) :=
        depsStep_entry _ (Ev.execR r) _ (fun _ _ => rfl)
      cases h : run n
          (Req.comp
            (((unsubscribeFromTriggeringProperties (NodeId.reac r)
              (logEv (Ev.execR r)
                { e with current := some (NodeId.reac r) })).reacs r).func))
          (unsubscribeFromTriggeringProperties (NodeId.reac r)
            (logEv (Ev.execR r) { e with current := some (NodeId.reac r) })) with
      | ok v e3 =>
        have h1 := ih (Req.comp
            (((unsubscribeFromTriggeringProperties (NodeId.reac r)
              (logEv (Ev.execR r)
                { e with current := some (NodeId.reac r) })).reacs r).func))
          (unsubscribeFromTriggeringProperties (NodeId.reac r)
            (logEv (Ev.execR r) { e with current := some (NodeId.reac r) }))
        rw [h] at h1
        (try dsimp only)
        exact depsStep_trans (depsStep_trans hpre h1)
          (depsStep_same_maps rfl rfl rfl)
      | thrown s =>
        have h1 := ih (Req.comp
            (((unsubscribeFromTriggeringProperties (NodeId.reac r)
              (logEv (Ev.execR r)
                { e with current := some (NodeId.reac r) })).reacs r).func))
          (unsubscribeFromTriggeringProperties (NodeId.reac r)
            (logEv (Ev.execR r) { e with current := some (NodeId.reac r) }))
        rw [h] at h1
        (try dsimp only)
        exact depsStep_trans (depsStep_trans hpre h1)
          (depsStep_same_maps rfl rfl rfl)
      | timeout => trivial
    | round l =>
      simp only [runStep_round, roundF]
      cases l with
      | nil => exact depsStep_refl e
      | cons r rest =>
        dsimp only
        have hbase : DepsStep e
            ({ e with deferred := e.deferred.filter (fun x => x ≠ r) }) :=
          depsStep_same_maps rfl rfl rfl
        cases h : run n (Req.exeReac r)
            { e with deferred := e.deferred.filter (fun x => x ≠ r) } with
        | ok v e2 =>
          have h1 := ih (Req.exeReac r)
            { e with deferred := e.deferred.filter (fun x => x ≠ r) }
          rw [h] at h1
          (try dsimp only)
          exact depsPres_mono (depsStep_trans hbase h1) (ih _ _)
        | thrown s =>
          have h1 := ih (Req.exeReac r)
            { e with deferred := e.deferred.filter (fun x => x ≠ r) }
          rw [h] at h1
          (try dsimp only)
          exact depsStep_trans hbase h1
        | timeout => trivial
    | flush iter =>
      simp only [runStep_flush, flushF]
      split
      · cases h : run n (Req.round e.deferred) e with
        | ok v e2 =>
          have h1 := ih (Req.round e.deferred) e
          rw [h] at h1
          (try dsimp only)
          exact depsPres_mono h1 (ih _ _)
        | thrown s =>
          have h1 := ih (Req.round e.deferred) e
          rw [h] at h1
          (try dsimp only)
          exact h1
        | timeout => trivial
      · split
        · exact depsStep_refl e
        · exact depsStep_same_maps rfl rfl rfl

end DepsRun

section C5Section

variable {V : Type} [Inhabited V] [DecidableEq V]

theorem getTrig_setCur (c : NodeId) (e : Engine V) (x : Option NodeId) :
    getTrig c { e with current := x } = getTrig c e := by
  cases c <;> rfl

/-- C5 (amended): when a consumer (a Reaction, or a Property recomputing
as a consumer) finishes re-executing its function, its dependency set
equals exactly the producers it has read since its most recent
unsubscription within the run (the replay, over the empty set, of its
dependency-registration and unsubscription events in the log segment the
run produced).  The run starts by unsubscribing the consumer, so these are
producers read during this run; a setValue on the very property
mid-recompute unsubscribes again and discards the reads made before it. -/
theorem execute_rebuilds_deps (fuel : Nat) (e : Engine V) :
    (∀ (r : RId) (v : V) (e2 : Engine V),
      run (fuel + 1) (Req.exeReac r) e = Outcome.ok v e2 →
      ∃ L, e2.log = L ++ e.log ∧
        getTrig (NodeId.reac r) e2 = readsSince (NodeId.reac r) L) ∧
    (∀ (p : PId) (v : V) (e2 : Engine V),
      run (fuel + 1) (Req.exeProp p) e = Outcome.ok v e2 →
      ∃ L, e2.log = L ++ e.log ∧
        getTrig (NodeId.prop p) e2 = readsSince (NodeId.prop p) L) := by
  constructor
  · intro r v e2 h
    rw [run_succ] at h
    simp only [runStep_exeReac, exeReacF] at h
    cases hc : run fuel
        (Req.comp
          (((unsubscribeFromTriggeringProperties (NodeId.reac r)
            (logEv (Ev.execR r)
              { e with current := some (NodeId.reac r) })).reacs r).func))
        (unsubscribeFromTriggeringProperties (NodeId.reac r)
          (logEv (Ev.execR r) { e with current := some (NodeId.reac r) })) with
    | ok w e3 =>
      rw [hc] at h
      (try dsimp only at h)
      injection h with h1 h2
      have hd := run_depsPres fuel
        (Req.comp
          (((unsubscribeFromTriggeringProperties (NodeId.reac r)
            (logEv (Ev.execR r)
              { e with current := some (NodeId.reac r) })).reacs r).func))
        (unsubscribeFromTriggeringProperties (NodeId.reac r)
          (logEv (Ev.execR r) { e with current := some (NodeId.reac r) }))
      rw [hc] at hd
      obtain ⟨L3, hlog, htrig⟩ := hd
      have htrig2 : getTrig (NodeId.reac r) e3 =
          depsEvo (NodeId.reac r) [] L3 := by
        rw [htrig (NodeId.reac r), getTrig_unsub_self]
      have hulog := log_unsub (NodeId.reac r)
        (logEv (Ev.execR r) { e with current := some (NodeId.reac r) })
      by_cases hT : getTrig (NodeId.reac r)
          (logEv (Ev.execR r) { e with current := some (NodeId.reac r) }) = []
      · refine ⟨L3 ++ [Ev.execR r], ?_, ?_⟩
        · rw [← h2]
          show e3.log = _
          rw [hlog, hulog, if_pos hT]
          rw [List.append_assoc]
          rfl
        · rw [← h2, getTrig_setCur, htrig2, readsSince, depsEvo_append]
          rfl
      · refine ⟨L3 ++ [Ev.unsub (NodeId.reac r), Ev.execR r], ?_, ?_⟩
        · rw [← h2]
          show e3.log = _
          rw [hlog, hulog, if_neg hT]
          rw [List.append_assoc]
          rfl
        · rw [← h2, getTrig_setCur, htrig2, readsSince, depsEvo_append]
          show depsEvo (NodeId.reac r) [] L3 =
            depsEvo (NodeId.reac r)
              (applyEv (NodeId.reac r) (Ev.unsub (V := V) (NodeId.reac r))
                (applyEv (NodeId.reac r) (Ev.execR (V := V) r) [])) L3
          show depsEvo (NodeId.reac r) [] L3 =
            depsEvo (NodeId.reac r)
              (if (NodeId.reac r) = (NodeId.reac r) then []
                else applyEv (NodeId.reac r) (Ev.execR (V := V) r) []) L3
          rw [if_pos rfl]
    | thrown s =>
      rw [hc] at h
      exact Outcome.noConfusion h
    | timeout =>
      rw [hc] at h
      exact Outcome.noConfusion h
  · intro p v e2 h
    rw [run_succ] at h
    simp only [runStep_exeProp, exePropF] at h
    cases hc : run fuel
        (Req.comp
          ((((unsubscribeFromTriggeringProperties (NodeId.prop p)
            (logEv (Ev.invokeP p)
              { e with current := some (NodeId.prop p) })).props p).func).getD
            (Comp.pure default)))
        (unsubscribeFromTriggeringProperties (NodeId.prop p)
          (logEv (Ev.invokeP p) { e with current := some (NodeId.prop p) })) with
    | ok w e3 =>
      rw [hc] at h
      (try dsimp only at h)
      injection h with h1 h2
      have hd := run_depsPres fuel
        (Req.comp
          ((((unsubscribeFromTriggeringProperties (NodeId.prop p)
            (logEv (Ev.invokeP p)
              { e with current := some (NodeId.prop p) })).props p).func).getD
            (Comp.pure default)))
        (unsubscribeFromTriggeringProperties (NodeId.prop p)
          (logEv (Ev.invokeP p) { e with current := some (NodeId.prop p) }))
      rw [hc] at hd
      obtain ⟨L3, hlog, htrig⟩ := hd
      have htrig2 : getTrig (NodeId.prop p) e3 =
          depsEvo (NodeId.prop p) [] L3 := by
        rw [htrig (NodeId.prop p), getTrig_unsub_self]
      have hulog := log_unsub (NodeId.prop p)
        (logEv (Ev.invokeP p) { e with current := some (NodeId.prop p) })
      by_cases hT : getTrig (NodeId.prop p)
          (logEv (Ev.invokeP p) { e with current := some (NodeId.prop p) }) = []
      · refine ⟨L3 ++ [Ev.invokeP p], ?_, ?_⟩
        · rw [← h2]
          show e3.log = _
          rw [hlog, hulog, if_pos hT]
          rw [List.append_assoc]
          rfl
        · rw [← h2, getTrig_setCur, htrig2, readsSince, depsEvo_append]
          rfl
      · refine ⟨L3 ++ [Ev.unsub (NodeId.prop p), Ev.invokeP p], ?_, ?_⟩
        · rw [← h2]
          show e3.log = _
          rw [hlog, hulog, if_neg hT]
          rw [List.append_assoc]
          rfl
        · rw [← h2, getTrig_setCur, htrig2, readsSince, depsEvo_append]
          show depsEvo (NodeId.prop p) [] L3 =
            depsEvo (NodeId.prop p)
              (applyEv (NodeId.prop p) (Ev.unsub (V := V) (NodeId.prop p))
                (applyEv (NodeId.prop p) (Ev.invokeP (V := V) p) [])) L3
          show depsEvo (NodeId.prop p) [] L3 =
            depsEvo (NodeId.prop p)
              (if (NodeId.prop p) = (NodeId.prop p) then []
                else applyEv (NodeId.prop p) (Ev.invokeP (V := V) p) []) L3
          rw [if_pos rfl]
    | thrown s =>
      rw [hc] at h
      exact Outcome.noConfusion h
    | timeout =>
      rw [hc] at h
      exact Outcome.noConfusion h

end C5Section

section C9Section

variable {V : Type} [Inhabited V] [DecidableEq V]

theorem setFunction_lazy (n : Nat) (p : PId) (f : Comp V) (e : Engine V)
    (htrig : (e.props p).triggeringProperties = [])
    (hdeps : (e.props p).dependentReactions = [])
    (hdirty : (e.props p).dirty = false)
    (hdef : e.isDeferred = false)
    (hdefer : e.deferred = []) :
    setFunction (n + 2) p f e =
      Outcome.ok default
        ({ updProp p (fun ps => { ps with dirty := true })
            (logEv (Ev.invalidate (NodeId.prop p) true)
              ({ updProp p (fun ps => { ps with func := some f }) e with
                isDeferred := true })) with
          isDeferred := false
          deferred := [] }) := by
  have h1 : unsubscribeFromTriggeringProperties (NodeId.prop p) e = e := by
    unfold unsubscribeFromTriggeringProperties
    rw [if_pos (show getTrig (NodeId.prop p) e = [] from htrig)]
  have hnd : ¬(((logEv (Ev.invalidate (NodeId.prop p) true)
      ({ updProp p (fun ps => { ps with func := some f }) e with
        isDeferred := true })).props p).dirty = true) := by
    show ¬(((updProp p (fun ps => { ps with func := some f }) e).props
      p).dirty = true)
    rw [updProp_props_self]
    show ¬((e.props p).dirty = true)
    rw [hdirty]
    exact Bool.false_ne_true
  have hdeps2 : ((logEv (Ev.invalidate (NodeId.prop p) true)
      ({ updProp p (fun ps => { ps with func := some f }) e with
        isDeferred := true })).props p).dependentReactions = [] := by
    show ((updProp p (fun ps => { ps with func := some f }) e).props
      p).dependentReactions = []
    rw [updProp_props_self]
    show (e.props p).dependentReactions = []
    exact hdeps
  (try dsimp only at hnd hdeps2)
  have h2 : makeDirty (n + 2) (NodeId.prop p)
      ({ updProp p (fun ps => { ps with func := some f }) e with
        isDeferred := true }) =
      Outcome.ok default
        (updProp p (fun ps => { ps with dirty := true })
          (logEv (Ev.invalidate (NodeId.prop p) true)
            ({ updProp p (fun ps => { ps with func := some f }) e with
              isDeferred := true }))) := by
    unfold makeDirty
    rw [run_succ]
    simp only [runStep_mkDirty, mkDirtyF]
    rw [if_neg hnd, hdeps2]
    rw [run_succ]
    simp only [runStep_mkDirtyList, mkDirtyListF]
  have hflag : (!(updProp p (fun ps => { ps with func := some f })
      e).isDeferred) = true := by
    rw [updProp_isDeferred, hdef]
    rfl
  have hd4 : (updProp p (fun ps => { ps with dirty := true })
      (logEv (Ev.invalidate (NodeId.prop p) true)
        ({ updProp p (fun ps => { ps with func := some f }) e with
          isDeferred := true }))).deferred = [] := by
    show e.deferred = []
    exact hdefer
  unfold setFunction
  rw [h1]
  (try dsimp only)
  (try dsimp only at h2)
  rw [h2]
  (try dsimp only)
  rw [if_pos hflag]
  unfold doFlush
  exact convergesIn_flush_ok (ConvergesIn.done (n + 1) _ hd4) 64 (by decide)

end C9Section

section ClaimTheorems

set_option maxRecDepth 20000 in
set_option maxHeartbeats 4000000 in
/-- C1: glitch-free diamond.  Over the free value algebra DV (f, g, h
uninterpreted), setting A once inside one batch makes the closing flush
execute D's reaction exactly once, and during the flush B, C and D are
each read exactly once, returning the values recomputed from A's final
value base 1 — B = f(base 1), C = g(base 1), D = h(f(base 1), g(base 1)) —
never a mix of old and new. -/
theorem diamond_glitch_free :
    isOk dPost = true ∧
    dSeg.countP (isExecOf 0) = 1 ∧
    dSeg.filter (isReadRetOf 1) = [Ev.readRet 1 (DV.fS (DV.base 1))] ∧
    dSeg.filter (isReadRetOf 2) = [Ev.readRet 2 (DV.gS (DV.base 1))] ∧
    dSeg.filter (isReadRetOf 3) =
      [Ev.readRet 3 (DV.hS (DV.fS (DV.base 1)) (DV.gS (DV.base 1)))] := by
  decide

set_option maxRecDepth 40000 in
set_option maxHeartbeats 4000000 in
/-- C2 counterexample: the 64-reaction chain empties the pending set during
the 64th round, yet the flush still fails — so the error is not raised
exactly when the cap is exhausted with the pending set still non-empty. -/
theorem flush_cap_error_pending_empty :
    isThrown (doFlush 400 64 chainE) = true ∧
    (outState (doFlush 400 64 chainE) chainE).deferred = [] := by
  decide

/-- C2 (amended): the flush fails with the RecursiveBindingError exactly
when the pending set is non-empty at the start of each of the 64
iterations of its loop, i.e. exactly when all 64 rounds run; whether the
pending set is empty when the budget runs out is not consulted.  (The
success side is runsRounds/convergesIn duality: a workload whose pending
set empties after k < 64 rounds succeeds, see convergesIn_flush_ok.) -/
theorem flush_error_iff_64_rounds {V : Type} [Inhabited V] [DecidableEq V]
    (fuel : Nat) (e s : Engine V) (hD : e.isDeferred = true)
    (hnd : e.deferred.Nodup) :
    run fuel (Req.flush 64) e = Outcome.thrown s ↔ RunsRounds fuel 64 e s :=
  ⟨flush_thrown_runsRounds fuel 64 e s hD hnd, runsRounds_flush_thrown⟩

theorem flush_error_iff_64_rounds_witness :
    (run 2 (Req.flush 64) ({ engine0 Int with isDeferred := true }) =
        Outcome.thrown ({ engine0 Int with isDeferred := true }) ↔
      RunsRounds 2 64 ({ engine0 Int with isDeferred := true } : Engine Int)
        ({ engine0 Int with isDeferred := true })) :=
  flush_error_iff_64_rounds 2 _ _ rfl (by exact List.nodup_nil)

set_option maxRecDepth 40000 in
set_option maxHeartbeats 8000000 in
/-- C3 counterexample: on the diverging workload the flush throws, and the
thrown state still has the batch flag set and the pending set non-empty —
the teardown is skipped on failure. -/
theorem flush_failure_skips_teardown :
    isThrown (doFlush 400 64 divE) = true ∧
    (outState (doFlush 400 64 divE) divE).isDeferred = true ∧
    (outState (doFlush 400 64 divE) divE).deferred = [0] := by
  decide

/-- C3 (amended): when the outermost batch scope exits normally the
scheduler is torn down (isDeferred reset to false and the pending set
cleared), but when the flush fails with the RecursiveBindingError the
throw happens before the resets, so the batch flag is still set (and the
pending set is left as it happened to be). -/
theorem deferredGuard_teardown {V : Type} [Inhabited V] [DecidableEq V]
    (fuel iter : Nat) (e : Engine V) (hD : e.isDeferred = true)
    (hnd : e.deferred.Nodup) :
    (∀ v e2, run fuel (Req.flush iter) e = Outcome.ok v e2 →
      e2.isDeferred = false ∧ e2.deferred = []) ∧
    (∀ s, run fuel (Req.flush iter) e = Outcome.thrown s →
      s.isDeferred = true) :=
  ⟨fun v e2 h => flush_ok_teardown fuel iter e v e2 h,
   fun s h => flush_thrown_not_torn fuel iter e s hD hnd h⟩

theorem deferredGuard_teardown_witness :
    ({ engine0 Int with isDeferred := true } : Engine Int).isDeferred = true ∧
    ((∀ v e2, run 2 (Req.flush 64)
          ({ engine0 Int with isDeferred := true }) = Outcome.ok v e2 →
        e2.isDeferred = false ∧ e2.deferred = []) ∧
      (∀ s, run 2 (Req.flush 64)
          ({ engine0 Int with isDeferred := true }) = Outcome.thrown s →
        s.isDeferred = true)) :=
  ⟨rfl, deferredGuard_teardown 2 64 _ rfl (by exact List.nodup_nil)⟩

/-- C4: the edge-set symmetry invariant — a consumer is in a producer's
subscriber set iff the producer is in the consumer's dependency set — is
preserved by every operation of the engine (every request, hence every
composition of addTriggeringProperty and unsubscribeFromTriggeringProperties
the code performs), on normal completion and on unwinding alike. -/
theorem edge_symmetry_preserved {V : Type} [Inhabited V] [DecidableEq V]
    (fuel : Nat) (req : Req V) (e : Engine V) (hinv : EdgeInv e) :
    EdgePres (run fuel req e) :=
  run_edgeInv fuel req e hinv

theorem edge_symmetry_preserved_witness :
    EdgeInv (engine0 Int) ∧ EdgePres (run 5 (Req.setV 0 3) (engine0 Int)) := by
  have h0 : EdgeInv (engine0 Int) := by
    intro p c
    constructor
    · intro h
      exact absurd h (List.not_mem_nil _)
    · intro h
      cases c <;> exact absurd h (List.not_mem_nil _)
  exact ⟨h0, edge_symmetry_preserved 5 (Req.setV 0 3) (engine0 Int) h0⟩

set_option maxRecDepth 20000 in
set_option maxHeartbeats 2000000 in
/-- C5 counterexample: property 0's recompute reads producer 1 (the
dependency registration is in the log) and completes normally, yet its
dependency set afterwards is empty, not the set of producers read during
the run: the mid-recompute self-setValue removed the edge. -/
theorem deps_not_exactly_reads :
    isOk (getValue 50 0 c5e) = true ∧
    Ev.regDep (NodeId.prop 0) 1 ∈ (outState (getValue 50 0 c5e) c5e).log ∧
    ((outState (getValue 50 0 c5e) c5e).props 0).triggeringProperties = [] := by
  decide

theorem execute_rebuilds_deps_witness :
    ∃ v e2, run 10 (Req.exeReac 0) c5w = Outcome.ok v e2 ∧
      ∃ L, e2.log = L ++ c5w.log ∧
        getTrig (NodeId.reac 0) e2 = readsSince (NodeId.reac 0) L := by
  cases hc : run 10 (Req.exeReac 0) c5w with
  | ok v e2 => exact ⟨v, e2, rfl, (execute_rebuilds_deps 9 c5w).1 0 v e2 hc⟩
  | thrown s =>
    have hok : isOk (run 10 (Req.exeReac 0) c5w) = true := by decide
    rw [hc] at hok
    exact Bool.noConfusion hok
  | timeout =>
    have hok : isOk (run 10 (Req.exeReac 0) c5w) = true := by decide
    rw [hc] at hok
    exact Bool.noConfusion hok

theorem reentrant_read_witness :
    (reentE.props 0).dirty = true ∧
    (reentE.props 0).executionInProgress = true ∧
    run 1 (Req.getV 0) reentE =
      Outcome.ok ((reentE.props 0).value)
        (retLog 0 ((reentE.props 0).value)
          (staleMark 0 (registerCurrent 0 reentE))) :=
  ⟨rfl, rfl, getValue_reentrant_eq 0 0 reentE rfl rfl⟩

theorem staleCorrection_spec_witness :
    (staleE.props 0).reactionsWhoReceivedOldValue ≠ [] ∧
    ((∀ v e2, run 5 (Req.staleFix 0 5) staleE = Outcome.ok v e2 →
        (e2.props 0).reactionsWhoReceivedOldValue = [] ∧
        ((staleE.props 0).value ≠ 5 →
          ∀ c, some c ∈ (staleE.props 0).reactionsWhoReceivedOldValue →
            Ev.invalidate c true ∈ e2.log)) ∧
      ((staleE.props 0).value = 5 →
        run 6 (Req.staleFix 0 5) staleE =
          Outcome.ok default
            (updProp 0
              (fun ps => { ps with reactionsWhoReceivedOldValue := [] })
              staleE))) :=
  ⟨by decide, staleCorrection_spec 5 0 5 staleE (by decide)⟩

/-- C8: round semantics of the flush.  With the batch active and a
duplicate-free snapshot, one round executes every reaction of the snapshot
exactly once and nothing else (each entry is erased just before its
execution, so a reaction re-enqueued by side effects — now only in the
deferred set, not in the snapshot — is not re-executed this round; the
flush hands the new deferred set to the next round as its snapshot), the
batch flag stays set, and a round never throws. -/
theorem round_semantics {V : Type} [Inhabited V] [DecidableEq V]
    (fuel : Nat) (snap : List RId) (e : Engine V)
    (hD : e.isDeferred = true) (hnd : snap.Nodup) :
    (∀ v e2, run fuel (Req.round snap) e = Outcome.ok v e2 →
      (∀ r, countExec r e2.log =
        countExec r e.log + (if r ∈ snap then 1 else 0)) ∧
      e2.isDeferred = true) ∧
    (∀ s, run fuel (Req.round snap) e ≠ Outcome.thrown s) := by
  constructor
  · intro v e2 h
    have hs := runRound_spec fuel snap e hD hnd
    rw [h] at hs
    exact ⟨hs.1, hs.2.1.trans hD⟩
  · intro s h
    have hs := runRound_spec fuel snap e hD hnd
    rw [h] at hs
    exact hs

theorem round_semantics_witness :
    roundE.isDeferred = true ∧ ([0] : List RId).Nodup ∧
    ((∀ v e2, run 5 (Req.round [0]) roundE = Outcome.ok v e2 →
        (∀ r, countExec r e2.log =
          countExec r roundE.log + (if r ∈ ([0] : List RId) then 1 else 0)) ∧
        e2.isDeferred = true) ∧
      (∀ s, run 5 (Req.round [0]) roundE ≠ Outcome.thrown s)) :=
  ⟨rfl, by decide, round_semantics 5 [0] roundE rfl (by decide)⟩

/-- C9: laziness and memoization.  Binding a producer to a fresh (edgeless,
clean, idle-scheduler) property marks it dirty and invalidates it, but the
whole of setFunction produces only an invalidate event — the producer is
not invoked (no invokeP event exists in the resulting log, whose exact
value the equality gives); and reading any non-dirty property returns the
cached value, the state changing only by the dependency registration and
the read event — the producer is again not invoked, so repeated reads
without intervening invalidation invoke it at most once. -/
theorem property_lazy_and_memoized {V : Type} [Inhabited V] [DecidableEq V]
    (n : Nat) (p : PId) (f : Comp V) (e : Engine V)
    (htrig : (e.props p).triggeringProperties = [])
    (hdeps : (e.props p).dependentReactions = [])
    (hdirty : (e.props p).dirty = false)
    (hdef : e.isDeferred = false)
    (hdefer : e.deferred = []) :
    (setFunction (n + 2) p f e =
      Outcome.ok default
        ({ updProp p (fun ps => { ps with dirty := true })
            (logEv (Ev.invalidate (NodeId.prop p) true)
              ({ updProp p (fun ps => { ps with func := some f }) e with
                isDeferred := true })) with
          isDeferred := false
          deferred := [] })) ∧
    (∀ (fuel : Nat) (q : PId) (e3 : Engine V), (e3.props q).dirty = false →
      run (fuel + 1) (Req.getV q) e3 =
        Outcome.ok ((e3.props q).value)
          (retLog q ((e3.props q).value) (registerCurrent q e3))) :=
  ⟨setFunction_lazy n p f e htrig hdeps hdirty hdef hdefer,
   fun fuel q e3 h => getValue_memoized_eq fuel q e3 h⟩

theorem property_lazy_and_memoized_witness :
    ((engine0 Int).props 0).triggeringProperties = [] ∧
    ((engine0 Int).props 0).dependentReactions = [] ∧
    ((engine0 Int).props 0).dirty = false ∧
    (engine0 Int).isDeferred = false ∧
    (engine0 Int).deferred = [] ∧
    ((setFunction 2 0 (Comp.pure (1 : Int)) (engine0 Int) =
      Outcome.ok default
        ({ updProp 0 (fun ps => { ps with dirty := true })
            (logEv (Ev.invalidate (NodeId.prop 0) true)
              ({ updProp 0
                  (fun ps => { ps with func := some (Comp.pure (1 : Int)) })
                  (engine0 Int) with
                isDeferred := true })) with
          isDeferred := false
          deferred := [] })) ∧
    (∀ (fuel : Nat) (q : PId) (e3 : Engine Int), (e3.props q).dirty = false →
      run (fuel + 1) (Req.getV q) e3 =
        Outcome.ok ((e3.props q).value)
          (retLog q ((e3.props q).value) (registerCurrent q e3)))) :=
  ⟨rfl, rfl, rfl, rfl, rfl,
   property_lazy_and_memoized 0 0 (Comp.pure (1 : Int)) (engine0 Int)
     rfl rfl rfl rfl rfl⟩

/-- C10: null-safety of the stale-reader machinery.  From a state whose
stale sets hold no null consumer and whose log is clean, any run that
satisfies the entry condition (for a getValue request: some consumer is
current whenever a property is mid-recompute, which the engine itself
arranges on every path reaching a re-entrant read) keeps every
reactionsWhoReceivedOldValue set free of null and the log free of
null-staleInsert and null-dereference events — so the correction pass
never calls makeDirty through a null pointer. -/
theorem no_null_stale_reader {V : Type} [Inhabited V] [DecidableEq V]
    (fuel : Nat) (req : Req V) (e : Engine V) (hn : NoNullStale e)
    (hcl : CleanLog e) (hE : EntryOk req e) :
    NoNullStale (outState (run fuel req e) e) ∧
    CleanLog (outState (run fuel req e) e) := by
  have h := run_preInv fuel req e hn hE
  cases ho : run fuel req e with
  | ok v e2 =>
    rw [ho] at h
    exact ⟨h.1, h.2.2.2 hcl⟩
  | thrown s =>
    rw [ho] at h
    exact ⟨h.1, h.2 hcl⟩
  | timeout => exact ⟨hn, hcl⟩

theorem no_null_stale_reader_witness :
    NoNullStale (engine0 Int) ∧ CleanLog (engine0 Int) ∧
    EntryOk (Req.getV 0) (engine0 Int) ∧
    (NoNullStale (outState (run 5 (Req.getV 0) (engine0 Int)) (engine0 Int)) ∧
      CleanLog (outState (run 5 (Req.getV 0) (engine0 Int)) (engine0 Int))) := by
  have hn : NoNullStale (engine0 Int) := fun q => List.not_mem_nil _
  have hcl : CleanLog (engine0 Int) :=
    ⟨List.not_mem_nil _, List.not_mem_nil _⟩
  have hE : EntryOk (Req.getV 0) (engine0 Int) :=
    fun q h => Bool.noConfusion h
  exact ⟨hn, hcl, hE, no_null_stale_reader 5 (Req.getV 0) (engine0 Int) hn hcl hE⟩

end ClaimTheorems
